import Mathlib

/-!
A shallow embedding of slang's expression / sequence / property parser
(`Parser_expressions.cpp`), restricted to a declared subset of token kinds,
together with proofs about its behaviour on every finite token stream.

The embedding models:
  * the token cursor (`PState`): indexed lookahead `peekAt`, `consume`,
    `expect` (which synthesizes a missing token and emits a diagnostic),
  * the diagnostics sink (append-only list of `Diag` with linked notes),
  * the depth guard at the three grammar entry points
    (`parseSubExpression`, `parseSequenceExpr`, `parsePropertyExpr`),
  * every parsing routine of the source file that is reachable from the
    modeled token subset, written as one case of a single fuel-indexed
    recursion `go` over a call-descriptor type `Call`, with each case's
    body in a named definition mirroring the corresponding C++ function.

Token kinds outside the modeled subset (string/real literals, braces,
attribute markers, keyword names such as `this`/`super`/`new`, `inside`,
`dist`, `with`, strong/weak/temporal property keywords, ...) are omitted;
the branches of the source that can only trigger on those kinds are
dropped with a comment at the spot.  Helpers that live in other files of
the repository (`SyntaxFacts` operator tables, `Parser_base.h` list
parsing, the depth guard itself) are modelled from the specification and
say so in their doc comments.
-/

set_option linter.unusedVariables false

/-- Token kinds of the modeled subset (cf. the full `TokenKind` of the lexer). -/
inductive TokenKind where
  | Unknown
  | Identifier
  | IntegerLiteral
  | Plus
  | Star
  | MinusArrow
  | LessThanEquals
  | Question
  | Colon
  | MatchesKeyword
  | TripleAnd
  | OpenParenthesis
  | CloseParenthesis
  | OpenBracket
  | CloseBracket
  | Dot
  | DoubleColon
  | DoubleHash
  | DoublePlus
  | DoubleMinus
  | DefaultKeyword
  | CaseKeyword
  | EndCaseKeyword
  | Semicolon
  | Comma
  | Equals
  | Apostrophe
  | AndKeyword
  | OrKeyword
  | EndOfInput
  deriving DecidableEq, Repr

/-- A token: kind, payload (identifier id / literal value), source location,
and whether it was synthesized as "missing" by error recovery. -/
structure Token where
  kind : TokenKind
  val : Nat := 0
  loc : Nat := 0
  missing : Bool := false
  deriving DecidableEq, Repr

/-- Syntax node kinds produced by the modeled factory calls. -/
inductive SyntaxKind where
  | Unknown
  | ParseError
  | IntegerLiteralExpression
  | IdentifierName
  | IdentifierSelectName
  | ScopedName
  | ParenthesizedExpression
  | MinTypMaxExpression
  | UnaryPlusExpression
  | UnaryPreincrementExpression
  | UnaryPredecrementExpression
  | PostincrementExpression
  | PostdecrementExpression
  | AddExpression
  | MultiplyExpression
  | LogicalImplicationExpression
  | LessThanEqualExpression
  | NonblockingAssignmentExpression
  | LogicalOrExpression
  | ConditionalExpression
  | ConditionalPredicate
  | ConditionalPattern
  | MatchesClause
  | ExpressionPattern
  | VariablePattern
  | ElementSelectExpression
  | ElementSelect
  | BitSelect
  | SimpleRangeSelect
  | AscendingRangeSelect
  | DescendingRangeSelect
  | MemberAccessExpression
  | InvocationExpression
  | ArgumentList
  | OrderedArgument
  | NamedArgument
  | EmptyArgument
  | CastExpression
  | TimingControlExpression
  | CycleDelay
  | SimpleSequenceExpr
  | DelayedSequenceExpr
  | DelayedSequenceElement
  | SequenceRepetition
  | SequenceMatchList
  | ParenthesizedSequenceExpr
  | AndSequenceExpr
  | OrSequenceExpr
  | SimplePropertyExpr
  | ParenthesizedPropertyExpr
  | AndPropertyExpr
  | OrPropertyExpr
  | CasePropertyExpr
  | DefaultPropertyCaseItem
  | StandardPropertyCaseItem
  | SyntaxList
  | PairResult
  deriving DecidableEq, Repr

/-- Diagnostic codes used by the modeled parsing routines. -/
inductive DiagCode where
  | ExpectedToken
  | ExpectedExpression
  | InvalidAccessDotColon
  | MultipleDefaultCases
  | NotePreviousDefinition
  | CaseStatementEmpty
  | MaxRecursionDepthExceeded
  deriving DecidableEq, Repr

/-- One emitted diagnostic: code, location, and linked note diagnostics. -/
structure Diag where
  code : DiagCode
  loc : Nat
  notes : List (DiagCode × Nat) := []
  deriving DecidableEq, Repr

/-- Syntax tree: a tagged node over `SyntaxKind` whose children are nodes,
token leaves, or `null` (the C++ `nullptr` child). -/
inductive SyntaxNode where
  | null
  | leaf (t : Token)
  | node (k : SyntaxKind) (children : List SyntaxNode)
  deriving Repr

/-- The kind discriminant of a node (`SyntaxNode.kind` in the C++ tree). -/
def SyntaxNode.kindOf : SyntaxNode → SyntaxKind
  | .node k _ => k
  | _ => .Unknown

/-- Child access (the typed member accesses of the C++ tree). -/
def SyntaxNode.child : SyntaxNode → Nat → SyntaxNode
  | .node _ cs, n => cs.getD n .null
  | _, _ => .null

/-- Token child access. -/
def SyntaxNode.tokChild (sn : SyntaxNode) (n : Nat) : Token :=
  match sn.child n with
  | .leaf t => t
  | _ => { kind := .Unknown }

/-- The children list of a node. -/
def SyntaxNode.childrenOf : SyntaxNode → List SyntaxNode
  | .node _ cs => cs
  | _ => []

/-- Parser state: the token stream, the cursor position, the diagnostics
sink, and a flag recording that the step budget of the embedding ran out
(proved unreachable for the computed budget below). -/
structure PState where
  toks : List Token
  pos : Nat
  diags : List Diag := []
  fuelLow : Bool := false
  deriving Repr

/-- The end-of-input token the cursor reports past the last real token. -/
def eofToken (toks : List Token) : Token :=
  { kind := .EndOfInput, loc := toks.length }

/-- `peek(offset)`: indexed lookahead without consuming. -/
def PState.peekAt (s : PState) (i : Nat) : Token :=
  s.toks.getD (s.pos + i) (eofToken s.toks)

/-- `peek()`: the current token. -/
def PState.peek (s : PState) : Token :=
  s.peekAt 0

/-- Advance the cursor one token (saturating at end of input). -/
def PState.advance (s : PState) : PState :=
  if s.pos < s.toks.length then { s with pos := s.pos + 1 } else s

/-- `consume()`: return the current token and advance past it. -/
def PState.consume (s : PState) : Token × PState :=
  (s.peek, s.advance)

/-- Append a diagnostic with linked notes to the sink. -/
def addDiagN (code : DiagCode) (loc : Nat) (notes : List (DiagCode × Nat))
    (s : PState) : PState :=
  { s with diags := { code := code, loc := loc, notes := notes } :: s.diags }

/-- Append a plain diagnostic to the sink. -/
def addDiag (code : DiagCode) (loc : Nat) (s : PState) : PState :=
  addDiagN code loc [] s

/-- Whether a diagnostic was already reported at the current location.
Modelled from the spec: the recovery logic asks the sink whether the
current location already carries the most recent diagnostic. -/
def haveDiagAtCurrentLoc (s : PState) : Bool :=
  match s.diags with
  | [] => false
  | d :: _ => d.loc == s.peek.loc

/-- `expect(kind)`: consume on match; otherwise synthesize a missing token
of the requested kind at the current location and emit one diagnostic. -/
def PState.expect (s : PState) (k : TokenKind) : Token × PState :=
  if s.peek.kind = k then s.consume
  else ({ kind := k, loc := s.peek.loc, missing := true },
        addDiag .ExpectedToken s.peek.loc s)

/-- `consumeIf(kind)`: consume and return the token only on match. -/
def PState.consumeIf (s : PState) (k : TokenKind) : Option Token × PState :=
  if s.peek.kind = k then (some s.peek, s.advance) else (none, s)

/-- Grammar context flags (`ExpressionOptions`), passed immutably down the
call chain exactly like the C++ bitmask. -/
structure ExpressionOptions where
  allowSuperNewCall : Bool := false
  constraintContext : Bool := false
  proceduralAssignmentContext : Bool := false
  patternContext : Bool := false
  sequenceExpr : Bool := false
  disallowVectors : Bool := false
  deriving DecidableEq, Repr

/-- `ExpressionOptions::None`. -/
def ExpressionOptions.none : ExpressionOptions := {}

/-- Name parsing context flags (`NameOptions`). -/
structure NameOptions where
  isFirst : Bool := false
  expectingExpression : Bool := false
  sequenceExpr : Bool := false
  foreachName : Bool := false
  previousWasThis : Bool := false
  previousWasLocal : Bool := false
  deriving DecidableEq, Repr

/-- `NameOptions::None`. -/
def NameOptions.none : NameOptions := {}

/-- Operator descriptor table, value-expression binary operators.
Modelled from the spec: the numeric table is an external constant of
`SyntaxFacts`; only the relative order matters to the climb. -/
def getBinaryExpression : TokenKind → SyntaxKind
  | .Plus => .AddExpression
  | .Star => .MultiplyExpression
  | .MinusArrow => .LogicalImplicationExpression
  | .LessThanEquals => .LessThanEqualExpression
  | _ => .Unknown

/-- Binary sequence operators of the modeled subset.
Modelled from the spec (external operator table). -/
def getBinarySequenceExpr : TokenKind → SyntaxKind
  | .AndKeyword => .AndSequenceExpr
  | .OrKeyword => .OrSequenceExpr
  | _ => .Unknown

/-- Binary property operators of the modeled subset.
Modelled from the spec (external operator table). -/
def getBinaryPropertyExpr : TokenKind → SyntaxKind
  | .AndKeyword => .AndPropertyExpr
  | .OrKeyword => .OrPropertyExpr
  | _ => .Unknown

/-- Unary operators that may start a subexpression, for the modeled subset.
Modelled from the spec (external operator table). -/
def getUnaryPrefixExpression : TokenKind → SyntaxKind
  | .Plus => .UnaryPlusExpression
  | .DoublePlus => .UnaryPreincrementExpression
  | .DoubleMinus => .UnaryPredecrementExpression
  | _ => .Unknown

/-- Unary operators usable as a trailing suffix, for the modeled subset.
Modelled from the spec (external operator table). -/
def getUnaryPostfixExpression : TokenKind → SyntaxKind
  | .DoublePlus => .PostincrementExpression
  | .DoubleMinus => .PostdecrementExpression
  | _ => .Unknown

/-- Integer precedence of each modeled operator kind (higher binds tighter).
Modelled from the spec: the numeric table is an external constant; here
multiplicative sits above additive, additive above relational, and the
assignment-like and implication operators sit at the bottom. -/
def getPrecedence : SyntaxKind → Nat
  | .NonblockingAssignmentExpression => 1
  | .LogicalImplicationExpression => 2
  | .LogicalOrExpression => 3
  | .LessThanEqualExpression => 9
  | .AddExpression => 11
  | .MultiplyExpression => 12
  | .OrPropertyExpr => 2
  | .AndPropertyExpr => 3
  | .OrSequenceExpr => 4
  | .AndSequenceExpr => 5
  | _ => 0

/-- Associativity per operator kind; ties in the climb are broken by this.
Modelled from the spec (external operator table): the implication and
assignment-like operators are right-associative. -/
def isRightAssociative : SyntaxKind → Bool
  | .LogicalImplicationExpression => true
  | .NonblockingAssignmentExpression => true
  | _ => false

/-- Can this token start a delay or event control (`isPossibleDelayOrEventControl`)?
Within the modeled subset only `##` can. -/
def isPossibleDelayOrEventControl : TokenKind → Bool
  | .DoubleHash => true
  | _ => false

/-- Can this token start an expression (`isPossibleExpression` of
`SyntaxFacts`, modelled from the spec for the token subset)? -/
def isPossibleExpression : TokenKind → Bool
  | .Identifier => true
  | .IntegerLiteral => true
  | .OpenParenthesis => true
  | .Plus => true
  | .DoublePlus => true
  | .DoubleMinus => true
  | .DoubleHash => true
  | _ => false

/-- `isNotInType`: token kinds that cannot appear inside a type signature.
Modelled from the spec for the token subset (statement terminators and
end keywords stop the bounded type scan). -/
def isNotInType : TokenKind → Bool
  | .Semicolon => true
  | .EndOfInput => true
  | .EndCaseKeyword => true
  | _ => false

/-- `isSemicolon` (end predicate for the type bounded scan). -/
def isSemicolon : TokenKind → Bool
  | .Semicolon => true
  | _ => false

/-- A token that may be absent (`Token()` in C++), as a syntax child. -/
def optTok : Option Token → SyntaxNode
  | some t => .leaf t
  | none => .null

namespace factory

/-- `factory.literalExpression`. -/
def literalExpression (k : SyntaxKind) (t : Token) : SyntaxNode :=
  .node k [.leaf t]

/-- `factory.parenthesizedExpression`. -/
def parenthesizedExpression (openParen : Token) (e : SyntaxNode)
    (closeParen : Token) : SyntaxNode :=
  .node .ParenthesizedExpression [.leaf openParen, e, .leaf closeParen]

/-- `factory.minTypMaxExpression`. -/
def minTypMaxExpression (first : SyntaxNode) (colon1 : Token) (typ : SyntaxNode)
    (colon2 : Token) (max : SyntaxNode) : SyntaxNode :=
  .node .MinTypMaxExpression [first, .leaf colon1, typ, .leaf colon2, max]

/-- `factory.prefixUnaryExpression`. -/
def prefixUnaryExpression (k : SyntaxKind) (opToken : Token)
    (attributes operand : SyntaxNode) : SyntaxNode :=
  .node k [.leaf opToken, attributes, operand]

/-- `factory.postfixUnaryExpression`. -/
def postfixUnaryExpression (k : SyntaxKind) (operand attributes : SyntaxNode)
    (opToken : Token) : SyntaxNode :=
  .node k [operand, attributes, .leaf opToken]

/-- `factory.binaryExpression`. -/
def binaryExpression (k : SyntaxKind) (left : SyntaxNode) (opToken : Token)
    (attributes right : SyntaxNode) : SyntaxNode :=
  .node k [left, .leaf opToken, attributes, right]

/-- `factory.conditionalExpression`. -/
def conditionalExpression (predicate : SyntaxNode) (question : Token)
    (attributes lhs : SyntaxNode) (colon : Token) (rhs : SyntaxNode) : SyntaxNode :=
  .node .ConditionalExpression
    [predicate, .leaf question, attributes, lhs, .leaf colon, rhs]

/-- `factory.conditionalPredicate`. -/
def conditionalPredicate (items : List SyntaxNode) : SyntaxNode :=
  .node .ConditionalPredicate items

/-- `factory.conditionalPattern`. -/
def conditionalPattern (expr matchesClause : SyntaxNode) : SyntaxNode :=
  .node .ConditionalPattern [expr, matchesClause]

/-- `factory.matchesClause`. -/
def matchesClause (matchesKw : Token) (pattern : SyntaxNode) : SyntaxNode :=
  .node .MatchesClause [.leaf matchesKw, pattern]

/-- `factory.expressionPattern`. -/
def expressionPattern (expr : SyntaxNode) : SyntaxNode :=
  .node .ExpressionPattern [expr]

/-- `factory.variablePattern`. -/
def variablePattern (dot identifier : Token) : SyntaxNode :=
  .node .VariablePattern [.leaf dot, .leaf identifier]

/-- `factory.identifierName`. -/
def identifierName (identifier : Token) : SyntaxNode :=
  .node .IdentifierName [.leaf identifier]

/-- `factory.identifierSelectName`. -/
def identifierSelectName (identifier : Token) (selects : List SyntaxNode) : SyntaxNode :=
  .node .IdentifierSelectName (.leaf identifier :: selects)

/-- `factory.scopedName`. -/
def scopedName (left : SyntaxNode) (separator : Token) (right : SyntaxNode) : SyntaxNode :=
  .node .ScopedName [left, .leaf separator, right]

/-- `factory.elementSelect`. -/
def elementSelect (openBracket : Token) (selector : SyntaxNode)
    (closeBracket : Token) : SyntaxNode :=
  .node .ElementSelect [.leaf openBracket, selector, .leaf closeBracket]

/-- `factory.bitSelect`. -/
def bitSelect (expr : SyntaxNode) : SyntaxNode :=
  .node .BitSelect [expr]

/-- `factory.rangeSelect`. -/
def rangeSelect (k : SyntaxKind) (left : SyntaxNode) (range : Token)
    (right : SyntaxNode) : SyntaxNode :=
  .node k [left, .leaf range, right]

/-- `factory.elementSelectExpression`. -/
def elementSelectExpression (expr select : SyntaxNode) : SyntaxNode :=
  .node .ElementSelectExpression [expr, select]

/-- `factory.memberAccessExpression`. -/
def memberAccessExpression (expr : SyntaxNode) (dot name : Token) : SyntaxNode :=
  .node .MemberAccessExpression [expr, .leaf dot, .leaf name]

/-- `factory.invocationExpression`. -/
def invocationExpression (expr attributes args : SyntaxNode) : SyntaxNode :=
  .node .InvocationExpression [expr, attributes, args]

/-- `factory.argumentList`. -/
def argumentList (openParen : Token) (items : List SyntaxNode)
    (closeParen : Token) : SyntaxNode :=
  .node .ArgumentList [.leaf openParen, .node .SyntaxList items, .leaf closeParen]

/-- `factory.orderedArgument`. -/
def orderedArgument (expr : SyntaxNode) : SyntaxNode :=
  .node .OrderedArgument [expr]

/-- `factory.namedArgument`. -/
def namedArgument (dot name : Token) (innerOpenParen expr innerCloseParen : SyntaxNode) :
    SyntaxNode :=
  .node .NamedArgument [.leaf dot, .leaf name, innerOpenParen, expr, innerCloseParen]

/-- `factory.emptyArgument`. -/
def emptyArgument (placeholder : Token) : SyntaxNode :=
  .node .EmptyArgument [.leaf placeholder]

/-- `factory.castExpression`. -/
def castExpression (expr : SyntaxNode) (apostrophe : Token)
    (parenExpr : SyntaxNode) : SyntaxNode :=
  .node .CastExpression [expr, .leaf apostrophe, parenExpr]

/-- `factory.timingControlExpression`. -/
def timingControlExpression (timing expr : SyntaxNode) : SyntaxNode :=
  .node .TimingControlExpression [timing, expr]

/-- `factory.delay`. -/
def delay (k : SyntaxKind) (hash : Token) (delayVal : SyntaxNode) : SyntaxNode :=
  .node k [.leaf hash, delayVal]

/-- `factory.simpleSequenceExpr`. -/
def simpleSequenceExpr (expr repetition : SyntaxNode) : SyntaxNode :=
  .node .SimpleSequenceExpr [expr, repetition]

/-- `factory.delayedSequenceExpr`. -/
def delayedSequenceExpr (first : SyntaxNode) (elements : List SyntaxNode) : SyntaxNode :=
  .node .DelayedSequenceExpr (first :: elements)

/-- `factory.delayedSequenceElement`. -/
def delayedSequenceElement (hash : Token) (delayVal : SyntaxNode)
    (openBracket : Option Token) (op : Option Token) (selector : SyntaxNode)
    (closeBracket : Option Token) (expr : SyntaxNode) : SyntaxNode :=
  .node .DelayedSequenceElement
    [.leaf hash, delayVal, optTok openBracket, optTok op, selector,
     optTok closeBracket, expr]

/-- `factory.sequenceRepetition`. -/
def sequenceRepetition (openBracket op : Token) (selector : SyntaxNode)
    (closeBracket : Token) : SyntaxNode :=
  .node .SequenceRepetition [.leaf openBracket, .leaf op, selector, .leaf closeBracket]

/-- `factory.sequenceMatchList`. -/
def sequenceMatchList (comma : Token) (items : List SyntaxNode) : SyntaxNode :=
  .node .SequenceMatchList (.leaf comma :: items)

/-- `factory.parenthesizedSequenceExpr`. -/
def parenthesizedSequenceExpr (openParen : Token) (expr matchList : SyntaxNode)
    (closeParen : Token) (repetition : SyntaxNode) : SyntaxNode :=
  .node .ParenthesizedSequenceExpr
    [.leaf openParen, expr, matchList, .leaf closeParen, repetition]

/-- `factory.binarySequenceExpr`. -/
def binarySequenceExpr (k : SyntaxKind) (left : SyntaxNode) (opToken : Token)
    (right : SyntaxNode) : SyntaxNode :=
  .node k [left, .leaf opToken, right]

/-- `factory.simplePropertyExpr`. -/
def simplePropertyExpr (expr : SyntaxNode) : SyntaxNode :=
  .node .SimplePropertyExpr [expr]

/-- `factory.parenthesizedPropertyExpr`. -/
def parenthesizedPropertyExpr (openParen : Token) (expr : SyntaxNode)
    (closeParen : Token) : SyntaxNode :=
  .node .ParenthesizedPropertyExpr [.leaf openParen, expr, .leaf closeParen]

/-- `factory.binaryPropertyExpr`. -/
def binaryPropertyExpr (k : SyntaxKind) (left : SyntaxNode) (opToken : Token)
    (right : SyntaxNode) : SyntaxNode :=
  .node k [left, .leaf opToken, right]

/-- `factory.casePropertyExpr`. -/
def casePropertyExpr (keyword openParen : Token) (condition : SyntaxNode)
    (closeParen : Token) (items : List SyntaxNode) (endcase : Token) : SyntaxNode :=
  .node .CasePropertyExpr
    [.leaf keyword, .leaf openParen, condition, .leaf closeParen,
     .node .SyntaxList items, .leaf endcase]

/-- `factory.defaultPropertyCaseItem`. -/
def defaultPropertyCaseItem (defKeyword : Token) (colon : Option Token)
    (expr : SyntaxNode) (semi : Token) : SyntaxNode :=
  .node .DefaultPropertyCaseItem [.leaf defKeyword, optTok colon, expr, .leaf semi]

/-- `factory.standardPropertyCaseItem`. -/
def standardPropertyCaseItem (exprs : List SyntaxNode) (colon : Token)
    (expr : SyntaxNode) (semi : Token) : SyntaxNode :=
  .node .StandardPropertyCaseItem
    [.node .SyntaxList exprs, .leaf colon, expr, .leaf semi]

end factory

/-- The fixed maximum recursion depth of the depth guard.
Modelled from the spec (§4.1): the value of the constant is not fixed by
the spec; a small value keeps the examples small. -/
def maxRecursionDepth : Nat := 16

/-- `parseAttributes`: the attribute-instance opener `(*` is outside the
modeled token subset, so the attribute list is always empty. -/
def parseAttributes (s : PState) : SyntaxNode × PState :=
  (.null, s)

/-- `scanTypePart`: scan forward past a balanced delimiter group starting
just before `index`, never consuming; returns whether the group closed and
the index just past it.  Modelled from the spec (§4.7): a pure bounded
scan over indexed lookahead tracking nesting depth, stopping at tokens
that cannot be part of a type and at end of input.  The step budget is
supplied by the caller and proved sufficient below. -/
def scanTypePart (isEnd : TokenKind → Bool) (s : PState) :
    Nat → Nat → TokenKind → TokenKind → Nat → Option (Bool × Nat)
  | 0, _, _, _, _ => Option.none
  | fuel + 1, index, startK, endK, nesting =>
    let kind := (s.peekAt index).kind
    if isEnd kind ∨ kind = .EndOfInput then some (false, index)
    else
      let index := index + 1
      if kind = startK then scanTypePart isEnd s fuel index startK endK (nesting + 1)
      else if kind = endK then
        if nesting ≤ 1 then some (true, index)
        else scanTypePart isEnd s fuel index startK endK (nesting - 1)
      else scanTypePart isEnd s fuel index startK endK nesting

/-- The loop of `isConditionalExpression`: scan forward from `index` for a
`?` at nesting depth zero, crossing balanced groups, never consuming.
(The `{`/`}` case of the source needs the brace tokens, which are outside
the modeled subset.) -/
def isCondExprScan (s : PState) : Nat → Nat → Option Bool
  | 0, _ => Option.none
  | fuel + 1, index =>
    let kind := (s.peekAt index).kind
    let index := index + 1
    match kind with
    | .Question => some true
    | .CloseParenthesis => some false
    | .OpenParenthesis =>
      match scanTypePart isNotInType s (s.toks.length + 1) index
          .OpenParenthesis .CloseParenthesis 1 with
      | some (true, index') => isCondExprScan s fuel index'
      | some (false, _) => some false
      | Option.none => Option.none
    | .OpenBracket =>
      match scanTypePart isNotInType s (s.toks.length + 1) index
          .OpenBracket .CloseBracket 1 with
      | some (true, index') => isCondExprScan s fuel index'
      | some (false, _) => some false
      | Option.none => Option.none
    | _ => if isNotInType kind then some false else isCondExprScan s fuel index

/-- `Parser::isConditionalExpression`: a pure bounded-scan predicate; it
reads only via indexed lookahead and returns the state unchanged. -/
def isConditionalExpression (s : PState) : Bool × PState :=
  ((isCondExprScan s (s.toks.length + 2) 1).getD false, s)

/-- `Parser::isSequenceRepetition`: a pure bounded-scan predicate over the
next two lookahead tokens; it returns the state unchanged. -/
def isSequenceRepetition (s : PState) : Bool × PState :=
  (match (s.peekAt 1).kind with
   | .Star => true
   | .Equals => true
   | .MinusArrow => true
   | .Plus => (s.peekAt 2).kind == .CloseBracket
   | _ => false,
   s)

/-- `isBinaryOrPostfixExpression` (the `(*` and `dist` entries are outside
the modeled token subset). -/
def isBinaryOrPostfixExpression (kind : TokenKind) : Bool :=
  match kind with
  | .Dot => true
  | .OpenParenthesis => true
  | .Apostrophe => true
  | .Question => true
  | k => getBinaryExpression k != .Unknown

/-- Call descriptors: one constructor per parsing routine (each a C++
member function or one of its loops), carrying the routine's arguments.
The shared recursion `go` below dispatches on them. -/
inductive Call where
  | sub (options : ExpressionOptions) (precedence depth : Nat)
  | prim (options : ExpressionOptions) (depth : Nat)
  | mtm (depth : Nat)
  | bin (left : SyntaxNode) (options : ExpressionOptions) (precedence depth : Nat)
  | cstage (left : SyntaxNode) (options : ExpressionOptions) (precedence depth : Nat)
  | cpred (first : SyntaxNode) (endKind : TokenKind) (depth : Nat)
  | cpatLoop (acc : List SyntaxNode) (endKind : TokenKind) (depth : Nat)
  | pat (depth : Nat)
  | cpat (depth : Nat)
  | post (lhs : SyntaxNode) (options : ExpressionOptions) (depth : Nat)
  | name (options : NameOptions) (depth : Nat)
  | nameLoop (nm : SyntaxNode) (previousKind : SyntaxKind)
      (usedDot reportedError : Bool) (options : NameOptions) (depth : Nat)
  | npart (options : NameOptions) (depth : Nat)
  | npsels (acc : List SyntaxNode) (depth : Nat)
  | esel (depth : Nat)
  | eselr (depth : Nat)
  | argl (isParamAssignment : Bool) (depth : Nat)
  | arglLoop (acc : List SyntaxNode) (isParamAssignment : Bool) (depth : Nat)
  | arg (isParamAssignment : Bool) (depth : Nat)
  | tc (depth : Nat)
  | eod (options : ExpressionOptions) (depth : Nat)
  | fixp (inner : SyntaxNode) (openParen : Token) (depth : Nat)
  | seq (precedence : Nat) (isInProperty : Bool) (depth : Nat)
  | seqLoop (left : SyntaxNode) (precedence : Nat) (isInProperty : Bool) (depth : Nat)
  | seqp (depth : Nat)
  | dseq (first : SyntaxNode) (acc : List SyntaxNode) (depth : Nat)
  | srep (depth : Nat)
  | sml (depth : Nat)
  | smlLoop (acc : List SyntaxNode) (depth : Nat)
  | prop (precedence depth : Nat)
  | propLoop (left : SyntaxNode) (precedence depth : Nat)
  | propp (depth : Nat)
  | casep (depth : Nat)
  | caseItems (acc : List SyntaxNode) (lastDefault : Option Nat)
      (errored : Bool) (depth : Nat)
  | caseExprList (acc : List SyntaxNode) (depth : Nat)

/-- The type of the recursion callback handed to every routine body. -/
abbrev ParseFn := Call → PState → SyntaxNode × PState

/-- `Parser::parseSubExpression` (the depth guard itself is modelled from
the spec, §4.1: exceeding the fixed maximum depth aborts only the current
subtree, with an error diagnostic). -/
def parseSubExpression (R : ParseFn) (options : ExpressionOptions)
    (precedence depth : Nat) (s : PState) : SyntaxNode × PState :=
  if maxRecursionDepth ≤ depth then
    (.node .ParseError [], addDiag .MaxRecursionDepthExceeded s.peek.loc s)
  else
    let d := depth + 1
    let current := s.peek
    if isPossibleDelayOrEventControl current.kind then
      let r1 := R (.tc d) s
      let r2 := R (.sub ExpressionOptions.none 0 d) r1.2
      let expr := factory.timingControlExpression r1.1 r2.1
      R (.post expr options d) r2.2
    else
      -- The TaggedKeyword branch needs the `tagged` token (outside the
      -- modeled subset).
      let opKind := getUnaryPrefixExpression current.kind
      if opKind ≠ .Unknown then
        let c1 := s.consume
        let a1 := parseAttributes c1.2
        let r1 := R (.prim options d) a1.2
        let r2 := R (.post r1.1 options d) r1.2
        let leftOperand := factory.prefixUnaryExpression opKind c1.1 a1.1 r2.1
        let options := { options with allowSuperNewCall := false }
        R (.bin leftOperand options precedence d) r2.2
      else
        let r1 := R (.prim options d) s
        -- isNewExpr / parseNewExpression: unreachable without the `new`
        -- keyword token (outside the modeled subset), so dropped.
        let r2 := R (.post r1.1 options d) r1.2
        let options := { options with allowSuperNewCall := false }
        R (.bin r2.1 options precedence d) r2.2

/-- `Parser::parsePrimaryExpression`, restricted to the modeled token
subset (string/time/real literals, braces, signed casts, system names and
the standalone data-type branch need tokens outside the subset). -/
def parsePrimaryExpression (R : ParseFn) (options : ExpressionOptions)
    (depth : Nat) (s : PState) : SyntaxNode × PState :=
  match s.peek.kind with
  | .IntegerLiteral =>
    -- parseIntegerExpression: the number parser is an external
    -- collaborator; a lone integer token becomes a literal node.
    let c := s.consume
    (factory.literalExpression .IntegerLiteralExpression c.1, c.2)
  | .OpenParenthesis =>
    let c := s.consume
    let r := R (.mtm depth) c.2
    let e := r.2.expect .CloseParenthesis
    (factory.parenthesizedExpression c.1 r.1 e.1, e.2)
  | _ =>
    -- Within the subset, isPossibleDataType holds only for identifiers,
    -- so the data-type branch (which excludes identifiers) is dropped;
    -- likewise the assignment-pattern check needs the unmodeled token.
    let nameOptions : NameOptions :=
      { expectingExpression := true, sequenceExpr := options.sequenceExpr }
    R (.name nameOptions depth) s

/-- `Parser::parseMinTypMaxExpression`. -/
def parseMinTypMaxExpression (R : ParseFn) (depth : Nat) (s : PState) :
    SyntaxNode × PState :=
  let r1 := R (.sub ExpressionOptions.none 0 depth) s
  if r1.2.peek.kind = .Colon then
    let c1 := r1.2.consume
    let r2 := R (.sub ExpressionOptions.none 0 depth) c1.2
    let e := r2.2.expect .Colon
    let r3 := R (.sub ExpressionOptions.none 0 depth) e.2
    (factory.minTypMaxExpression r1.1 c1.1 r2.1 e.1 r3.1, r3.2)
  else (r1.1, r1.2)

/-- One step of the while-loop of `Parser::parseBinaryExpression`: the
precedence climb.  After the loop breaks, control passes to the
conditional stage (`Call.cstage`, lines 140-163 of the source). -/
def parseBinaryExpression (R : ParseFn) (left : SyntaxNode)
    (options : ExpressionOptions) (precedence depth : Nat) (s : PState) :
    SyntaxNode × PState :=
  let current := s.peek
  let opKind0 := getBinaryExpression current.kind
  if opKind0 = .Unknown then
    R (.cstage left options precedence depth) s
  else if opKind0 = .LogicalImplicationExpression ∧
      options.constraintContext = true then
    -- the implication operator in constraint blocks is special
    R (.cstage left options precedence depth) s
  else
    let opKind :=
      if opKind0 = .LessThanEqualExpression ∧
          options.proceduralAssignmentContext = true then
        SyntaxKind.NonblockingAssignmentExpression
      else opKind0
    let options := { options with proceduralAssignmentContext := false }
    let newPrecedence := getPrecedence opKind
    if newPrecedence < precedence then
      R (.cstage left options precedence depth) s
    else if newPrecedence = precedence ∧ isRightAssociative opKind = false then
      R (.cstage left options precedence depth) s
    else
      -- the InsideExpression special case needs the `inside` keyword
      -- (outside the modeled subset).
      let c := s.consume
      let a := parseAttributes c.2
      let r := R (.sub options newPrecedence depth) a.2
      R (.bin (factory.binaryExpression opKind left c.1 a.1 r.1)
          options precedence depth) r.2

/-- The conditional stage of `Parser::parseBinaryExpression`: take a `?:`
only outside pattern context and below the conditional's precedence
level; for `matches`/`&&&` scan ahead for a `?` before committing. -/
def conditionalStage (R : ParseFn) (left : SyntaxNode)
    (options : ExpressionOptions) (precedence depth : Nat) (s : PState) :
    SyntaxNode × PState :=
  let logicalOrPrecedence := getPrecedence .LogicalOrExpression
  if options.patternContext = false ∧ precedence < logicalOrPrecedence then
    let current := s.peek
    let takeConditional :=
      if current.kind = .MatchesKeyword ∨ current.kind = .TripleAnd then
        (isConditionalExpression s).1
      else current.kind == .Question
    if takeConditional = true then
      let r1 := R (.cpred left .Question depth) s
      let predicate := r1.1.child 0
      let question := r1.1.tokChild 1
      let a := parseAttributes r1.2
      let r2 := R (.sub options (logicalOrPrecedence - 1) depth) a.2
      let e := r2.2.expect .Colon
      let r3 := R (.sub options (logicalOrPrecedence - 1) depth) e.2
      (factory.conditionalExpression predicate question a.1 r2.1 e.1 r3.1, r3.2)
    else (left, s)
  else (left, s)

/-- `Parser::parseConditionalPredicate`; the result is a `PairResult`
holding the predicate node and the consumed end token (the C++ out
parameter `end`). -/
def parseConditionalPredicate (R : ParseFn) (first : SyntaxNode)
    (endKind : TokenKind) (depth : Nat) (s : PState) : SyntaxNode × PState :=
  let m :=
    if s.peek.kind = .MatchesKeyword then
      let c := s.consume
      let rp := R (.pat depth) c.2
      (factory.matchesClause c.1 rp.1, rp.2)
    else (SyntaxNode.null, s)
  let firstPat := factory.conditionalPattern first m.1
  if m.2.peek.kind = .TripleAnd then
    let c := m.2.consume
    R (.cpatLoop [firstPat, .leaf c.1] endKind depth) c.2
  else
    let e := m.2.expect endKind
    (.node .PairResult [factory.conditionalPredicate [firstPat], .leaf e.1], e.2)

/-- The `&&&`-separated predicate list of `parseConditionalPredicate`.
Modelled from the spec (§4.4): the generic separated-list routine of the
parser base, items separated by `&&&` until the end token. -/
def parseConditionalPatternList (R : ParseFn) (acc : List SyntaxNode)
    (endKind : TokenKind) (depth : Nat) (s : PState) : SyntaxNode × PState :=
  let r := R (.cpat depth) s
  let acc := acc ++ [r.1]
  if r.2.peek.kind = .TripleAnd then
    let c := r.2.consume
    R (.cpatLoop (acc ++ [.leaf c.1]) endKind depth) c.2
  else
    let e := r.2.expect endKind
    (.node .PairResult [factory.conditionalPredicate acc, .leaf e.1], e.2)

/-- `Parser::parsePattern` (the `.*`, `tagged` and assignment-pattern
openers are outside the modeled subset). -/
def parsePattern (R : ParseFn) (depth : Nat) (s : PState) : SyntaxNode × PState :=
  match s.peek.kind with
  | .Dot =>
    let c := s.consume
    let e := c.2.expect .Identifier
    (factory.variablePattern c.1 e.1, e.2)
  | _ =>
    let r := R (.sub { patternContext := true } 0 depth) s
    (factory.expressionPattern r.1, r.2)

/-- `Parser::parseConditionalPattern`. -/
def parseConditionalPattern (R : ParseFn) (depth : Nat) (s : PState) :
    SyntaxNode × PState :=
  let r := R (.sub { patternContext := true } 0 depth) s
  let m :=
    if r.2.peek.kind = .MatchesKeyword then
      let c := r.2.consume
      let rp := R (.pat depth) c.2
      (factory.matchesClause c.1 rp.1, rp.2)
    else (SyntaxNode.null, r.2)
  (factory.conditionalPattern r.1 m.1, m.2)

/-- `Parser::parsePostfixExpression` (the `(*` attribute form and the
`with` suffix need tokens outside the modeled subset). -/
def parsePostfixExpression (R : ParseFn) (lhs : SyntaxNode)
    (options : ExpressionOptions) (depth : Nat) (s : PState) :
    SyntaxNode × PState :=
  match s.peek.kind with
  | .OpenBracket =>
    if options.sequenceExpr = true ∧ (isSequenceRepetition s).1 = true then
      (lhs, s)
    else
      let r := R (.esel depth) s
      R (.post (factory.elementSelectExpression lhs r.1) options depth) r.2
  | .Dot =>
    let c := s.consume
    let e := c.2.expect .Identifier
    R (.post (factory.memberAccessExpression lhs c.1 e.1) options depth) e.2
  | .OpenParenthesis =>
    -- allowClocking (clocking-event arguments) needs the `@` token,
    -- which is outside the modeled subset.
    let r := R (.argl false depth) s
    R (.post (factory.invocationExpression lhs .null r.1) options depth) r.2
  | .DoublePlus =>
    -- cannot have any other postfix expressions after inc/dec
    let c := s.consume
    (factory.postfixUnaryExpression (getUnaryPostfixExpression c.1.kind)
      lhs .null c.1, c.2)
  | .DoubleMinus =>
    let c := s.consume
    (factory.postfixUnaryExpression (getUnaryPostfixExpression c.1.kind)
      lhs .null c.1, c.2)
  | .Apostrophe =>
    let c := s.consume
    let e1 := c.2.expect .OpenParenthesis
    let r := R (.sub ExpressionOptions.none 0 depth) e1.2
    let e2 := r.2.expect .CloseParenthesis
    let parenExpr := factory.parenthesizedExpression e1.1 r.1 e2.1
    R (.post (factory.castExpression lhs c.1 parenExpr) options depth) e2.2
  | _ => (lhs, s)

/-- `Parser::parseName` entry: parse the first part, then the separator
loop.  The trailing `$unit`/`$root`/`super`/`local` follow-up block needs
keyword-name node kinds outside the modeled subset and is dropped. -/
def parseName (R : ParseFn) (options : NameOptions) (depth : Nat) (s : PState) :
    SyntaxNode × PState :=
  let r := R (.npart { options with isFirst := true } depth) s
  let options := { options with expectingExpression := false }
  R (.nameLoop r.1 r.1.kindOf false false options depth) r.2

/-- The separator loop of `Parser::parseName`: while the next token is a
`.` or `::`, consume it (reporting a mixed-separator diagnostic at most
once per path), parse the next part and fold into a scoped name.  The
keyword-name `previousKind` checks need node kinds outside the modeled
subset and are dropped. -/
def parseNameLoop (R : ParseFn) (nm : SyntaxNode) (previousKind : SyntaxKind)
    (usedDot reportedError : Bool) (options : NameOptions) (depth : Nat)
    (s : PState) : SyntaxNode × PState :=
  let kind := s.peek.kind
  if kind = .Dot ∨ kind = .DoubleColon then
    let c := s.consume
    let usedDot' := if kind = .Dot then true else usedDot
    let reportNow : Bool := !(kind == .Dot) && usedDot && !reportedError
    let reportedError' := if reportNow = true then true else reportedError
    let s2 := if reportNow = true then addDiag .InvalidAccessDotColon c.1.loc c.2
              else c.2
    let r := R (.npart options depth) s2
    R (.nameLoop (factory.scopedName nm c.1 r.1) r.1.kindOf usedDot'
        reportedError' options depth) r.2
  else (nm, s)

/-- `Parser::parseNamePart`, restricted to the modeled subset: the
keyword-name block (`this`, `super`, `local`, `$unit`, `$root`, `new`,
built-in method names) and the `#(...)` class-name branch need tokens
outside the subset and are dropped.  This helper is its identifier
selection (source lines 699-712): consume an identifier, synthesize a
missing one in the expecting-expression error case, or recover through
`expect`. -/
def parseNamePartIdentifier (options : NameOptions) (s : PState) :
    Token × PState :=
  let next := s.peek.kind
  if next = .Identifier then s.consume
  else if (¬ (next = .Dot ∨ next = .DoubleColon)) ∧
      options.expectingExpression = true then
    let s1 := if haveDiagAtCurrentLoc s then s
              else addDiag .ExpectedExpression s.peek.loc s
    (({ kind := .Identifier, loc := s.peek.loc, missing := true } : Token), s1)
  else s.expect .Identifier

/-- `Parser::parseNamePart`: the identifier selection above, then the
trailing `#(...)`/`[...]` dispatch (the `#` class-name branch needs the
hash token, outside the modeled subset). -/
def parseNamePart (R : ParseFn) (options : NameOptions) (depth : Nat)
    (s : PState) : SyntaxNode × PState :=
  let idr := parseNamePartIdentifier options s
  let identifier := idr.1
  let s1 := idr.2
  match s1.peek.kind with
  | .OpenBracket =>
    if options.sequenceExpr = true ∧ (isSequenceRepetition s1).1 = true then
      (factory.identifierName identifier, s1)
    else
      let scan := (scanTypePart isSemicolon s1 (s1.toks.length + 1) 1
          .OpenBracket .CloseBracket 1).getD (false, 1)
      if options.foreachName = false ∨
          ¬ ((s1.peekAt scan.2).kind = .CloseParenthesis) then
        let r := R (.npsels [] depth) s1
        (factory.identifierSelectName identifier r.1.childrenOf, r.2)
      else
        (factory.identifierName identifier, s1)
  | _ => (factory.identifierName identifier, s1)

/-- The do-while element-select loop of `Parser::parseNamePart`. -/
def parseNameSelects (R : ParseFn) (acc : List SyntaxNode) (depth : Nat)
    (s : PState) : SyntaxNode × PState :=
  let r := R (.esel depth) s
  let acc := acc ++ [r.1]
  if r.2.peek.kind = .OpenBracket then R (.npsels acc depth) r.2
  else (.node .SyntaxList acc, r.2)

/-- `Parser::parseElementSelect`. -/
def parseElementSelect (R : ParseFn) (depth : Nat) (s : PState) :
    SyntaxNode × PState :=
  let e1 := s.expect .OpenBracket
  let r := R (.eselr depth) e1.2
  let e2 := r.2.expect .CloseBracket
  (factory.elementSelect e1.1 r.1 e2.1, e2.2)

/-- `Parser::parseElementSelector` (the `+:` and `-:` range selects need
tokens outside the modeled subset). -/
def parseElementSelector (R : ParseFn) (depth : Nat) (s : PState) :
    SyntaxNode × PState :=
  if s.peek.kind = .CloseBracket then (.null, s)
  else
    let r := R (.sub ExpressionOptions.none 0 depth) s
    match r.2.peek.kind with
    | .Colon =>
      let c := r.2.consume
      let r2 := R (.sub ExpressionOptions.none 0 depth) c.2
      (factory.rangeSelect .SimpleRangeSelect r.1 c.1 r2.1, r2.2)
    | _ => (factory.bitSelect r.1, r.2)

/-- `Parser::parseArgumentList`.  The list skeleton is modelled from the
spec (§4.4, parser-base separated list with AllowEmpty for plain
argument lists). -/
def parseArgumentList (R : ParseFn) (isParamAssignment : Bool) (depth : Nat)
    (s : PState) : SyntaxNode × PState :=
  let e1 := s.expect .OpenParenthesis
  if e1.2.peek.kind = .CloseParenthesis then
    let c := e1.2.consume
    (factory.argumentList e1.1 [] c.1, c.2)
  else
    let r := R (.arglLoop [] isParamAssignment depth) e1.2
    (factory.argumentList e1.1 (r.1.child 0).childrenOf (r.1.tokChild 1), r.2)

/-- The item loop of `parseArgumentList` (modelled from the spec, §4.4). -/
def parseArgumentListItems (R : ParseFn) (acc : List SyntaxNode)
    (isParamAssignment : Bool) (depth : Nat) (s : PState) : SyntaxNode × PState :=
  let r := R (.arg isParamAssignment depth) s
  let acc := acc ++ [r.1]
  if r.2.peek.kind = .Comma then
    let c := r.2.consume
    R (.arglLoop (acc ++ [.leaf c.1]) isParamAssignment depth) c.2
  else
    let e := r.2.expect .CloseParenthesis
    (.node .PairResult [.node .SyntaxList acc, .leaf e.1], e.2)

/-- `Parser::parseArgument` (clocking-event arguments need the `@` token,
outside the modeled subset; `parseGroupOrSkip` is modelled from the spec
as: parse the parenthesized group only when the opener is present). -/
def parseArgument (R : ParseFn) (isParamAssignment : Bool) (depth : Nat)
    (s : PState) : SyntaxNode × PState :=
  if isParamAssignment = false ∧
      (s.peek.kind = .Comma ∨ s.peek.kind = .CloseParenthesis) then
    (factory.emptyArgument { kind := .Unknown, loc := s.peek.loc }, s)
  else if s.peek.kind = .Dot then
    let c := s.consume
    let e := c.2.expect .Identifier
    if e.2.peek.kind = .OpenParenthesis then
      let c2 := e.2.consume
      let r := if isParamAssignment = true then R (.mtm depth) c2.2
               else R (.sub ExpressionOptions.none 0 depth) c2.2
      let e2 := r.2.expect .CloseParenthesis
      (factory.namedArgument c.1 e.1 (.leaf c2.1) r.1 (.leaf e2.1), e2.2)
    else
      (factory.namedArgument c.1 e.1 .null .null .null, e.2)
  else
    let r := if isParamAssignment = true then R (.mtm depth) s
             else R (.sub ExpressionOptions.none 0 depth) s
    (factory.orderedArgument r.1, r.2)

/-- `Parser::parseTimingControl`, restricted to the modeled subset: only
cycle delay (`##`) is representable (`#`, `@`, `repeat` need tokens
outside the subset). -/
def parseTimingControl (R : ParseFn) (depth : Nat) (s : PState) :
    SyntaxNode × PState :=
  match s.peek.kind with
  | .DoubleHash =>
    let c := s.consume
    let r := R (.prim { disallowVectors := true } depth) c.2
    (factory.delay .CycleDelay c.1 r.1, r.2)
  | _ => (.null, s)

/-- `Parser::parseExpressionOrDist` (`dist` is outside the modeled
subset, so the result of `parseSubExpression` is returned directly). -/
def parseExpressionOrDist (R : ParseFn) (options : ExpressionOptions)
    (depth : Nat) (s : PState) : SyntaxNode × PState :=
  R (.sub options 0 depth) s

/-- `Parser::fixParenthesizedExpression`: demote a parenthesized simple
sequence back to a plain expression and resume postfix/binary parsing
(`dist` is outside the modeled subset). -/
def fixParenthesizedExpression (R : ParseFn) (inner : SyntaxNode)
    (openParen : Token) (depth : Nat) (s : PState) : SyntaxNode × PState :=
  let e := s.expect .CloseParenthesis
  let result := factory.parenthesizedExpression openParen (inner.child 0) e.1
  let r1 := R (.post result { sequenceExpr := true } depth) e.2
  R (.bin r1.1 { sequenceExpr := true } 0 depth) r1.2

/-- `Parser::parseSequenceExpr` (depth guard as in `parseSubExpression`). -/
def parseSequenceExpr (R : ParseFn) (precedence : Nat) (isInProperty : Bool)
    (depth : Nat) (s : PState) : SyntaxNode × PState :=
  if maxRecursionDepth ≤ depth then
    (.node .ParseError [], addDiag .MaxRecursionDepthExceeded s.peek.loc s)
  else
    let d := depth + 1
    let r1 := R (.seqp d) s
    if r1.2.peek.kind = .DoubleHash then
      let r2 := R (.dseq r1.1 [] d) r1.2
      R (.seqLoop r2.1 precedence isInProperty d) r2.2
    else
      R (.seqLoop r1.1 precedence isInProperty d) r1.2

/-- The binary-operator climb loop of `Parser::parseSequenceExpr`. -/
def parseSequenceExprLoop (R : ParseFn) (left : SyntaxNode) (precedence : Nat)
    (isInProperty : Bool) (depth : Nat) (s : PState) : SyntaxNode × PState :=
  let opKind := getBinarySequenceExpr s.peek.kind
  if opKind = .Unknown then (left, s)
  else if isInProperty = true ∧
      (opKind = .AndSequenceExpr ∨ opKind = .OrSequenceExpr) then
    -- inside a property, let the parent property parser take and/or
    (left, s)
  else
    let newPrecedence := getPrecedence opKind
    if newPrecedence < precedence then (left, s)
    else if newPrecedence = precedence ∧ isRightAssociative opKind = false then
      (left, s)
    else
      let c := s.consume
      let r := R (.seq newPrecedence isInProperty depth) c.2
      R (.seqLoop (factory.binarySequenceExpr opKind left c.1 r.1)
          precedence isInProperty depth) r.2

/-- `Parser::parseSequencePrimary` (the `@` clocking and `first_match`
cases need tokens outside the modeled subset). -/
def parseSequencePrimary (R : ParseFn) (depth : Nat) (s : PState) :
    SyntaxNode × PState :=
  match s.peek.kind with
  | .DoubleHash => R (.dseq .null [] depth) s
  | .OpenParenthesis =>
    let c := s.consume
    let r := R (.seq 0 false depth) c.2
    if r.1.kindOf = .SimpleSequenceExpr ∧ r.2.peek.kind = .CloseParenthesis ∧
        isBinaryOrPostfixExpression (r.2.peekAt 1).kind = true then
      let rf := R (.fixp r.1 c.1 depth) r.2
      let rr := R (.srep depth) rf.2
      (factory.simpleSequenceExpr rf.1 rr.1, rr.2)
    else
      let rm := R (.sml depth) r.2
      let rr := R (.srep depth) rm.2
      (factory.parenthesizedSequenceExpr c.1 r.1 (rm.1.child 0)
        (rm.1.tokChild 1) rr.1, rr.2)
  | _ =>
    let r := R (.eod { sequenceExpr := true } depth) s
    let rr := R (.srep depth) r.2
    (factory.simpleSequenceExpr r.1 rr.1, rr.2)

/-- The delay head of one `parseDelayedSequenceExpr` element (source
lines 1056-1075): either a bracketed `[*]`/`[+]`/selector form or a
primary delay value.  Returns (openBracket, op, selector, closeBracket,
delayVal). -/
def parseDelayedSequenceHead (R : ParseFn) (depth : Nat) (s : PState) :
    (Option Token × Option Token × SyntaxNode × Option Token × SyntaxNode) ×
      PState :=
  if s.peek.kind = .OpenBracket then
    let ob := s.consume
    if (ob.2.peek.kind = .Star ∨ ob.2.peek.kind = .Plus) ∧
        (ob.2.peekAt 1).kind = .CloseBracket then
      let op := ob.2.consume
      let cb := op.2.expect .CloseBracket
      ((some ob.1, some op.1, SyntaxNode.null, some cb.1, SyntaxNode.null), cb.2)
    else
      let sel := R (.eselr depth) ob.2
      let cb := sel.2.expect .CloseBracket
      ((some ob.1, Option.none, sel.1, some cb.1, SyntaxNode.null), cb.2)
  else
    let dv := R (.prim ExpressionOptions.none depth) s
    ((Option.none, Option.none, SyntaxNode.null, Option.none, dv.1), dv.2)

/-- The do-while loop of `Parser::parseDelayedSequenceExpr`: one `##`
delay element per iteration. -/
def parseDelayedSequenceExpr (R : ParseFn) (first : SyntaxNode)
    (acc : List SyntaxNode) (depth : Nat) (s : PState) : SyntaxNode × PState :=
  let h := s.expect .DoubleHash
  let el := parseDelayedSequenceHead R depth h.2
  let rp := R (.seqp depth) el.2
  let elem := factory.delayedSequenceElement h.1 el.1.2.2.2.2 el.1.1 el.1.2.1
      el.1.2.2.1 el.1.2.2.2.1 rp.1
  let acc := acc ++ [elem]
  if rp.2.peek.kind = .DoubleHash then
    R (.dseq first acc depth) rp.2
  else
    (factory.delayedSequenceExpr first acc, rp.2)

/-- `Parser::parseSequenceRepetition` (returns `null` when the next token
is not `[`, like the C++ `nullptr`). -/
def parseSequenceRepetition (R : ParseFn) (depth : Nat) (s : PState) :
    SyntaxNode × PState :=
  if s.peek.kind = .OpenBracket then
    let ob := s.consume
    let op :=
      match ob.2.peek.kind with
      | .Plus => ob.2.consume
      | .Equals => ob.2.consume
      | .MinusArrow => ob.2.consume
      | _ => ob.2.expect .Star
    let sel := R (.eselr depth) op.2
    let cb := sel.2.expect .CloseBracket
    (factory.sequenceRepetition ob.1 op.1 sel.1 cb.1, cb.2)
  else (.null, s)

/-- `Parser::parseSequenceMatchList`; the result is a `PairResult` holding
the match list (or `null`) and the consumed close-paren token (the C++
out parameter `closeParen`). -/
def parseSequenceMatchList (R : ParseFn) (depth : Nat) (s : PState) :
    SyntaxNode × PState :=
  if s.peek.kind = .Comma then
    let c := s.consume
    R (.smlLoop [.leaf c.1] depth) c.2
  else
    let e := s.expect .CloseParenthesis
    (.node .PairResult [.null, .leaf e.1], e.2)

/-- The item loop of `parseSequenceMatchList` (modelled from the spec,
§4.4: comma-separated expressions up to the closing parenthesis). -/
def parseSequenceMatchListItems (R : ParseFn) (acc : List SyntaxNode)
    (depth : Nat) (s : PState) : SyntaxNode × PState :=
  let r := R (.sub ExpressionOptions.none 0 depth) s
  let acc := acc ++ [r.1]
  if r.2.peek.kind = .Comma then
    let c := r.2.consume
    R (.smlLoop (acc ++ [.leaf c.1]) depth) c.2
  else
    let e := r.2.expect .CloseParenthesis
    (.node .PairResult [.node .SequenceMatchList acc, .leaf e.1], e.2)

/-- `Parser::parsePropertyExpr` (depth guard as in `parseSubExpression`). -/
def parsePropertyExpr (R : ParseFn) (precedence depth : Nat) (s : PState) :
    SyntaxNode × PState :=
  if maxRecursionDepth ≤ depth then
    (.node .ParseError [], addDiag .MaxRecursionDepthExceeded s.peek.loc s)
  else
    let d := depth + 1
    let r := R (.propp d) s
    R (.propLoop r.1 precedence d) r.2

/-- The binary-operator climb loop of `Parser::parsePropertyExpr`. -/
def parsePropertyExprLoop (R : ParseFn) (left : SyntaxNode)
    (precedence depth : Nat) (s : PState) : SyntaxNode × PState :=
  let opKind := getBinaryPropertyExpr s.peek.kind
  if opKind = .Unknown then (left, s)
  else
    let newPrecedence := getPrecedence opKind
    if newPrecedence < precedence then (left, s)
    else if newPrecedence = precedence ∧ isRightAssociative opKind = false then
      (left, s)
    else
      let c := s.consume
      let r := R (.prop newPrecedence depth) c.2
      R (.propLoop (factory.binaryPropertyExpr opKind left c.1 r.1)
          precedence depth) r.2

/-- `Parser::parsePropertyPrimary`, restricted to the modeled subset (the
`@`, `strong`/`weak`, `not`, `nexttime`, `always`, `eventually`,
`accept_on`/`reject_on` and `if` cases need tokens outside the subset). -/
def parsePropertyPrimary (R : ParseFn) (depth : Nat) (s : PState) :
    SyntaxNode × PState :=
  match s.peek.kind with
  | .OpenParenthesis =>
    let c := s.consume
    let r := R (.prop 0 depth) c.2
    if r.1.kindOf = .SimplePropertyExpr ∧ r.2.peek.kind = .CloseParenthesis ∧
        isBinaryOrPostfixExpression (r.2.peekAt 1).kind = true ∧
        (r.1.child 0).kindOf = .SimpleSequenceExpr then
      let rf := R (.fixp (r.1.child 0) c.1 depth) r.2
      let simpSeq := factory.simpleSequenceExpr rf.1 .null
      (factory.simplePropertyExpr simpSeq, rf.2)
    else if r.1.kindOf = .SimplePropertyExpr ∧
        (r.2.peek.kind = .Comma ∨
         (r.2.peek.kind = .CloseParenthesis ∧
          (r.2.peekAt 1).kind = .OpenBracket)) then
      let seqExpr := r.1.child 0
      let rm := R (.sml depth) r.2
      let rr := R (.srep depth) rm.2
      let parenSeqExpr := factory.parenthesizedSequenceExpr c.1 seqExpr
          (rm.1.child 0) (rm.1.tokChild 1) rr.1
      (factory.simplePropertyExpr parenSeqExpr, rr.2)
    else
      let e := r.2.expect .CloseParenthesis
      (factory.parenthesizedPropertyExpr c.1 r.1 e.1, e.2)
  | .CaseKeyword => R (.casep depth) s
  | _ =>
    let r := R (.seq 0 true depth) s
    (factory.simplePropertyExpr r.1, r.2)

/-- `Parser::parseCasePropertyExpr` up to the item loop. -/
def parseCasePropertyExpr (R : ParseFn) (depth : Nat) (s : PState) :
    SyntaxNode × PState :=
  let keyword := s.consume
  let op := keyword.2.expect .OpenParenthesis
  let cond := R (.eod ExpressionOptions.none depth) op.2
  let cp := cond.2.expect .CloseParenthesis
  let items := R (.caseItems [] Option.none false depth) cp.2
  let s1 := items.2
  let s2 :=
    if (items.1.child 0).childrenOf.isEmpty then
      addDiag .CaseStatementEmpty keyword.1.loc s1
    else s1
  let ec := s2.expect .EndCaseKeyword
  (factory.casePropertyExpr keyword.1 op.1 cond.1 cp.1
    (items.1.child 0).childrenOf ec.1, ec.2)

/-- The item loop of `Parser::parseCasePropertyExpr`: default items (with
the duplicate-default diagnostic fired at most once, carrying a note at
the previous default) and standard items; the result is a `PairResult`
whose first child is the item list.  The final no-progress skip is
modelled from the spec (§7): list recovery never wedges; when a
depth-guard abort prevents an item from consuming anything, one token is
skipped so that recovery stays bounded. -/
def parseCaseItems (R : ParseFn) (acc : List SyntaxNode)
    (lastDefault : Option Nat) (errored : Bool) (depth : Nat) (s : PState) :
    SyntaxNode × PState :=
  let kind := s.peek.kind
  if kind = .DefaultKeyword then
    let s1 :=
      if lastDefault.isSome ∧ errored = false then
        addDiagN .MultipleDefaultCases s.peek.loc
          [(.NotePreviousDefinition, lastDefault.getD 0)] s
      else s
    let errored' := if lastDefault.isSome ∧ errored = false then true else errored
    let lastDefault' := some s.peek.loc
    let def1 := s1.consume
    let colon := def1.2.consumeIf .Colon
    let re := R (.prop 0 depth) colon.2
    let semi := re.2.expect .Semicolon
    let item := factory.defaultPropertyCaseItem def1.1 colon.1 re.1 semi.1
    R (.caseItems (acc ++ [item]) lastDefault' errored' depth) semi.2
  else if isPossibleExpression kind = true then
    let r1 := R (.eod ExpressionOptions.none depth) s
    let rl := R (.caseExprList [r1.1] depth) r1.2
    if rl.2.pos ≤ s.pos then
      -- no progress (possible only under a depth-guard abort): skip one
      -- token so the loop stays bounded (modelled from the spec, §7:
      -- list recovery emits a best-effort result and never wedges)
      let sk := rl.2.consume
      R (.caseItems acc lastDefault errored depth) sk.2
    else
      let colon := rl.1.tokChild 1
      let re := R (.prop 0 depth) rl.2
      let semi := re.2.expect .Semicolon
      let item := factory.standardPropertyCaseItem
          (rl.1.child 0).childrenOf colon re.1 semi.1
      R (.caseItems (acc ++ [item]) lastDefault errored depth) semi.2
  else
    (.node .PairResult [.node .SyntaxList acc], s)

/-- The comma-separated expression list of a standard case item (modelled
from the spec, §4.4); the result is a `PairResult` of the expression list
and the colon token that ended it. -/
def parseCaseExprList (R : ParseFn) (acc : List SyntaxNode) (depth : Nat)
    (s : PState) : SyntaxNode × PState :=
  if s.peek.kind = .Comma then
    let c := s.consume
    let r := R (.eod ExpressionOptions.none depth) c.2
    R (.caseExprList (acc ++ [.leaf c.1] ++ [r.1]) depth) r.2
  else
    let e := s.expect .Colon
    (.node .PairResult [.node .SyntaxList acc, .leaf e.1], e.2)

/-- The shared fuel-indexed recursion: dispatch each call descriptor to
its routine body, handing the smaller budget back as the callback.  When
the budget runs out a `ParseError` node is returned and the `fuelLow`
flag is set; the adequacy theorem below shows this never happens for the
budget used by the entry points. -/
def go : Nat → Call → PState → SyntaxNode × PState
  | 0, _, s => (.node .ParseError [], { s with fuelLow := true })
  | fuel + 1, c, s =>
    match c with
    | .sub options precedence depth =>
      parseSubExpression (go fuel) options precedence depth s
    | .prim options depth => parsePrimaryExpression (go fuel) options depth s
    | .mtm depth => parseMinTypMaxExpression (go fuel) depth s
    | .bin left options precedence depth =>
      parseBinaryExpression (go fuel) left options precedence depth s
    | .cstage left options precedence depth =>
      conditionalStage (go fuel) left options precedence depth s
    | .cpred first endKind depth =>
      parseConditionalPredicate (go fuel) first endKind depth s
    | .cpatLoop acc endKind depth =>
      parseConditionalPatternList (go fuel) acc endKind depth s
    | .pat depth => parsePattern (go fuel) depth s
    | .cpat depth => parseConditionalPattern (go fuel) depth s
    | .post lhs options depth => parsePostfixExpression (go fuel) lhs options depth s
    | .name options depth => parseName (go fuel) options depth s
    | .nameLoop nm previousKind usedDot reportedError options depth =>
      parseNameLoop (go fuel) nm previousKind usedDot reportedError options depth s
    | .npart options depth => parseNamePart (go fuel) options depth s
    | .npsels acc depth => parseNameSelects (go fuel) acc depth s
    | .esel depth => parseElementSelect (go fuel) depth s
    | .eselr depth => parseElementSelector (go fuel) depth s
    | .argl isParamAssignment depth =>
      parseArgumentList (go fuel) isParamAssignment depth s
    | .arglLoop acc isParamAssignment depth =>
      parseArgumentListItems (go fuel) acc isParamAssignment depth s
    | .arg isParamAssignment depth => parseArgument (go fuel) isParamAssignment depth s
    | .tc depth => parseTimingControl (go fuel) depth s
    | .eod options depth => parseExpressionOrDist (go fuel) options depth s
    | .fixp inner openParen depth =>
      fixParenthesizedExpression (go fuel) inner openParen depth s
    | .seq precedence isInProperty depth =>
      parseSequenceExpr (go fuel) precedence isInProperty depth s
    | .seqLoop left precedence isInProperty depth =>
      parseSequenceExprLoop (go fuel) left precedence isInProperty depth s
    | .seqp depth => parseSequencePrimary (go fuel) depth s
    | .dseq first acc depth => parseDelayedSequenceExpr (go fuel) first acc depth s
    | .srep depth => parseSequenceRepetition (go fuel) depth s
    | .sml depth => parseSequenceMatchList (go fuel) depth s
    | .smlLoop acc depth => parseSequenceMatchListItems (go fuel) acc depth s
    | .prop precedence depth => parsePropertyExpr (go fuel) precedence depth s
    | .propLoop left precedence depth =>
      parsePropertyExprLoop (go fuel) left precedence depth s
    | .propp depth => parsePropertyPrimary (go fuel) depth s
    | .casep depth => parseCasePropertyExpr (go fuel) depth s
    | .caseItems acc lastDefault errored depth =>
      parseCaseItems (go fuel) acc lastDefault errored depth s
    | .caseExprList acc depth => parseCaseExprList (go fuel) acc depth s

/-- The step budget used by the entry points, sufficient for any stream
(proved below): sixteen steps per remaining token plus a margin for the
deepest chain of routines that can run without consuming a token. -/
def stdFuel (toks : List Token) : Nat :=
  16 * toks.length + 16

/-- Fresh parser state over a token stream. -/
def initState (toks : List Token) : PState :=
  { toks := toks, pos := 0 }

/-- `Parser::parseExpression`: the expression grammar entry point. -/
def parseExpressionTop (toks : List Token) : SyntaxNode × PState :=
  go (stdFuel toks) (.sub ExpressionOptions.none 0 0) (initState toks)

/-- A whole-stream parse at the `parseSubExpression` entry with explicit
options (procedural assignment context, constraint context, ...). -/
def parseExpressionWith (options : ExpressionOptions) (toks : List Token) :
    SyntaxNode × PState :=
  go (stdFuel toks) (.sub options 0 0) (initState toks)

/-- `Parser::parseSequenceExpr` as a whole-stream entry point. -/
def parseSequenceExprTop (toks : List Token) : SyntaxNode × PState :=
  go (stdFuel toks) (.seq 0 false 0) (initState toks)

/-- `Parser::parsePropertyExpr` as a whole-stream entry point. -/
def parsePropertyExprTop (toks : List Token) : SyntaxNode × PState :=
  go (stdFuel toks) (.prop 0 0) (initState toks)

/-- Tokens built from a list of kinds, numbered by position (payload and
source location are the index). -/
def mkToks (ks : List TokenKind) : List Token :=
  ks.enum.map (fun p => { kind := p.2, val := p.1, loc := p.1 })

/-- Does a tree contain a `ParseError` node (a depth-guard abort)? -/
def SyntaxNode.hasParseError : SyntaxNode → Bool
  | .node k cs => k == .ParseError || hasErrList cs
  | _ => false
where hasErrList : List SyntaxNode → Bool
  | [] => false
  | c :: cs => SyntaxNode.hasParseError c || hasErrList cs

/-- How many diagnostics with the given code were emitted. -/
def countDiag (code : DiagCode) (ds : List Diag) : Nat :=
  (ds.filter (fun d => d.code == code)).length

/-- Token kinds on which the expression engine stops extending the current
expression: not a postfix opener, not a binary operator, not a conditional
or pattern-guard opener, not a name separator, not a cycle delay. -/
def stopsExpression : TokenKind → Bool
  | .Semicolon => true
  | .CloseParenthesis => true
  | .CloseBracket => true
  | .Comma => true
  | .Colon => true
  | .EndCaseKeyword => true
  | .DefaultKeyword => true
  | .EndOfInput => true
  | _ => false

/-- Flat scoped-name tail: one separator (`true` is `.`, `false` is `::`)
followed by one identifier per entry. -/
def flatPath : List Bool → List Token
  | [] => []
  | b :: bs =>
    ({ kind := if b then .Dot else .DoubleColon } : Token) ::
      ({ kind := .Identifier } : Token) :: flatPath bs

/-- Does a `::` separator occur after a `.` separator was already used?
This is the condition under which the separator loop of `parseName` reports
`InvalidAccessDotColon` (at most once per path); a `.` following `::` is
not reported by that check. -/
def mixesDotColon : Bool → List Bool → Bool
  | _, [] => false
  | _, true :: bs => mixesDotColon true bs
  | usedDot, false :: bs => usedDot || mixesDotColon usedDot bs

/-- The scoped-name node the separator loop of `parseName` folds a flat
path onto an initial name. -/
def flatPathNode (nm : SyntaxNode) : List Bool → SyntaxNode
  | [] => nm
  | b :: bs =>
    flatPathNode
      (factory.scopedName nm { kind := if b then .Dot else .DoubleColon }
        (factory.identifierName { kind := .Identifier })) bs

/-- One `default : <identifier> ;` case item per entry, every token of an
item carrying the entry's source location. -/
def defaultBlocks : List Nat → List Token
  | [] => []
  | l :: ls =>
    ({ kind := .DefaultKeyword, loc := l } : Token) ::
      ({ kind := .Colon, loc := l } : Token) ::
      ({ kind := .Identifier, loc := l } : Token) ::
      ({ kind := .Semicolon, loc := l } : Token) :: defaultBlocks ls

/-- The case items `parseCaseItems` builds from `defaultBlocks`. -/
def defaultItems : List Nat → List SyntaxNode
  | [] => []
  | l :: ls =>
    factory.defaultPropertyCaseItem { kind := .DefaultKeyword, loc := l }
      (some { kind := .Colon, loc := l })
      (factory.simplePropertyExpr (factory.simpleSequenceExpr
        (factory.identifierName { kind := .Identifier, loc := l }) .null))
      { kind := .Semicolon, loc := l } :: defaultItems ls

/-- A whole case property expression: `case ( <identifier> )`, the given
default items, `endcase`. -/
def caseStream (ls : List Nat) : List Token :=
  ({ kind := .CaseKeyword } : Token) :: ({ kind := .OpenParenthesis } : Token) ::
    ({ kind := .Identifier } : Token) :: ({ kind := .CloseParenthesis } : Token) ::
    (defaultBlocks ls ++ [({ kind := .EndCaseKeyword } : Token)])

/-- The duplicate-default diagnostics `parseCaseItems` pushes over
`defaultBlocks` (newest first): fired when a default is seen while an
earlier one is recorded and no report was made yet, with a linked note at
the earlier default's location. -/
def caseDupDiags : Option Nat → Bool → List Nat → List Diag
  | _, _, [] => []
  | lastDefault, errored, l :: ls =>
    if lastDefault.isSome ∧ errored = false then
      caseDupDiags (some l) true ls ++
        [{ code := .MultipleDefaultCases, loc := l,
           notes := [(.NotePreviousDefinition, lastDefault.getD 0)] }]
    else caseDupDiags (some l) errored ls


/-- The frame relation of one parsing step: the token stream is never
modified and the cursor never moves backward. -/
def stepOK (s s' : PState) : Prop :=
  s'.toks = s.toks ∧ s.pos ≤ s'.pos

theorem stepOK.refl {s : PState} : stepOK s s :=
  ⟨Eq.refl _, Nat.le_refl _⟩

theorem stepOK.trans {s1 s2 s3 : PState} (h1 : stepOK s1 s2) (h2 : stepOK s2 s3) :
    stepOK s1 s3 :=
  ⟨h2.1.trans h1.1, h1.2.trans h2.2⟩

theorem advance_stepOK (s : PState) : stepOK s s.advance := by
  unfold PState.advance
  split
  · exact ⟨rfl, Nat.le_succ _⟩
  · exact stepOK.refl

theorem consume_stepOK (s : PState) : stepOK s (s.consume).2 :=
  advance_stepOK s

theorem addDiag_stepOK (c : DiagCode) (l : Nat) (s : PState) :
    stepOK s (addDiag c l s) :=
  ⟨rfl, Nat.le_refl _⟩

theorem addDiagN_stepOK (c : DiagCode) (l : Nat) (ns : List (DiagCode × Nat))
    (s : PState) : stepOK s (addDiagN c l ns s) :=
  ⟨rfl, Nat.le_refl _⟩

theorem expect_stepOK (s : PState) (k : TokenKind) : stepOK s (s.expect k).2 := by
  unfold PState.expect
  split
  · exact consume_stepOK s
  · exact addDiag_stepOK _ _ s

theorem consumeIf_stepOK (s : PState) (k : TokenKind) :
    stepOK s (s.consumeIf k).2 := by
  unfold PState.consumeIf
  split
  · exact advance_stepOK s
  · exact stepOK.refl

theorem fuelLowMark_stepOK (s : PState) :
    stepOK s { s with fuelLow := true } :=
  ⟨rfl, Nat.le_refl _⟩

theorem parseNamePartIdentifier_stepOK (options : NameOptions) (s : PState) :
    stepOK s (parseNamePartIdentifier options s).2 := by
  unfold parseNamePartIdentifier
  dsimp only
  split
  · exact consume_stepOK s
  · split
    · split
      · exact stepOK.refl
      · exact addDiag_stepOK _ _ s
    · exact expect_stepOK s _

theorem parseDelayedSequenceHead_stepOK (R : ParseFn)
    (hR : ∀ c s, stepOK s (R c s).2) (depth : Nat) (s : PState) :
    stepOK s (parseDelayedSequenceHead R depth s).2 := by
  unfold parseDelayedSequenceHead
  dsimp only
  split
  · split
    · exact ((consume_stepOK s).trans (consume_stepOK _)).trans (expect_stepOK _ _)
    · exact ((consume_stepOK s).trans (hR _ _)).trans (expect_stepOK _ _)
  · exact hR _ _

/-- The frame theorem: no parsing routine modifies the token stream or
moves the cursor backward. -/
theorem go_stepOK : ∀ (fuel : Nat) (c : Call) (s : PState),
    stepOK s (go fuel c s).2 := by
  intro fuel
  induction fuel with
  | zero => intro c s; exact fuelLowMark_stepOK s
  | succ fuel ih =>
    intro c s
    cases c <;> simp only [go]
    case sub options precedence depth =>
      unfold parseSubExpression
      dsimp only
      split
      · exact addDiag_stepOK _ _ s
      · split
        · exact ((ih _ _).trans (ih _ _)).trans (ih _ _)
        · split
          · exact (((consume_stepOK s).trans (ih _ _)).trans (ih _ _)).trans (ih _ _)
          · exact ((ih _ _).trans (ih _ _)).trans (ih _ _)
    case prim options depth =>
      unfold parsePrimaryExpression
      dsimp only
      split
      · exact consume_stepOK s
      · exact ((consume_stepOK s).trans (ih _ _)).trans (expect_stepOK _ _)
      · exact ih _ _
    case mtm depth =>
      unfold parseMinTypMaxExpression
      dsimp only
      split
      · exact (((ih _ _).trans (consume_stepOK _)).trans
          ((ih _ _).trans (expect_stepOK _ _))).trans (ih _ _)
      · exact ih _ _
    case bin left options precedence depth =>
      unfold parseBinaryExpression
      dsimp only
      split
      · exact ih _ _
      · split
        · exact ih _ _
        · split
          · split
            · exact ih _ _
            · split
              · exact ih _ _
              · exact ((consume_stepOK s).trans (ih _ _)).trans (ih _ _)
          · split
            · exact ih _ _
            · split
              · exact ih _ _
              · exact ((consume_stepOK s).trans (ih _ _)).trans (ih _ _)
    case cstage left options precedence depth =>
      unfold conditionalStage
      dsimp only
      split
      · split
        · split
          · exact (((ih _ _).trans (ih _ _)).trans (expect_stepOK _ _)).trans (ih _ _)
          · exact stepOK.refl
        · split
          · exact (((ih _ _).trans (ih _ _)).trans (expect_stepOK _ _)).trans (ih _ _)
          · exact stepOK.refl
      · exact stepOK.refl
    case cpred first endKind depth =>
      unfold parseConditionalPredicate
      dsimp only
      split
      · split
        · exact (((consume_stepOK s).trans (ih _ _)).trans
            (consume_stepOK _)).trans (ih _ _)
        · exact ((consume_stepOK s).trans (ih _ _)).trans (expect_stepOK _ _)
      · split
        · exact (consume_stepOK s).trans (ih _ _)
        · exact expect_stepOK _ _
    case cpatLoop acc endKind depth =>
      unfold parseConditionalPatternList
      dsimp only
      split
      · exact ((ih _ _).trans (consume_stepOK _)).trans (ih _ _)
      · exact (ih _ _).trans (expect_stepOK _ _)
    case pat depth =>
      unfold parsePattern
      dsimp only
      split
      · exact (consume_stepOK s).trans (expect_stepOK _ _)
      · exact ih _ _
    case cpat depth =>
      unfold parseConditionalPattern
      dsimp only
      split
      · exact ((ih _ _).trans (consume_stepOK _)).trans (ih _ _)
      · exact ih _ _
    case post lhs options depth =>
      unfold parsePostfixExpression
      dsimp only
      split
      · split
        · exact stepOK.refl
        · exact (ih _ _).trans (ih _ _)
      · exact ((consume_stepOK s).trans (expect_stepOK _ _)).trans (ih _ _)
      · exact (ih _ _).trans (ih _ _)
      · exact consume_stepOK s
      · exact consume_stepOK s
      · exact ((((consume_stepOK s).trans (expect_stepOK _ _)).trans
          (ih _ _)).trans (expect_stepOK _ _)).trans (ih _ _)
      · exact stepOK.refl
    case name options depth =>
      unfold parseName
      dsimp only
      exact (ih _ _).trans (ih _ _)
    case nameLoop nm previousKind usedDot reportedError options depth =>
      unfold parseNameLoop
      dsimp only
      split
      · split
        · exact (((consume_stepOK s).trans (addDiag_stepOK _ _ _)).trans
            (ih _ _)).trans (ih _ _)
        · exact ((consume_stepOK s).trans (ih _ _)).trans (ih _ _)
      · exact stepOK.refl
    case npart options depth =>
      unfold parseNamePart
      dsimp only
      split
      · split
        · exact parseNamePartIdentifier_stepOK options s
        · split
          · exact (parseNamePartIdentifier_stepOK options s).trans (ih _ _)
          · exact parseNamePartIdentifier_stepOK options s
      · exact parseNamePartIdentifier_stepOK options s
    case npsels acc depth =>
      unfold parseNameSelects
      dsimp only
      split
      · exact (ih _ _).trans (ih _ _)
      · exact ih _ _
    case esel depth =>
      unfold parseElementSelect
      dsimp only
      exact ((expect_stepOK _ _).trans (ih _ _)).trans (expect_stepOK _ _)
    case eselr depth =>
      unfold parseElementSelector
      dsimp only
      split
      · exact stepOK.refl
      · split
        · exact ((ih _ _).trans (consume_stepOK _)).trans (ih _ _)
        · exact ih _ _
    case argl isParamAssignment depth =>
      unfold parseArgumentList
      dsimp only
      split
      · exact (expect_stepOK _ _).trans (consume_stepOK _)
      · exact (expect_stepOK _ _).trans (ih _ _)
    case arglLoop acc isParamAssignment depth =>
      unfold parseArgumentListItems
      dsimp only
      split
      · exact ((ih _ _).trans (consume_stepOK _)).trans (ih _ _)
      · exact (ih _ _).trans (expect_stepOK _ _)
    case arg isParamAssignment depth =>
      unfold parseArgument
      dsimp only
      split
      · exact stepOK.refl
      · split
        · split
          · split
            · exact ((((consume_stepOK s).trans (expect_stepOK _ _)).trans
                (consume_stepOK _)).trans (ih _ _)).trans (expect_stepOK _ _)
            · exact ((((consume_stepOK s).trans (expect_stepOK _ _)).trans
                (consume_stepOK _)).trans (ih _ _)).trans (expect_stepOK _ _)
          · exact (consume_stepOK s).trans (expect_stepOK _ _)
        · split
          · exact ih _ _
          · exact ih _ _
    case tc depth =>
      unfold parseTimingControl
      dsimp only
      split
      · exact (consume_stepOK s).trans (ih _ _)
      · exact stepOK.refl
    case eod options depth =>
      unfold parseExpressionOrDist
      exact ih _ _
    case fixp inner openParen depth =>
      unfold fixParenthesizedExpression
      dsimp only
      exact ((expect_stepOK _ _).trans (ih _ _)).trans (ih _ _)
    case seq precedence isInProperty depth =>
      unfold parseSequenceExpr
      dsimp only
      split
      · exact addDiag_stepOK _ _ s
      · split
        · exact ((ih _ _).trans (ih _ _)).trans (ih _ _)
        · exact (ih _ _).trans (ih _ _)
    case seqLoop left precedence isInProperty depth =>
      unfold parseSequenceExprLoop
      dsimp only
      split
      · exact stepOK.refl
      · split
        · exact stepOK.refl
        · split
          · exact stepOK.refl
          · split
            · exact stepOK.refl
            · exact ((consume_stepOK s).trans (ih _ _)).trans (ih _ _)
    case seqp depth =>
      unfold parseSequencePrimary
      dsimp only
      split
      · exact ih _ _
      · split
        · exact (((consume_stepOK s).trans (ih _ _)).trans (ih _ _)).trans (ih _ _)
        · exact (((consume_stepOK s).trans (ih _ _)).trans (ih _ _)).trans (ih _ _)
      · exact (ih _ _).trans (ih _ _)
    case dseq first acc depth =>
      unfold parseDelayedSequenceExpr
      dsimp only
      split
      · exact (((expect_stepOK _ _).trans
          (parseDelayedSequenceHead_stepOK _ ih _ _)).trans (ih _ _)).trans (ih _ _)
      · exact ((expect_stepOK _ _).trans
          (parseDelayedSequenceHead_stepOK _ ih _ _)).trans (ih _ _)
    case srep depth =>
      unfold parseSequenceRepetition
      dsimp only
      split
      · split
        · exact (((consume_stepOK s).trans (consume_stepOK _)).trans
            (ih _ _)).trans (expect_stepOK _ _)
        · exact (((consume_stepOK s).trans (consume_stepOK _)).trans
            (ih _ _)).trans (expect_stepOK _ _)
        · exact (((consume_stepOK s).trans (consume_stepOK _)).trans
            (ih _ _)).trans (expect_stepOK _ _)
        · exact (((consume_stepOK s).trans (expect_stepOK _ _)).trans
            (ih _ _)).trans (expect_stepOK _ _)
      · exact stepOK.refl
    case sml depth =>
      unfold parseSequenceMatchList
      dsimp only
      split
      · exact (consume_stepOK s).trans (ih _ _)
      · exact expect_stepOK _ _
    case smlLoop acc depth =>
      unfold parseSequenceMatchListItems
      dsimp only
      split
      · exact ((ih _ _).trans (consume_stepOK _)).trans (ih _ _)
      · exact (ih _ _).trans (expect_stepOK _ _)
    case prop precedence depth =>
      unfold parsePropertyExpr
      dsimp only
      split
      · exact addDiag_stepOK _ _ s
      · exact (ih _ _).trans (ih _ _)
    case propLoop left precedence depth =>
      unfold parsePropertyExprLoop
      dsimp only
      split
      · exact stepOK.refl
      · split
        · exact stepOK.refl
        · split
          · exact stepOK.refl
          · exact ((consume_stepOK s).trans (ih _ _)).trans (ih _ _)
    case propp depth =>
      unfold parsePropertyPrimary
      dsimp only
      split
      · split
        · exact ((consume_stepOK s).trans (ih _ _)).trans (ih _ _)
        · split
          · exact (((consume_stepOK s).trans (ih _ _)).trans (ih _ _)).trans (ih _ _)
          · exact ((consume_stepOK s).trans (ih _ _)).trans (expect_stepOK _ _)
      · exact ih _ _
      · exact ih _ _
    case casep depth =>
      unfold parseCasePropertyExpr
      dsimp only
      split
      · exact (((((consume_stepOK s).trans (expect_stepOK _ _)).trans
          (ih _ _)).trans (expect_stepOK _ _)).trans (ih _ _)).trans
          ((addDiag_stepOK _ _ _).trans (expect_stepOK _ _))
      · exact (((((consume_stepOK s).trans (expect_stepOK _ _)).trans
          (ih _ _)).trans (expect_stepOK _ _)).trans (ih _ _)).trans
          (expect_stepOK _ _)
    case caseItems acc lastDefault errored depth =>
      unfold parseCaseItems
      dsimp only
      split
      · split
        · exact ((((((addDiagN_stepOK _ _ _ _).trans (consume_stepOK _)).trans
            (consumeIf_stepOK _ _)).trans (ih _ _)).trans
            (expect_stepOK _ _)).trans (ih _ _))
        · exact (((((consume_stepOK s).trans (consumeIf_stepOK _ _)).trans
            (ih _ _)).trans (expect_stepOK _ _)).trans (ih _ _))
      · split
        · split
          · exact (((ih _ _).trans (ih _ _)).trans (consume_stepOK _)).trans (ih _ _)
          · exact (((((ih _ _).trans (ih _ _)).trans (ih _ _)).trans
              (expect_stepOK _ _)).trans (ih _ _))
        · exact stepOK.refl
    case caseExprList acc depth =>
      unfold parseCaseExprList
      dsimp only
      split
      · exact ((consume_stepOK s).trans (ih _ _)).trans (ih _ _)
      · exact expect_stepOK _ _

theorem node_ne_null {k : SyntaxKind} {cs : List SyntaxNode} :
    SyntaxNode.node k cs ≠ SyntaxNode.null := by
  intro h
  cases h

/-- What "returns a non-null node" means per routine: the routines that
merely extend a node they were handed (`left`/`lhs`) preserve its
non-nullness; `parseElementSelector`, `parseTimingControl` and
`parseSequenceRepetition` may legitimately return the C++ `nullptr`; all
other routines always construct a node. -/
def nonNullRes : Call → SyntaxNode → Prop
  | .bin left _ _ _, r => left ≠ .null → r ≠ .null
  | .cstage left _ _ _, r => left ≠ .null → r ≠ .null
  | .post lhs _ _, r => lhs ≠ .null → r ≠ .null
  | .nameLoop nm _ _ _ _ _, r => nm ≠ .null → r ≠ .null
  | .seqLoop left _ _ _, r => left ≠ .null → r ≠ .null
  | .propLoop left _ _, r => left ≠ .null → r ≠ .null
  | .eselr _, _ => True
  | .tc _, _ => True
  | .srep _, _ => True
  | _, r => r ≠ .null

/-- Every parsing routine guarantees a return value: a node, possibly
error-flagged, never null (except the three explicitly nullable
routines). -/
theorem go_nonNull : ∀ (fuel : Nat) (c : Call) (s : PState),
    nonNullRes c (go fuel c s).1 := by
  intro fuel
  induction fuel with
  | zero =>
    intro c s
    cases c
    all_goals first
    | exact trivial
    | exact node_ne_null
    | exact fun _ => node_ne_null
  | succ fuel ih =>
    intro c s
    cases c <;> simp only [go]
    case sub options precedence depth =>
      unfold parseSubExpression
      dsimp only
      split
      · exact node_ne_null
      · split
        · exact ih (.post _ _ _) _ node_ne_null
        · split
          · exact ih (.bin _ _ _ _) _ node_ne_null
          · exact ih (.bin _ _ _ _) _
              (ih (.post _ _ _) _ (ih (.prim _ _) _))
    case prim options depth =>
      unfold parsePrimaryExpression
      dsimp only
      split
      · exact node_ne_null
      · exact node_ne_null
      · exact ih (.name _ _) _
    case mtm depth =>
      unfold parseMinTypMaxExpression
      dsimp only
      split
      · exact node_ne_null
      · exact ih (.sub _ _ _) _
    case bin left options precedence depth =>
      unfold parseBinaryExpression
      dsimp only
      split
      · exact ih (.cstage _ _ _ _) _
      · split
        · exact ih (.cstage _ _ _ _) _
        · split
          · split
            · exact ih (.cstage _ _ _ _) _
            · split
              · exact ih (.cstage _ _ _ _) _
              · exact fun _ => ih (.bin _ _ _ _) _ node_ne_null
          · split
            · exact ih (.cstage _ _ _ _) _
            · split
              · exact ih (.cstage _ _ _ _) _
              · exact fun _ => ih (.bin _ _ _ _) _ node_ne_null
    case cstage left options precedence depth =>
      unfold conditionalStage
      dsimp only
      split
      · split
        · split
          · exact fun _ => node_ne_null
          · exact fun h => h
        · split
          · exact fun _ => node_ne_null
          · exact fun h => h
      · exact fun h => h
    case cpred first endKind depth =>
      unfold parseConditionalPredicate
      dsimp only
      split
      · split
        · exact ih (.cpatLoop _ _ _) _
        · exact node_ne_null
      · split
        · exact ih (.cpatLoop _ _ _) _
        · exact node_ne_null
    case cpatLoop acc endKind depth =>
      unfold parseConditionalPatternList
      dsimp only
      split
      · exact ih (.cpatLoop _ _ _) _
      · exact node_ne_null
    case pat depth =>
      unfold parsePattern
      dsimp only
      split
      · exact node_ne_null
      · exact node_ne_null
    case cpat depth =>
      unfold parseConditionalPattern
      dsimp only
      split
      · exact node_ne_null
      · exact node_ne_null
    case post lhs options depth =>
      unfold parsePostfixExpression
      dsimp only
      split
      · split
        · exact fun h => h
        · exact fun _ => ih (.post _ _ _) _ node_ne_null
      · exact fun _ => ih (.post _ _ _) _ node_ne_null
      · exact fun _ => ih (.post _ _ _) _ node_ne_null
      · exact fun _ => node_ne_null
      · exact fun _ => node_ne_null
      · exact fun _ => ih (.post _ _ _) _ node_ne_null
      · exact fun h => h
    case name options depth =>
      unfold parseName
      dsimp only
      exact ih (.nameLoop _ _ _ _ _ _) _ (ih (.npart _ _) _)
    case nameLoop nm previousKind usedDot reportedError options depth =>
      unfold parseNameLoop
      dsimp only
      split
      · split
        · exact fun _ => ih (.nameLoop _ _ _ _ _ _) _ node_ne_null
        · exact fun _ => ih (.nameLoop _ _ _ _ _ _) _ node_ne_null
      · exact fun h => h
    case npart options depth =>
      unfold parseNamePart
      dsimp only
      split
      · split
        · exact node_ne_null
        · split
          · exact node_ne_null
          · exact node_ne_null
      · exact node_ne_null
    case npsels acc depth =>
      unfold parseNameSelects
      dsimp only
      split
      · exact ih (.npsels _ _) _
      · exact node_ne_null
    case esel depth =>
      unfold parseElementSelect
      dsimp only
      exact node_ne_null
    case eselr depth => exact trivial
    case argl isParamAssignment depth =>
      unfold parseArgumentList
      dsimp only
      split
      · exact node_ne_null
      · exact node_ne_null
    case arglLoop acc isParamAssignment depth =>
      unfold parseArgumentListItems
      dsimp only
      split
      · exact ih (.arglLoop _ _ _) _
      · exact node_ne_null
    case arg isParamAssignment depth =>
      unfold parseArgument
      dsimp only
      split
      · exact node_ne_null
      · split
        · split
          · exact node_ne_null
          · exact node_ne_null
        · exact node_ne_null
    case tc depth => exact trivial
    case eod options depth =>
      unfold parseExpressionOrDist
      exact ih (.sub _ _ _) _
    case fixp inner openParen depth =>
      unfold fixParenthesizedExpression
      dsimp only
      exact ih (.bin _ _ _ _) _ (ih (.post _ _ _) _ node_ne_null)
    case seq precedence isInProperty depth =>
      unfold parseSequenceExpr
      dsimp only
      split
      · exact node_ne_null
      · split
        · exact ih (.seqLoop _ _ _ _) _ (ih (.dseq _ _ _) _)
        · exact ih (.seqLoop _ _ _ _) _ (ih (.seqp _) _)
    case seqLoop left precedence isInProperty depth =>
      unfold parseSequenceExprLoop
      dsimp only
      split
      · exact fun h => h
      · split
        · exact fun h => h
        · split
          · exact fun h => h
          · split
            · exact fun h => h
            · exact fun _ => ih (.seqLoop _ _ _ _) _ node_ne_null
    case seqp depth =>
      unfold parseSequencePrimary
      dsimp only
      split
      · exact ih (.dseq _ _ _) _
      · split
        · exact node_ne_null
        · exact node_ne_null
      · exact node_ne_null
    case dseq first acc depth =>
      unfold parseDelayedSequenceExpr
      dsimp only
      split
      · exact ih (.dseq _ _ _) _
      · exact node_ne_null
    case srep depth => exact trivial
    case sml depth =>
      unfold parseSequenceMatchList
      dsimp only
      split
      · exact ih (.smlLoop _ _) _
      · exact node_ne_null
    case smlLoop acc depth =>
      unfold parseSequenceMatchListItems
      dsimp only
      split
      · exact ih (.smlLoop _ _) _
      · exact node_ne_null
    case prop precedence depth =>
      unfold parsePropertyExpr
      dsimp only
      split
      · exact node_ne_null
      · exact ih (.propLoop _ _ _) _ (ih (.propp _) _)
    case propLoop left precedence depth =>
      unfold parsePropertyExprLoop
      dsimp only
      split
      · exact fun h => h
      · split
        · exact fun h => h
        · split
          · exact fun h => h
          · exact fun _ => ih (.propLoop _ _ _) _ node_ne_null
    case propp depth =>
      unfold parsePropertyPrimary
      dsimp only
      split
      · split
        · exact node_ne_null
        · split
          · exact node_ne_null
          · exact node_ne_null
      · exact ih (.casep _) _
      · exact node_ne_null
    case casep depth =>
      unfold parseCasePropertyExpr
      dsimp only
      split
      · exact node_ne_null
      · exact node_ne_null
    case caseItems acc lastDefault errored depth =>
      unfold parseCaseItems
      dsimp only
      split
      · split
        · exact ih (.caseItems _ _ _ _) _
        · exact ih (.caseItems _ _ _ _) _
      · split
        · split
          · exact ih (.caseItems _ _ _ _) _
          · exact ih (.caseItems _ _ _ _) _
        · exact node_ne_null
    case caseExprList acc depth =>
      unfold parseCaseExprList
      dsimp only
      split
      · exact ih (.caseExprList _ _) _
      · exact node_ne_null

theorem go_toks (fuel : Nat) (c : Call) (s : PState) :
    (go fuel c s).2.toks = s.toks :=
  (go_stepOK fuel c s).1

theorem go_pos (fuel : Nat) (c : Call) (s : PState) :
    s.pos ≤ (go fuel c s).2.pos :=
  (go_stepOK fuel c s).2

theorem peek_lt_of_ne_eof (s : PState) (h : s.peek.kind ≠ .EndOfInput) :
    s.pos < s.toks.length := by
  by_contra hge
  apply h
  have hlen : s.toks.length ≤ s.pos + 0 := by omega
  unfold PState.peek PState.peekAt
  rw [List.getD_eq_default _ _ hlen]
  rfl

theorem advance_pos_eq (s : PState) (h : s.peek.kind ≠ .EndOfInput) :
    s.advance.pos = s.pos + 1 := by
  unfold PState.advance
  rw [if_pos (peek_lt_of_ne_eof s h)]

theorem expect_eq_consume (s : PState) (k : TokenKind) (h : s.peek.kind = k) :
    s.expect k = s.consume := by
  unfold PState.expect
  rw [if_pos h]

theorem advance_fuelLow (s : PState) : s.advance.fuelLow = s.fuelLow := by
  unfold PState.advance
  split <;> rfl

theorem consume_fuelLow (s : PState) : (s.consume).2.fuelLow = s.fuelLow :=
  advance_fuelLow s

theorem addDiag_fuelLow (c : DiagCode) (l : Nat) (s : PState) :
    (addDiag c l s).fuelLow = s.fuelLow := rfl

theorem addDiagN_fuelLow (c : DiagCode) (l : Nat) (ns : List (DiagCode × Nat))
    (s : PState) : (addDiagN c l ns s).fuelLow = s.fuelLow := rfl

theorem expect_fuelLow (s : PState) (k : TokenKind) :
    (s.expect k).2.fuelLow = s.fuelLow := by
  unfold PState.expect
  split
  · exact advance_fuelLow s
  · rfl

theorem consumeIf_fuelLow (s : PState) (k : TokenKind) :
    (s.consumeIf k).2.fuelLow = s.fuelLow := by
  unfold PState.consumeIf
  split
  · exact advance_fuelLow s
  · rfl

theorem parseNamePartIdentifier_fuelLow (options : NameOptions) (s : PState) :
    (parseNamePartIdentifier options s).2.fuelLow = s.fuelLow := by
  unfold parseNamePartIdentifier
  dsimp only
  split
  · exact consume_fuelLow s
  · split
    · split <;> rfl
    · exact expect_fuelLow s _

theorem tc_progress (fuel depth : Nat) (s : PState)
    (h : s.peek.kind = .DoubleHash) :
    s.pos + 1 ≤ (go (fuel + 1) (.tc depth) s).2.pos := by
  have hne : s.peek.kind ≠ .EndOfInput := by rw [h]; intro hh; cases hh
  simp only [go, parseTimingControl, h]
  have h2 := go_pos fuel (.prim { disallowVectors := true } depth) s.consume.2
  have h3 : s.consume.2.pos = s.pos + 1 := advance_pos_eq s hne
  omega

theorem esel_progress (fuel depth : Nat) (s : PState)
    (h : s.peek.kind = .OpenBracket) :
    s.pos + 1 ≤ (go (fuel + 1) (.esel depth) s).2.pos := by
  have hne : s.peek.kind ≠ .EndOfInput := by rw [h]; intro hh; cases hh
  simp only [go, parseElementSelect, expect_eq_consume s .OpenBracket h]
  have h2 := go_pos fuel (.eselr depth) s.consume.2
  have h3 := (expect_stepOK (go fuel (.eselr depth) s.consume.2).2 .CloseBracket).2
  have h4 : s.consume.2.pos = s.pos + 1 := advance_pos_eq s hne
  omega

theorem argl_progress (fuel depth : Nat) (b : Bool) (s : PState)
    (h : s.peek.kind = .OpenParenthesis) :
    s.pos + 1 ≤ (go (fuel + 1) (.argl b depth) s).2.pos := by
  have hne : s.peek.kind ≠ .EndOfInput := by rw [h]; intro hh; cases hh
  simp only [go, parseArgumentList, expect_eq_consume s .OpenParenthesis h]
  have h4 : s.consume.2.pos = s.pos + 1 := advance_pos_eq s hne
  split
  · dsimp only
    have h2 := (consume_stepOK s.consume.2).2
    omega
  · dsimp only
    have h2 := go_pos fuel (.arglLoop [] b depth) s.consume.2
    omega

theorem cpred_progress (fuel depth : Nat) (first : SyntaxNode) (s : PState)
    (h : s.peek.kind = .Question ∨ s.peek.kind = .MatchesKeyword ∨
      s.peek.kind = .TripleAnd) :
    s.pos + 1 ≤ (go (fuel + 1) (.cpred first .Question depth) s).2.pos := by
  have hne : s.peek.kind ≠ .EndOfInput := by
    rcases h with h | h | h <;> (rw [h]; intro hh; cases hh)
  have hadv : s.advance.pos = s.pos + 1 := by
    have := advance_pos_eq s hne
    omega
  have h5 : s.consume.2.pos = s.pos + 1 := hadv
  simp only [go, parseConditionalPredicate]
  by_cases hm : s.peek.kind = .MatchesKeyword
  · rw [if_pos hm]
    dsimp only
    split
    · refine le_trans ?_ (go_pos fuel _ _)
      refine le_trans ?_ (consume_stepOK _).2
      refine le_trans ?_ (go_pos fuel _ _)
      omega
    · refine le_trans ?_ (expect_stepOK _ _).2
      refine le_trans ?_ (go_pos fuel _ _)
      omega
  · rw [if_neg hm]
    dsimp only
    by_cases ht : s.peek.kind = .TripleAnd
    · rw [if_pos ht]
      refine le_trans ?_ (go_pos fuel _ _)
      omega
    · rw [if_neg ht]
      have hq : s.peek.kind = .Question := by
        rcases h with h | h | h
        · exact h
        · exact absurd h hm
        · exact absurd h ht
      rw [expect_eq_consume s .Question hq]
      dsimp only
      omega

theorem advance_toks (s : PState) : s.advance.toks = s.toks :=
  (advance_stepOK s).1

theorem consume_toks (s : PState) : (s.consume).2.toks = s.toks :=
  (advance_stepOK s).1

theorem expect_toks (s : PState) (k : TokenKind) :
    (s.expect k).2.toks = s.toks :=
  (expect_stepOK s k).1

theorem consumeIf_toks (s : PState) (k : TokenKind) :
    (s.consumeIf k).2.toks = s.toks :=
  (consumeIf_stepOK s k).1

theorem addDiag_toks (c : DiagCode) (l : Nat) (s : PState) :
    (addDiag c l s).toks = s.toks := rfl

theorem addDiagN_toks (c : DiagCode) (l : Nat) (ns : List (DiagCode × Nat))
    (s : PState) : (addDiagN c l ns s).toks = s.toks := rfl

theorem addDiag_pos (c : DiagCode) (l : Nat) (s : PState) :
    (addDiag c l s).pos = s.pos := rfl

theorem addDiagN_pos (c : DiagCode) (l : Nat) (ns : List (DiagCode × Nat))
    (s : PState) : (addDiagN c l ns s).pos = s.pos := rfl

theorem advance_pos_le (s : PState) : s.pos ≤ s.advance.pos :=
  (advance_stepOK s).2

theorem consume_pos_le (s : PState) : s.pos ≤ (s.consume).2.pos :=
  (advance_stepOK s).2

theorem expect_pos_le (s : PState) (k : TokenKind) : s.pos ≤ (s.expect k).2.pos :=
  (expect_stepOK s k).2

theorem consumeIf_pos_le (s : PState) (k : TokenKind) :
    s.pos ≤ (s.consumeIf k).2.pos :=
  (consumeIf_stepOK s k).2

theorem parseNamePartIdentifier_toks (options : NameOptions) (s : PState) :
    (parseNamePartIdentifier options s).2.toks = s.toks :=
  (parseNamePartIdentifier_stepOK options s).1

theorem parseNamePartIdentifier_pos_le (options : NameOptions) (s : PState) :
    s.pos ≤ (parseNamePartIdentifier options s).2.pos :=
  (parseNamePartIdentifier_stepOK options s).2

/-- The rank of a routine: an upper bound on how many further routines it
can hand control to at the same cursor position.  Along every call edge
either the callee's rank is smaller or a token has been consumed first;
this drives the step-budget adequacy proof. -/
def Call.rank : Call → Nat
  | .esel _ => 1
  | .argl _ _ => 1
  | .tc _ => 1
  | .cpred _ _ _ => 1
  | .sml _ => 1
  | .srep _ => 1
  | .dseq _ _ _ => 1
  | .nameLoop _ _ _ _ _ _ => 1
  | .caseExprList _ _ => 1
  | .seqLoop _ _ _ _ => 1
  | .propLoop _ _ _ => 1
  | .npsels _ _ => 2
  | .cstage _ _ _ _ => 2
  | .post _ _ _ => 3
  | .bin _ _ _ _ => 3
  | .npart _ _ => 3
  | .name _ _ => 4
  | .fixp _ _ _ => 4
  | .prim _ _ => 5
  | .sub _ _ _ => 6
  | .mtm _ => 7
  | .eod _ _ => 7
  | .eselr _ => 7
  | .pat _ => 7
  | .cpat _ => 7
  | .smlLoop _ _ => 7
  | .arg _ _ => 8
  | .cpatLoop _ _ _ => 8
  | .caseItems _ _ _ _ => 8
  | .seqp _ => 8
  | .arglLoop _ _ _ => 9
  | .seq _ _ _ => 9
  | .casep _ => 9
  | .propp _ => 10
  | .prop _ _ => 11

/-- Call-site preconditions: the four routines that are only ever invoked
while looking at their opening token. -/
def Call.pre : Call → PState → Prop
  | .esel _, s => s.peek.kind = .OpenBracket
  | .npsels _ _, s => s.peek.kind = .OpenBracket
  | .argl _ _, s => s.peek.kind = .OpenParenthesis
  | .dseq _ _ _, s => s.peek.kind = .DoubleHash
  | _, _ => True

theorem parseDelayedSequenceHead_adequate (n depth : Nat) (s : PState)
    (hIH : ∀ (c : Call) (s : PState), Call.pre c s → s.fuelLow = false →
      16 * (s.toks.length - s.pos) + Call.rank c ≤ n →
      (go n c s).2.fuelLow = false)
    (hflag : s.fuelLow = false)
    (hfuel : 16 * (s.toks.length - s.pos) + 8 ≤ n) :
    (parseDelayedSequenceHead (go n) depth s).2.fuelLow = false := by
  unfold parseDelayedSequenceHead
  dsimp only
  split
  · rename_i hob
    have hlt : s.pos < s.toks.length :=
      peek_lt_of_ne_eof s (by rw [hob]; intro hh; cases hh)
    split
    · rw [expect_fuelLow, consume_fuelLow, consume_fuelLow]
      exact hflag
    · have h1 : (go n (.eselr depth) s.consume.2).2.fuelLow = false :=
        hIH _ _ trivial (by rw [consume_fuelLow]; exact hflag)
          (by simp only [Call.rank, consume_toks]
              have hadv : s.consume.2.pos = s.pos + 1 :=
                advance_pos_eq s (by rw [hob]; intro hh; cases hh)
              omega)
      rw [expect_fuelLow]
      exact h1
  · exact hIH _ _ trivial hflag (by simp only [Call.rank]; omega)

/-- Budget adequacy: with sixteen steps per remaining token plus the
routine's rank, the shared recursion never runs out of steps — i.e. the
parser terminates within the computed budget on every token stream. -/
theorem go_adequate : ∀ (fuel : Nat) (c : Call) (s : PState),
    Call.pre c s → s.fuelLow = false →
    16 * (s.toks.length - s.pos) + Call.rank c ≤ fuel →
    (go fuel c s).2.fuelLow = false := by
  intro fuel
  induction fuel with
  | zero =>
    intro c s hpre hflag hfuel
    cases c <;> simp [Call.rank] at hfuel
  | succ n ih =>
    intro c s hpre hflag hfuel
    cases c <;> simp only [go] <;> simp only [Call.rank] at hfuel
    case sub options precedence depth =>
      unfold parseSubExpression
      dsimp only
      split
      · rw [addDiag_fuelLow]; exact hflag
      · split
        · rename_i hdg hpd
          have hpk : s.peek.kind = .DoubleHash := by
            revert hpd
            unfold isPossibleDelayOrEventControl
            cases s.peek.kind <;> simp
          have hlt : s.pos < s.toks.length :=
            peek_lt_of_ne_eof s (by rw [hpk]; intro hh; cases hh)
          have h1 : (go n (.tc (depth + 1)) s).2.fuelLow = false :=
            ih _ _ trivial hflag (by simp only [Call.rank]; omega)
          have hp1 : s.pos + 1 ≤ (go n (.tc (depth + 1)) s).2.pos := by
            obtain ⟨m, rfl⟩ : ∃ m, n = m + 1 := ⟨n - 1, by omega⟩
            exact tc_progress m (depth + 1) s hpk
          have h2 : (go n (.sub ExpressionOptions.none 0 (depth + 1))
              (go n (.tc (depth + 1)) s).2).2.fuelLow = false :=
            ih _ _ trivial h1 (by simp only [Call.rank, go_toks]; omega)
          have hp2 := go_pos n (.sub ExpressionOptions.none 0 (depth + 1))
            (go n (.tc (depth + 1)) s).2
          exact ih _ _ trivial h2 (by simp only [Call.rank, go_toks]; omega)
        · split
          · rename_i hdg hpd hun
            have hne : s.peek.kind ≠ .EndOfInput := by
              intro hh
              rw [hh] at hun
              exact hun rfl
            have hlt : s.pos < s.toks.length := peek_lt_of_ne_eof s hne
            have hadv : s.consume.2.pos = s.pos + 1 := advance_pos_eq s hne
            simp only [parseAttributes]
            have h1 : (go n (.prim options (depth + 1)) s.consume.2).2.fuelLow
                = false :=
              ih _ _ trivial (by rw [consume_fuelLow]; exact hflag)
                (by simp only [Call.rank, consume_toks]; omega)
            have hp1 := go_pos n (.prim options (depth + 1)) s.consume.2
            have h2 : (go n (.post (go n (.prim options (depth + 1))
                s.consume.2).1 options (depth + 1))
                (go n (.prim options (depth + 1)) s.consume.2).2).2.fuelLow
                = false :=
              ih _ _ trivial h1
                (by simp only [Call.rank, go_toks, consume_toks]; omega)
            have hp2 := go_pos n (.post (go n (.prim options (depth + 1))
                s.consume.2).1 options (depth + 1))
                (go n (.prim options (depth + 1)) s.consume.2).2
            exact ih _ _ trivial h2
              (by simp only [Call.rank, go_toks, consume_toks]; omega)
          · have h1 : (go n (.prim options (depth + 1)) s).2.fuelLow = false :=
              ih _ _ trivial hflag (by simp only [Call.rank]; omega)
            have hp1 := go_pos n (.prim options (depth + 1)) s
            have h2 : (go n (.post (go n (.prim options (depth + 1)) s).1
                options (depth + 1))
                (go n (.prim options (depth + 1)) s).2).2.fuelLow = false :=
              ih _ _ trivial h1 (by simp only [Call.rank, go_toks]; omega)
            have hp2 := go_pos n (.post (go n (.prim options (depth + 1)) s).1
                options (depth + 1)) (go n (.prim options (depth + 1)) s).2
            exact ih _ _ trivial h2 (by simp only [Call.rank, go_toks]; omega)
    case prim options depth =>
      unfold parsePrimaryExpression
      dsimp only
      split
      · rw [consume_fuelLow]; exact hflag
      · rename_i hop
        have hlt : s.pos < s.toks.length :=
          peek_lt_of_ne_eof s (by rw [hop]; intro hh; cases hh)
        have hadv : s.consume.2.pos = s.pos + 1 :=
          advance_pos_eq s (by rw [hop]; intro hh; cases hh)
        have h1 : (go n (.mtm depth) s.consume.2).2.fuelLow = false :=
          ih _ _ trivial (by rw [consume_fuelLow]; exact hflag)
            (by simp only [Call.rank, consume_toks]; omega)
        rw [expect_fuelLow]
        exact h1
      · exact ih _ _ trivial hflag (by simp only [Call.rank]; omega)
    case mtm depth =>
      unfold parseMinTypMaxExpression
      dsimp only
      have h1 : (go n (.sub ExpressionOptions.none 0 depth) s).2.fuelLow
          = false :=
        ih _ _ trivial hflag (by simp only [Call.rank]; omega)
      have hp1 := go_pos n (.sub ExpressionOptions.none 0 depth) s
      split
      · rename_i hcolon
        have hT1 := go_toks n (.sub ExpressionOptions.none 0 depth) s
        have hlt : (go n (.sub ExpressionOptions.none 0 depth) s).2.pos
            < s.toks.length := by
          have h := peek_lt_of_ne_eof (go n (.sub ExpressionOptions.none 0 depth) s).2
            (by rw [hcolon]; intro hh; cases hh)
          rw [hT1] at h
          exact h
        have hadv : (go n (.sub ExpressionOptions.none 0 depth) s).2.consume.2.pos
            = (go n (.sub ExpressionOptions.none 0 depth) s).2.pos + 1 :=
          advance_pos_eq _ (by rw [hcolon]; intro hh; cases hh)
        have h2 : (go n (.sub ExpressionOptions.none 0 depth)
            (go n (.sub ExpressionOptions.none 0 depth) s).2.consume.2).2.fuelLow
            = false :=
          ih _ _ trivial (by rw [consume_fuelLow]; exact h1)
            (by simp only [Call.rank, consume_toks, go_toks]; omega)
        have hp2 := go_pos n (.sub ExpressionOptions.none 0 depth)
          (go n (.sub ExpressionOptions.none 0 depth) s).2.consume.2
        have hpe := expect_pos_le (go n (.sub ExpressionOptions.none 0 depth)
          (go n (.sub ExpressionOptions.none 0 depth) s).2.consume.2).2 .Colon
        exact ih _ _ trivial (by rw [expect_fuelLow]; exact h2)
          (by simp only [Call.rank, expect_toks, consume_toks, go_toks]; omega)
      · exact h1
    case bin left options precedence depth =>
      unfold parseBinaryExpression
      dsimp only
      split
      · exact ih _ _ trivial hflag (by simp only [Call.rank]; omega)
      · split
        · exact ih _ _ trivial hflag (by simp only [Call.rank]; omega)
        · rename_i hbin himp
          have hne : s.peek.kind ≠ .EndOfInput := by
            intro hh
            rw [hh] at hbin
            exact hbin rfl
          have hlt : s.pos < s.toks.length := peek_lt_of_ne_eof s hne
          have hadv : s.consume.2.pos = s.pos + 1 := advance_pos_eq s hne
          split
          · split
            · exact ih _ _ trivial hflag (by simp only [Call.rank]; omega)
            · split
              · exact ih _ _ trivial hflag (by simp only [Call.rank]; omega)
              · simp only [parseAttributes]
                have h1 : (go n (.sub { options with
                    proceduralAssignmentContext := false }
                    (getPrecedence .NonblockingAssignmentExpression) depth)
                    s.consume.2).2.fuelLow = false :=
                  ih _ _ trivial (by rw [consume_fuelLow]; exact hflag)
                    (by simp only [Call.rank, consume_toks]; omega)
                have hp1 := go_pos n (.sub { options with
                    proceduralAssignmentContext := false }
                    (getPrecedence .NonblockingAssignmentExpression) depth)
                  s.consume.2
                exact ih _ _ trivial h1
                  (by simp only [Call.rank, go_toks, consume_toks]; omega)
          · split
            · exact ih _ _ trivial hflag (by simp only [Call.rank]; omega)
            · split
              · exact ih _ _ trivial hflag (by simp only [Call.rank]; omega)
              · simp only [parseAttributes]
                have h1 : (go n (.sub { options with
                    proceduralAssignmentContext := false }
                    (getPrecedence (getBinaryExpression s.peek.kind)) depth)
                    s.consume.2).2.fuelLow = false :=
                  ih _ _ trivial (by rw [consume_fuelLow]; exact hflag)
                    (by simp only [Call.rank, consume_toks]; omega)
                have hp1 := go_pos n (.sub { options with
                    proceduralAssignmentContext := false }
                    (getPrecedence (getBinaryExpression s.peek.kind)) depth)
                  s.consume.2
                exact ih _ _ trivial h1
                  (by simp only [Call.rank, go_toks, consume_toks]; omega)
    case cstage left options precedence depth =>
      unfold conditionalStage
      dsimp only
      split
      · split
        · rename_i houter hmt
          split
          · rename_i htake
            have hq : s.peek.kind = .Question ∨ s.peek.kind = .MatchesKeyword ∨
                s.peek.kind = .TripleAnd := Or.inr hmt
            have hne : s.peek.kind ≠ .EndOfInput := by
              rcases hq with h | h | h <;> (rw [h]; intro hh; cases hh)
            have hlt : s.pos < s.toks.length := peek_lt_of_ne_eof s hne
            simp only [parseAttributes]
            have h1 : (go n (.cpred left .Question depth) s).2.fuelLow = false :=
              ih _ _ trivial hflag (by simp only [Call.rank]; omega)
            have hp1 : s.pos + 1 ≤ (go n (.cpred left .Question depth) s).2.pos := by
              obtain ⟨m, rfl⟩ : ∃ m, n = m + 1 := ⟨n - 1, by omega⟩
              exact cpred_progress m depth left s hq
            have h2 : (go n (.sub options
                (getPrecedence SyntaxKind.LogicalOrExpression - 1) depth)
                (go n (.cpred left .Question depth) s).2).2.fuelLow = false :=
              ih _ _ trivial h1 (by simp only [Call.rank, go_toks]; omega)
            have hp2 := go_pos n (.sub options
                (getPrecedence SyntaxKind.LogicalOrExpression - 1) depth)
              (go n (.cpred left .Question depth) s).2
            have hpe := expect_pos_le (go n (.sub options
                (getPrecedence SyntaxKind.LogicalOrExpression - 1) depth)
                (go n (.cpred left .Question depth) s).2).2 .Colon
            exact ih _ _ trivial (by rw [expect_fuelLow]; exact h2)
              (by simp only [Call.rank, expect_toks, go_toks]; omega)
          · exact hflag
        · split
          · rename_i houter hmt htake
            have hq : s.peek.kind = .Question ∨ s.peek.kind = .MatchesKeyword ∨
                s.peek.kind = .TripleAnd := Or.inl (eq_of_beq htake)
            have hne : s.peek.kind ≠ .EndOfInput := by
              rcases hq with h | h | h <;> (rw [h]; intro hh; cases hh)
            have hlt : s.pos < s.toks.length := peek_lt_of_ne_eof s hne
            simp only [parseAttributes]
            have h1 : (go n (.cpred left .Question depth) s).2.fuelLow = false :=
              ih _ _ trivial hflag (by simp only [Call.rank]; omega)
            have hp1 : s.pos + 1 ≤ (go n (.cpred left .Question depth) s).2.pos := by
              obtain ⟨m, rfl⟩ : ∃ m, n = m + 1 := ⟨n - 1, by omega⟩
              exact cpred_progress m depth left s hq
            have h2 : (go n (.sub options
                (getPrecedence SyntaxKind.LogicalOrExpression - 1) depth)
                (go n (.cpred left .Question depth) s).2).2.fuelLow = false :=
              ih _ _ trivial h1 (by simp only [Call.rank, go_toks]; omega)
            have hp2 := go_pos n (.sub options
                (getPrecedence SyntaxKind.LogicalOrExpression - 1) depth)
              (go n (.cpred left .Question depth) s).2
            have hpe := expect_pos_le (go n (.sub options
                (getPrecedence SyntaxKind.LogicalOrExpression - 1) depth)
                (go n (.cpred left .Question depth) s).2).2 .Colon
            exact ih _ _ trivial (by rw [expect_fuelLow]; exact h2)
              (by simp only [Call.rank, expect_toks, go_toks]; omega)
          · exact hflag
      · exact hflag
    case cpred first endKind depth =>
      unfold parseConditionalPredicate
      dsimp only
      split
      · rename_i hm
        have hne : s.peek.kind ≠ .EndOfInput := by rw [hm]; intro hh; cases hh
        have hlt : s.pos < s.toks.length := peek_lt_of_ne_eof s hne
        have hadv : s.consume.2.pos = s.pos + 1 := advance_pos_eq s hne
        have h1 : (go n (.pat depth) s.consume.2).2.fuelLow = false :=
          ih _ _ trivial (by rw [consume_fuelLow]; exact hflag)
            (by simp only [Call.rank, consume_toks]; omega)
        have hp1 := go_pos n (.pat depth) s.consume.2
        have hT1 := go_toks n (.pat depth) s.consume.2
        split
        · rename_i hta
          have hlt2 : (go n (.pat depth) s.consume.2).2.pos < s.toks.length := by
            have h := peek_lt_of_ne_eof (go n (.pat depth) s.consume.2).2
              (by rw [hta]; intro hh; cases hh)
            rw [hT1, consume_toks] at h
            exact h
          have hadv2 : (go n (.pat depth) s.consume.2).2.consume.2.pos
              = (go n (.pat depth) s.consume.2).2.pos + 1 :=
            advance_pos_eq _ (by rw [hta]; intro hh; cases hh)
          exact ih _ _ trivial (by rw [consume_fuelLow]; exact h1)
            (by simp only [Call.rank, consume_toks, go_toks]; omega)
        · rw [expect_fuelLow]
          exact h1
      · split
        · rename_i hm hta
          have hne : s.peek.kind ≠ .EndOfInput := by rw [hta]; intro hh; cases hh
          have hlt : s.pos < s.toks.length := peek_lt_of_ne_eof s hne
          have hadv : s.consume.2.pos = s.pos + 1 := advance_pos_eq s hne
          exact ih _ _ trivial (by rw [consume_fuelLow]; exact hflag)
            (by simp only [Call.rank, consume_toks]; omega)
        · rw [expect_fuelLow]
          exact hflag
    case cpatLoop acc endKind depth =>
      unfold parseConditionalPatternList
      dsimp only
      have h1 : (go n (.cpat depth) s).2.fuelLow = false :=
        ih _ _ trivial hflag (by simp only [Call.rank]; omega)
      have hp1 := go_pos n (.cpat depth) s
      have hT1 := go_toks n (.cpat depth) s
      split
      · rename_i hta
        have hlt : (go n (.cpat depth) s).2.pos < s.toks.length := by
          have h := peek_lt_of_ne_eof (go n (.cpat depth) s).2
            (by rw [hta]; intro hh; cases hh)
          rw [hT1] at h
          exact h
        have hadv : (go n (.cpat depth) s).2.consume.2.pos
            = (go n (.cpat depth) s).2.pos + 1 :=
          advance_pos_eq _ (by rw [hta]; intro hh; cases hh)
        exact ih _ _ trivial (by rw [consume_fuelLow]; exact h1)
          (by simp only [Call.rank, consume_toks, go_toks]; omega)
      · rw [expect_fuelLow]
        exact h1
    case pat depth =>
      unfold parsePattern
      dsimp only
      split
      · rw [expect_fuelLow, consume_fuelLow]
        exact hflag
      · exact ih _ _ trivial hflag (by simp only [Call.rank]; omega)
    case cpat depth =>
      unfold parseConditionalPattern
      dsimp only
      have h1 : (go n (.sub { patternContext := true } 0 depth) s).2.fuelLow
          = false :=
        ih _ _ trivial hflag (by simp only [Call.rank]; omega)
      have hp1 := go_pos n (.sub { patternContext := true } 0 depth) s
      have hT1 := go_toks n (.sub { patternContext := true } 0 depth) s
      split
      · rename_i hm
        have hlt : (go n (.sub { patternContext := true } 0 depth) s).2.pos
            < s.toks.length := by
          have h := peek_lt_of_ne_eof (go n (.sub { patternContext := true } 0 depth) s).2
            (by rw [hm]; intro hh; cases hh)
          rw [hT1] at h
          exact h
        have hadv : (go n (.sub { patternContext := true } 0 depth) s).2.consume.2.pos
            = (go n (.sub { patternContext := true } 0 depth) s).2.pos + 1 :=
          advance_pos_eq _ (by rw [hm]; intro hh; cases hh)
        exact ih _ _ trivial (by rw [consume_fuelLow]; exact h1)
          (by simp only [Call.rank, consume_toks, go_toks]; omega)
      · exact h1
    case post lhs options depth =>
      unfold parsePostfixExpression
      dsimp only
      split
      · rename_i hob
        split
        · exact hflag
        · have hlt : s.pos < s.toks.length :=
            peek_lt_of_ne_eof s (by rw [hob]; intro hh; cases hh)
          have h1 : (go n (.esel depth) s).2.fuelLow = false :=
            ih _ _ hob hflag (by simp only [Call.rank]; omega)
          have hp1 : s.pos + 1 ≤ (go n (.esel depth) s).2.pos := by
            obtain ⟨m, rfl⟩ : ∃ m, n = m + 1 := ⟨n - 1, by omega⟩
            exact esel_progress m depth s hob
          exact ih _ _ trivial h1 (by simp only [Call.rank, go_toks]; omega)
      · rename_i hdot
        have hne : s.peek.kind ≠ .EndOfInput := by rw [hdot]; intro hh; cases hh
        have hlt : s.pos < s.toks.length := peek_lt_of_ne_eof s hne
        have hadv : s.consume.2.pos = s.pos + 1 := advance_pos_eq s hne
        have hpe := expect_pos_le s.consume.2 .Identifier
        exact ih _ _ trivial
          (by rw [expect_fuelLow, consume_fuelLow]; exact hflag)
          (by simp only [Call.rank, expect_toks, consume_toks]; omega)
      · rename_i hop
        have hlt : s.pos < s.toks.length :=
          peek_lt_of_ne_eof s (by rw [hop]; intro hh; cases hh)
        have h1 : (go n (.argl false depth) s).2.fuelLow = false :=
          ih _ _ hop hflag (by simp only [Call.rank]; omega)
        have hp1 : s.pos + 1 ≤ (go n (.argl false depth) s).2.pos := by
          obtain ⟨m, rfl⟩ : ∃ m, n = m + 1 := ⟨n - 1, by omega⟩
          exact argl_progress m depth false s hop
        exact ih _ _ trivial h1 (by simp only [Call.rank, go_toks]; omega)
      · rw [consume_fuelLow]; exact hflag
      · rw [consume_fuelLow]; exact hflag
      · rename_i hap
        have hne : s.peek.kind ≠ .EndOfInput := by rw [hap]; intro hh; cases hh
        have hlt : s.pos < s.toks.length := peek_lt_of_ne_eof s hne
        have hadv : s.consume.2.pos = s.pos + 1 := advance_pos_eq s hne
        have hpe := expect_pos_le s.consume.2 .OpenParenthesis
        have h1 : (go n (.sub ExpressionOptions.none 0 depth)
            (s.consume.2.expect .OpenParenthesis).2).2.fuelLow = false :=
          ih _ _ trivial (by rw [expect_fuelLow, consume_fuelLow]; exact hflag)
            (by simp only [Call.rank, expect_toks, consume_toks]; omega)
        have hp1 := go_pos n (.sub ExpressionOptions.none 0 depth)
          (s.consume.2.expect .OpenParenthesis).2
        have hpe2 := expect_pos_le (go n (.sub ExpressionOptions.none 0 depth)
            (s.consume.2.expect .OpenParenthesis).2).2 .CloseParenthesis
        exact ih _ _ trivial (by rw [expect_fuelLow]; exact h1)
          (by simp only [Call.rank, expect_toks, go_toks, consume_toks]; omega)
      · exact hflag
    case name options depth =>
      unfold parseName
      dsimp only
      have h1 : (go n (.npart { options with isFirst := true } depth) s).2.fuelLow
          = false :=
        ih _ _ trivial hflag (by simp only [Call.rank]; omega)
      have hp1 := go_pos n (.npart { options with isFirst := true } depth) s
      exact ih _ _ trivial h1 (by simp only [Call.rank, go_toks]; omega)
    case nameLoop nm previousKind usedDot reportedError options depth =>
      unfold parseNameLoop
      dsimp only
      split
      · rename_i hsep
        have hne : s.peek.kind ≠ .EndOfInput := by
          rcases hsep with h | h <;> (rw [h]; intro hh; cases hh)
        have hlt : s.pos < s.toks.length := peek_lt_of_ne_eof s hne
        have hadv : s.consume.2.pos = s.pos + 1 := advance_pos_eq s hne
        split
        · have h1 : (go n (.npart options depth)
              (addDiag .InvalidAccessDotColon s.consume.1.loc s.consume.2)).2.fuelLow
              = false :=
            ih _ _ trivial (by rw [addDiag_fuelLow, consume_fuelLow]; exact hflag)
              (by simp only [Call.rank, addDiag_toks, addDiag_pos, consume_toks]
                  omega)
          have hp1 := go_pos n (.npart options depth)
            (addDiag .InvalidAccessDotColon s.consume.1.loc s.consume.2)
          have hq : (addDiag .InvalidAccessDotColon s.consume.1.loc
              s.consume.2).pos = s.consume.2.pos := rfl
          exact ih _ _ trivial h1
            (by simp only [Call.rank, go_toks, addDiag_toks, consume_toks]
                omega)
        · have h1 : (go n (.npart options depth) s.consume.2).2.fuelLow = false :=
            ih _ _ trivial (by rw [consume_fuelLow]; exact hflag)
              (by simp only [Call.rank, consume_toks]; omega)
          have hp1 := go_pos n (.npart options depth) s.consume.2
          exact ih _ _ trivial h1
            (by simp only [Call.rank, go_toks, consume_toks]; omega)
      · exact hflag
    case npart options depth =>
      unfold parseNamePart
      dsimp only
      split
      · rename_i hob
        split
        · rw [parseNamePartIdentifier_fuelLow]; exact hflag
        · split
          · exact ih _ _ hob
              (by rw [parseNamePartIdentifier_fuelLow]; exact hflag)
              (by simp only [Call.rank, parseNamePartIdentifier_toks]
                  have := parseNamePartIdentifier_pos_le options s
                  omega)
          · rw [parseNamePartIdentifier_fuelLow]; exact hflag
      · rw [parseNamePartIdentifier_fuelLow]; exact hflag
    case npsels acc depth =>
      unfold parseNameSelects
      dsimp only
      have hlt : s.pos < s.toks.length :=
        peek_lt_of_ne_eof s (by rw [hpre]; intro hh; cases hh)
      have h1 : (go n (.esel depth) s).2.fuelLow = false :=
        ih _ _ hpre hflag (by simp only [Call.rank]; omega)
      have hp1 : s.pos + 1 ≤ (go n (.esel depth) s).2.pos := by
        obtain ⟨m, rfl⟩ : ∃ m, n = m + 1 := ⟨n - 1, by omega⟩
        exact esel_progress m depth s hpre
      split
      · rename_i hob2
        exact ih _ _ hob2 h1 (by simp only [Call.rank, go_toks]; omega)
      · exact h1
    case esel depth =>
      unfold parseElementSelect
      dsimp only
      rw [expect_eq_consume s .OpenBracket hpre]
      have hne : s.peek.kind ≠ .EndOfInput := by rw [hpre]; intro hh; cases hh
      have hlt : s.pos < s.toks.length := peek_lt_of_ne_eof s hne
      have hadv : s.consume.2.pos = s.pos + 1 := advance_pos_eq s hne
      have h1 : (go n (.eselr depth) s.consume.2).2.fuelLow = false :=
        ih _ _ trivial (by rw [consume_fuelLow]; exact hflag)
          (by simp only [Call.rank, consume_toks]; omega)
      rw [expect_fuelLow]
      exact h1
    case eselr depth =>
      unfold parseElementSelector
      dsimp only
      split
      · exact hflag
      · have h1 : (go n (.sub ExpressionOptions.none 0 depth) s).2.fuelLow
            = false :=
          ih _ _ trivial hflag (by simp only [Call.rank]; omega)
        have hp1 := go_pos n (.sub ExpressionOptions.none 0 depth) s
        have hT1 := go_toks n (.sub ExpressionOptions.none 0 depth) s
        split
        · rename_i hcolon
          have hlt : (go n (.sub ExpressionOptions.none 0 depth) s).2.pos
              < s.toks.length := by
            have h := peek_lt_of_ne_eof (go n (.sub ExpressionOptions.none 0 depth) s).2
              (by rw [hcolon]; intro hh; cases hh)
            rw [hT1] at h
            exact h
          have hadv : (go n (.sub ExpressionOptions.none 0 depth) s).2.consume.2.pos
              = (go n (.sub ExpressionOptions.none 0 depth) s).2.pos + 1 :=
            advance_pos_eq _ (by rw [hcolon]; intro hh; cases hh)
          exact ih _ _ trivial (by rw [consume_fuelLow]; exact h1)
            (by simp only [Call.rank, consume_toks, go_toks]; omega)
        · exact h1
    case argl isParamAssignment depth =>
      unfold parseArgumentList
      dsimp only
      rw [expect_eq_consume s .OpenParenthesis hpre]
      have hne : s.peek.kind ≠ .EndOfInput := by rw [hpre]; intro hh; cases hh
      have hlt : s.pos < s.toks.length := peek_lt_of_ne_eof s hne
      have hadv : s.consume.2.pos = s.pos + 1 := advance_pos_eq s hne
      split
      · rw [consume_fuelLow, consume_fuelLow]; exact hflag
      · exact ih _ _ trivial (by rw [consume_fuelLow]; exact hflag)
          (by simp only [Call.rank, consume_toks]; omega)
    case arglLoop acc isParamAssignment depth =>
      unfold parseArgumentListItems
      dsimp only
      have h1 : (go n (.arg isParamAssignment depth) s).2.fuelLow = false :=
        ih _ _ trivial hflag (by simp only [Call.rank]; omega)
      have hp1 := go_pos n (.arg isParamAssignment depth) s
      have hT1 := go_toks n (.arg isParamAssignment depth) s
      split
      · rename_i hcm
        have hlt : (go n (.arg isParamAssignment depth) s).2.pos
            < s.toks.length := by
          have h := peek_lt_of_ne_eof (go n (.arg isParamAssignment depth) s).2
            (by rw [hcm]; intro hh; cases hh)
          rw [hT1] at h
          exact h
        have hadv : (go n (.arg isParamAssignment depth) s).2.consume.2.pos
            = (go n (.arg isParamAssignment depth) s).2.pos + 1 :=
          advance_pos_eq _ (by rw [hcm]; intro hh; cases hh)
        exact ih _ _ trivial (by rw [consume_fuelLow]; exact h1)
          (by simp only [Call.rank, consume_toks, go_toks]; omega)
      · rw [expect_fuelLow]
        exact h1
    case arg isParamAssignment depth =>
      unfold parseArgument
      dsimp only
      split
      · exact hflag
      · split
        · rename_i hempty hdot
          have hne : s.peek.kind ≠ .EndOfInput := by rw [hdot]; intro hh; cases hh
          have hlt : s.pos < s.toks.length := peek_lt_of_ne_eof s hne
          have hadv : s.consume.2.pos = s.pos + 1 := advance_pos_eq s hne
          have hpe := expect_pos_le s.consume.2 .Identifier
          split
          · split
            · have h1 : (go n (.mtm depth)
                  ((s.consume.2.expect .Identifier).2.consume.2)).2.fuelLow
                  = false :=
                ih _ _ trivial
                  (by rw [consume_fuelLow, expect_fuelLow, consume_fuelLow]
                      exact hflag)
                  (by simp only [Call.rank, consume_toks, expect_toks]
                      have := consume_pos_le (s.consume.2.expect .Identifier).2
                      omega)
              rw [expect_fuelLow]
              exact h1
            · have h1 : (go n (.sub ExpressionOptions.none 0 depth)
                  ((s.consume.2.expect .Identifier).2.consume.2)).2.fuelLow
                  = false :=
                ih _ _ trivial
                  (by rw [consume_fuelLow, expect_fuelLow, consume_fuelLow]
                      exact hflag)
                  (by simp only [Call.rank, consume_toks, expect_toks]
                      have := consume_pos_le (s.consume.2.expect .Identifier).2
                      omega)
              rw [expect_fuelLow]
              exact h1
          · rw [expect_fuelLow, consume_fuelLow]
            exact hflag
        · split
          · exact ih _ _ trivial hflag (by simp only [Call.rank]; omega)
          · exact ih _ _ trivial hflag (by simp only [Call.rank]; omega)
    case tc depth =>
      unfold parseTimingControl
      dsimp only
      split
      · rename_i hdh
        have hne : s.peek.kind ≠ .EndOfInput := by rw [hdh]; intro hh; cases hh
        have hlt : s.pos < s.toks.length := peek_lt_of_ne_eof s hne
        have hadv : s.consume.2.pos = s.pos + 1 := advance_pos_eq s hne
        exact ih _ _ trivial (by rw [consume_fuelLow]; exact hflag)
          (by simp only [Call.rank, consume_toks]; omega)
      · exact hflag
    case eod options depth =>
      unfold parseExpressionOrDist
      exact ih _ _ trivial hflag (by simp only [Call.rank]; omega)
    case fixp inner openParen depth =>
      unfold fixParenthesizedExpression
      dsimp only
      have hpe := expect_pos_le s .CloseParenthesis
      have h1 : (go n (.post (factory.parenthesizedExpression openParen
          (inner.child 0) (s.expect .CloseParenthesis).1)
          { sequenceExpr := true } depth)
          (s.expect .CloseParenthesis).2).2.fuelLow = false :=
        ih _ _ trivial (by rw [expect_fuelLow]; exact hflag)
          (by simp only [Call.rank, expect_toks]; omega)
      have hp1 := go_pos n (.post (factory.parenthesizedExpression openParen
          (inner.child 0) (s.expect .CloseParenthesis).1)
          { sequenceExpr := true } depth) (s.expect .CloseParenthesis).2
      exact ih _ _ trivial h1
        (by simp only [Call.rank, go_toks, expect_toks]; omega)
    case seq precedence isInProperty depth =>
      unfold parseSequenceExpr
      dsimp only
      split
      · rw [addDiag_fuelLow]; exact hflag
      · have h1 : (go n (.seqp (depth + 1)) s).2.fuelLow = false :=
          ih _ _ trivial hflag (by simp only [Call.rank]; omega)
        have hp1 := go_pos n (.seqp (depth + 1)) s
        split
        · rename_i hdh
          have h2 : (go n (.dseq (go n (.seqp (depth + 1)) s).1 [] (depth + 1))
              (go n (.seqp (depth + 1)) s).2).2.fuelLow = false :=
            ih _ _ hdh h1 (by simp only [Call.rank, go_toks]; omega)
          have hp2 := go_pos n (.dseq (go n (.seqp (depth + 1)) s).1 []
              (depth + 1)) (go n (.seqp (depth + 1)) s).2
          exact ih _ _ trivial h2 (by simp only [Call.rank, go_toks]; omega)
        · exact ih _ _ trivial h1 (by simp only [Call.rank, go_toks]; omega)
    case seqLoop left precedence isInProperty depth =>
      unfold parseSequenceExprLoop
      dsimp only
      split
      · exact hflag
      · split
        · exact hflag
        · split
          · exact hflag
          · split
            · exact hflag
            · rename_i hop himp hlow htie
              have hne : s.peek.kind ≠ .EndOfInput := by
                intro hh
                rw [hh] at hop
                exact hop rfl
              have hlt : s.pos < s.toks.length := peek_lt_of_ne_eof s hne
              have hadv : s.consume.2.pos = s.pos + 1 := advance_pos_eq s hne
              have h1 : (go n (.seq (getPrecedence
                  (getBinarySequenceExpr s.peek.kind)) isInProperty depth)
                  s.consume.2).2.fuelLow = false :=
                ih _ _ trivial (by rw [consume_fuelLow]; exact hflag)
                  (by simp only [Call.rank, consume_toks]; omega)
              have hp1 := go_pos n (.seq (getPrecedence
                  (getBinarySequenceExpr s.peek.kind)) isInProperty depth)
                s.consume.2
              exact ih _ _ trivial h1
                (by simp only [Call.rank, go_toks, consume_toks]; omega)
    case seqp depth =>
      unfold parseSequencePrimary
      dsimp only
      split
      · rename_i hdh
        exact ih _ _ hdh hflag (by simp only [Call.rank]; omega)
      · rename_i hop
        have hne : s.peek.kind ≠ .EndOfInput := by rw [hop]; intro hh; cases hh
        have hlt : s.pos < s.toks.length := peek_lt_of_ne_eof s hne
        have hadv : s.consume.2.pos = s.pos + 1 := advance_pos_eq s hne
        have h1 : (go n (.seq 0 false depth) s.consume.2).2.fuelLow = false :=
          ih _ _ trivial (by rw [consume_fuelLow]; exact hflag)
            (by simp only [Call.rank, consume_toks]; omega)
        have hp1 := go_pos n (.seq 0 false depth) s.consume.2
        split
        · have h2 : (go n (.fixp (go n (.seq 0 false depth) s.consume.2).1
              s.consume.1 depth) (go n (.seq 0 false depth) s.consume.2).2).2.fuelLow
              = false :=
            ih _ _ trivial h1
              (by simp only [Call.rank, go_toks, consume_toks]; omega)
          have hp2 := go_pos n (.fixp (go n (.seq 0 false depth) s.consume.2).1
              s.consume.1 depth) (go n (.seq 0 false depth) s.consume.2).2
          exact ih _ _ trivial h2
            (by simp only [Call.rank, go_toks, consume_toks]; omega)
        · have h2 : (go n (.sml depth)
              (go n (.seq 0 false depth) s.consume.2).2).2.fuelLow = false :=
            ih _ _ trivial h1
              (by simp only [Call.rank, go_toks, consume_toks]; omega)
          have hp2 := go_pos n (.sml depth)
            (go n (.seq 0 false depth) s.consume.2).2
          exact ih _ _ trivial h2
            (by simp only [Call.rank, go_toks, consume_toks]; omega)
      · have h1 : (go n (.eod { sequenceExpr := true } depth) s).2.fuelLow
            = false :=
          ih _ _ trivial hflag (by simp only [Call.rank]; omega)
        have hp1 := go_pos n (.eod { sequenceExpr := true } depth) s
        exact ih _ _ trivial h1 (by simp only [Call.rank, go_toks]; omega)
    case dseq first acc depth =>
      unfold parseDelayedSequenceExpr
      dsimp only
      rw [expect_eq_consume s .DoubleHash hpre]
      have hne : s.peek.kind ≠ .EndOfInput := by rw [hpre]; intro hh; cases hh
      have hlt : s.pos < s.toks.length := peek_lt_of_ne_eof s hne
      have hadv : s.consume.2.pos = s.pos + 1 := advance_pos_eq s hne
      have hh1 : (parseDelayedSequenceHead (go n) depth s.consume.2).2.fuelLow
          = false :=
        parseDelayedSequenceHead_adequate n depth s.consume.2 ih
          (by rw [consume_fuelLow]; exact hflag)
          (by simp only [consume_toks]; omega)
      have hhp := (parseDelayedSequenceHead_stepOK (go n)
        (fun c s => go_stepOK n c s) depth s.consume.2).2
      have hhT := (parseDelayedSequenceHead_stepOK (go n)
        (fun c s => go_stepOK n c s) depth s.consume.2).1
      have h2 : (go n (.seqp depth)
          (parseDelayedSequenceHead (go n) depth s.consume.2).2).2.fuelLow
          = false :=
        ih _ _ trivial hh1
          (by simp only [Call.rank]
              rw [hhT, consume_toks]
              omega)
      have hp2 := go_pos n (.seqp depth)
        (parseDelayedSequenceHead (go n) depth s.consume.2).2
      split
      · rename_i hdh2
        exact ih _ _ hdh2 h2
          (by simp only [Call.rank, go_toks]
              rw [hhT, consume_toks]
              omega)
      · exact h2
    case srep depth =>
      unfold parseSequenceRepetition
      dsimp only
      split
      · rename_i hob
        have hne : s.peek.kind ≠ .EndOfInput := by rw [hob]; intro hh; cases hh
        have hlt : s.pos < s.toks.length := peek_lt_of_ne_eof s hne
        have hadv : s.consume.2.pos = s.pos + 1 := advance_pos_eq s hne
        split
        · have h1 : (go n (.eselr depth) s.consume.2.consume.2).2.fuelLow
              = false :=
            ih _ _ trivial (by rw [consume_fuelLow, consume_fuelLow]; exact hflag)
              (by simp only [Call.rank, consume_toks]
                  have := consume_pos_le s.consume.2
                  omega)
          rw [expect_fuelLow]
          exact h1
        · have h1 : (go n (.eselr depth) s.consume.2.consume.2).2.fuelLow
              = false :=
            ih _ _ trivial (by rw [consume_fuelLow, consume_fuelLow]; exact hflag)
              (by simp only [Call.rank, consume_toks]
                  have := consume_pos_le s.consume.2
                  omega)
          rw [expect_fuelLow]
          exact h1
        · have h1 : (go n (.eselr depth) s.consume.2.consume.2).2.fuelLow
              = false :=
            ih _ _ trivial (by rw [consume_fuelLow, consume_fuelLow]; exact hflag)
              (by simp only [Call.rank, consume_toks]
                  have := consume_pos_le s.consume.2
                  omega)
          rw [expect_fuelLow]
          exact h1
        · have h1 : (go n (.eselr depth)
              (s.consume.2.expect .Star).2).2.fuelLow = false :=
            ih _ _ trivial (by rw [expect_fuelLow, consume_fuelLow]; exact hflag)
              (by simp only [Call.rank, expect_toks, consume_toks]
                  have := expect_pos_le s.consume.2 .Star
                  omega)
          rw [expect_fuelLow]
          exact h1
      · exact hflag
    case sml depth =>
      unfold parseSequenceMatchList
      dsimp only
      split
      · rename_i hcm
        have hne : s.peek.kind ≠ .EndOfInput := by rw [hcm]; intro hh; cases hh
        have hlt : s.pos < s.toks.length := peek_lt_of_ne_eof s hne
        have hadv : s.consume.2.pos = s.pos + 1 := advance_pos_eq s hne
        exact ih _ _ trivial (by rw [consume_fuelLow]; exact hflag)
          (by simp only [Call.rank, consume_toks]; omega)
      · rw [expect_fuelLow]; exact hflag
    case smlLoop acc depth =>
      unfold parseSequenceMatchListItems
      dsimp only
      have h1 : (go n (.sub ExpressionOptions.none 0 depth) s).2.fuelLow
          = false :=
        ih _ _ trivial hflag (by simp only [Call.rank]; omega)
      have hp1 := go_pos n (.sub ExpressionOptions.none 0 depth) s
      have hT1 := go_toks n (.sub ExpressionOptions.none 0 depth) s
      split
      · rename_i hcm
        have hlt : (go n (.sub ExpressionOptions.none 0 depth) s).2.pos
            < s.toks.length := by
          have h := peek_lt_of_ne_eof (go n (.sub ExpressionOptions.none 0 depth) s).2
            (by rw [hcm]; intro hh; cases hh)
          rw [hT1] at h
          exact h
        have hadv : (go n (.sub ExpressionOptions.none 0 depth) s).2.consume.2.pos
            = (go n (.sub ExpressionOptions.none 0 depth) s).2.pos + 1 :=
          advance_pos_eq _ (by rw [hcm]; intro hh; cases hh)
        exact ih _ _ trivial (by rw [consume_fuelLow]; exact h1)
          (by simp only [Call.rank, consume_toks, go_toks]; omega)
      · rw [expect_fuelLow]
        exact h1
    case prop precedence depth =>
      unfold parsePropertyExpr
      dsimp only
      split
      · rw [addDiag_fuelLow]; exact hflag
      · have h1 : (go n (.propp (depth + 1)) s).2.fuelLow = false :=
          ih _ _ trivial hflag (by simp only [Call.rank]; omega)
        have hp1 := go_pos n (.propp (depth + 1)) s
        exact ih _ _ trivial h1 (by simp only [Call.rank, go_toks]; omega)
    case propLoop left precedence depth =>
      unfold parsePropertyExprLoop
      dsimp only
      split
      · exact hflag
      · split
        · exact hflag
        · split
          · exact hflag
          · rename_i hop hlow htie
            have hne : s.peek.kind ≠ .EndOfInput := by
              intro hh
              rw [hh] at hop
              exact hop rfl
            have hlt : s.pos < s.toks.length := peek_lt_of_ne_eof s hne
            have hadv : s.consume.2.pos = s.pos + 1 := advance_pos_eq s hne
            have h1 : (go n (.prop (getPrecedence
                (getBinaryPropertyExpr s.peek.kind)) depth)
                s.consume.2).2.fuelLow = false :=
              ih _ _ trivial (by rw [consume_fuelLow]; exact hflag)
                (by simp only [Call.rank, consume_toks]; omega)
            have hp1 := go_pos n (.prop (getPrecedence
                (getBinaryPropertyExpr s.peek.kind)) depth) s.consume.2
            exact ih _ _ trivial h1
              (by simp only [Call.rank, go_toks, consume_toks]; omega)
    case propp depth =>
      unfold parsePropertyPrimary
      dsimp only
      split
      · rename_i hop
        have hne : s.peek.kind ≠ .EndOfInput := by rw [hop]; intro hh; cases hh
        have hlt : s.pos < s.toks.length := peek_lt_of_ne_eof s hne
        have hadv : s.consume.2.pos = s.pos + 1 := advance_pos_eq s hne
        have h1 : (go n (.prop 0 depth) s.consume.2).2.fuelLow = false :=
          ih _ _ trivial (by rw [consume_fuelLow]; exact hflag)
            (by simp only [Call.rank, consume_toks]; omega)
        have hp1 := go_pos n (.prop 0 depth) s.consume.2
        split
        · exact ih _ _ trivial h1
            (by simp only [Call.rank, go_toks, consume_toks]; omega)
        · split
          · have h2 : (go n (.sml depth)
                (go n (.prop 0 depth) s.consume.2).2).2.fuelLow = false :=
              ih _ _ trivial h1
                (by simp only [Call.rank, go_toks, consume_toks]; omega)
            have hp2 := go_pos n (.sml depth)
              (go n (.prop 0 depth) s.consume.2).2
            exact ih _ _ trivial h2
              (by simp only [Call.rank, go_toks, consume_toks]; omega)
          · rw [expect_fuelLow]
            exact h1
      · exact ih _ _ trivial hflag (by simp only [Call.rank]; omega)
      · exact ih _ _ trivial hflag (by simp only [Call.rank]; omega)
    case casep depth =>
      unfold parseCasePropertyExpr
      dsimp only
      have hpc := consume_pos_le s
      have hpe1 := expect_pos_le s.consume.2 .OpenParenthesis
      have h1 : (go n (.eod ExpressionOptions.none depth)
          (s.consume.2.expect .OpenParenthesis).2).2.fuelLow = false :=
        ih _ _ trivial (by rw [expect_fuelLow, consume_fuelLow]; exact hflag)
          (by simp only [Call.rank, expect_toks, consume_toks]; omega)
      have hp1 := go_pos n (.eod ExpressionOptions.none depth)
        (s.consume.2.expect .OpenParenthesis).2
      have hpe2 := expect_pos_le (go n (.eod ExpressionOptions.none depth)
          (s.consume.2.expect .OpenParenthesis).2).2 .CloseParenthesis
      have h2 : (go n (.caseItems [] Option.none false depth)
          ((go n (.eod ExpressionOptions.none depth)
            (s.consume.2.expect .OpenParenthesis).2).2.expect
            .CloseParenthesis).2).2.fuelLow = false :=
        ih _ _ trivial (by rw [expect_fuelLow]; exact h1)
          (by simp only [Call.rank, expect_toks, go_toks, consume_toks]; omega)
      split
      · rw [expect_fuelLow, addDiag_fuelLow]
        exact h2
      · rw [expect_fuelLow]
        exact h2
    case caseItems acc lastDefault errored depth =>
      unfold parseCaseItems
      dsimp only
      split
      · rename_i hdk
        have hne : s.peek.kind ≠ .EndOfInput := by rw [hdk]; intro hh; cases hh
        have hlt : s.pos < s.toks.length := peek_lt_of_ne_eof s hne
        split
        · have hadv : (addDiagN .MultipleDefaultCases s.peek.loc
              [(.NotePreviousDefinition, lastDefault.getD 0)] s).consume.2.pos
              = s.pos + 1 := advance_pos_eq _ hne
          have hpc := consumeIf_pos_le (addDiagN .MultipleDefaultCases s.peek.loc
              [(.NotePreviousDefinition, lastDefault.getD 0)] s).consume.2 .Colon
          have h1 : (go n (.prop 0 depth)
              ((addDiagN .MultipleDefaultCases s.peek.loc
                [(.NotePreviousDefinition, lastDefault.getD 0)]
                s).consume.2.consumeIf .Colon).2).2.fuelLow = false :=
            ih _ _ trivial
              (by rw [consumeIf_fuelLow, consume_fuelLow, addDiagN_fuelLow]
                  exact hflag)
              (by simp only [Call.rank, consumeIf_toks, consume_toks,
                    addDiagN_toks]
                  omega)
          have hp1 := go_pos n (.prop 0 depth)
            ((addDiagN .MultipleDefaultCases s.peek.loc
              [(.NotePreviousDefinition, lastDefault.getD 0)]
              s).consume.2.consumeIf .Colon).2
          have hpe := expect_pos_le (go n (.prop 0 depth)
            ((addDiagN .MultipleDefaultCases s.peek.loc
              [(.NotePreviousDefinition, lastDefault.getD 0)]
              s).consume.2.consumeIf .Colon).2).2 .Semicolon
          exact ih _ _ trivial (by rw [expect_fuelLow]; exact h1)
            (by simp only [Call.rank, expect_toks, go_toks, consumeIf_toks,
                  consume_toks, addDiagN_toks]
                omega)
        · have hadv : s.consume.2.pos = s.pos + 1 := advance_pos_eq s hne
          have hpc := consumeIf_pos_le s.consume.2 .Colon
          have h1 : (go n (.prop 0 depth)
              (s.consume.2.consumeIf .Colon).2).2.fuelLow = false :=
            ih _ _ trivial
              (by rw [consumeIf_fuelLow, consume_fuelLow]; exact hflag)
              (by simp only [Call.rank, consumeIf_toks, consume_toks]; omega)
          have hp1 := go_pos n (.prop 0 depth) (s.consume.2.consumeIf .Colon).2
          have hpe := expect_pos_le (go n (.prop 0 depth)
            (s.consume.2.consumeIf .Colon).2).2 .Semicolon
          exact ih _ _ trivial (by rw [expect_fuelLow]; exact h1)
            (by simp only [Call.rank, expect_toks, go_toks, consumeIf_toks,
                  consume_toks]
                omega)
      · split
        · rename_i hdk hip
          have hne : s.peek.kind ≠ .EndOfInput := by
            revert hip
            unfold isPossibleExpression
            cases s.peek.kind <;> simp
          have hlt : s.pos < s.toks.length := peek_lt_of_ne_eof s hne
          have h1 : (go n (.eod ExpressionOptions.none depth) s).2.fuelLow
              = false :=
            ih _ _ trivial hflag (by simp only [Call.rank]; omega)
          have hp1 := go_pos n (.eod ExpressionOptions.none depth) s
          have hT1 := go_toks n (.eod ExpressionOptions.none depth) s
          have h2 : (go n (.caseExprList
              [(go n (.eod ExpressionOptions.none depth) s).1] depth)
              (go n (.eod ExpressionOptions.none depth) s).2).2.fuelLow = false :=
            ih _ _ trivial h1 (by simp only [Call.rank, go_toks]; omega)
          have hp2 := go_pos n (.caseExprList
              [(go n (.eod ExpressionOptions.none depth) s).1] depth)
            (go n (.eod ExpressionOptions.none depth) s).2
          have hT2 := go_toks n (.caseExprList
              [(go n (.eod ExpressionOptions.none depth) s).1] depth)
            (go n (.eod ExpressionOptions.none depth) s).2
          split
          · rename_i hnop
            have hpeq : (go n (.caseExprList
                [(go n (.eod ExpressionOptions.none depth) s).1] depth)
                (go n (.eod ExpressionOptions.none depth) s).2).2.peek
                = s.peek := by
              unfold PState.peek PState.peekAt
              rw [hT2, hT1]
              have : (go n (.caseExprList
                  [(go n (.eod ExpressionOptions.none depth) s).1] depth)
                  (go n (.eod ExpressionOptions.none depth) s).2).2.pos
                  = s.pos := by omega
              rw [this]
            have hadv : (go n (.caseExprList
                [(go n (.eod ExpressionOptions.none depth) s).1] depth)
                (go n (.eod ExpressionOptions.none depth) s).2).2.consume.2.pos
                = (go n (.caseExprList
                  [(go n (.eod ExpressionOptions.none depth) s).1] depth)
                  (go n (.eod ExpressionOptions.none depth) s).2).2.pos + 1 :=
              advance_pos_eq _ (by rw [hpeq]; exact hne)
            exact ih _ _ trivial (by rw [consume_fuelLow]; exact h2)
              (by simp only [Call.rank, consume_toks, go_toks]; omega)
          · rename_i hprog
            have h3 : (go n (.prop 0 depth)
                (go n (.caseExprList
                  [(go n (.eod ExpressionOptions.none depth) s).1] depth)
                  (go n (.eod ExpressionOptions.none depth) s).2).2).2.fuelLow
                = false :=
              ih _ _ trivial h2 (by simp only [Call.rank, go_toks]; omega)
            have hp3 := go_pos n (.prop 0 depth)
              (go n (.caseExprList
                [(go n (.eod ExpressionOptions.none depth) s).1] depth)
                (go n (.eod ExpressionOptions.none depth) s).2).2
            have hpe := expect_pos_le (go n (.prop 0 depth)
              (go n (.caseExprList
                [(go n (.eod ExpressionOptions.none depth) s).1] depth)
                (go n (.eod ExpressionOptions.none depth) s).2).2).2 .Semicolon
            exact ih _ _ trivial (by rw [expect_fuelLow]; exact h3)
              (by simp only [Call.rank, expect_toks, go_toks]; omega)
        · exact hflag
    case caseExprList acc depth =>
      unfold parseCaseExprList
      dsimp only
      split
      · rename_i hcm
        have hne : s.peek.kind ≠ .EndOfInput := by rw [hcm]; intro hh; cases hh
        have hlt : s.pos < s.toks.length := peek_lt_of_ne_eof s hne
        have hadv : s.consume.2.pos = s.pos + 1 := advance_pos_eq s hne
        have h1 : (go n (.eod ExpressionOptions.none depth) s.consume.2).2.fuelLow
            = false :=
          ih _ _ trivial (by rw [consume_fuelLow]; exact hflag)
            (by simp only [Call.rank, consume_toks]; omega)
        have hp1 := go_pos n (.eod ExpressionOptions.none depth) s.consume.2
        exact ih _ _ trivial h1
          (by simp only [Call.rank, go_toks, consume_toks]; omega)
      · rw [expect_fuelLow]
        exact hflag

/-- Indexing past an appended prefix. -/
theorem getD_append_add {α : Type} (l l' : List α) (i : Nat) (d : α) :
    (l ++ l').getD (l.length + i) d = l'.getD i d := by
  induction l with
  | nil => simp
  | cons a l ih =>
    rw [List.cons_append]
    have h : (a :: l).length + i = (l.length + i) + 1 := by
      simp [List.length_cons]
      omega
    rw [h, List.getD_cons_succ]
    exact ih

/-- Lookahead of an explicitly given parser state. -/
theorem peekAt_mk (T : List Token) (p : Nat) (ds : List Diag) (f : Bool)
    (i : Nat) :
    PState.peekAt { toks := T, pos := p, diags := ds, fuelLow := f } i =
      T.getD (p + i) (eofToken T) := rfl

theorem stops_binary {k : TokenKind} (h : stopsExpression k = true) :
    getBinaryExpression k = .Unknown := by
  cases k <;> first | rfl | exact absurd h (by decide)

theorem stops_binarySeq {k : TokenKind} (h : stopsExpression k = true) :
    getBinarySequenceExpr k = .Unknown := by
  cases k <;> first | rfl | exact absurd h (by decide)

theorem stops_binaryProp {k : TokenKind} (h : stopsExpression k = true) :
    getBinaryPropertyExpr k = .Unknown := by
  cases k <;> first | rfl | exact absurd h (by decide)

theorem stops_beq_question {k : TokenKind} (h : stopsExpression k = true) :
    (k == TokenKind.Question) = false := by
  cases k <;> first | rfl | exact absurd h (by decide)

theorem stops_not_guard {k : TokenKind} (h : stopsExpression k = true) :
    ¬ (k = .MatchesKeyword ∨ k = .TripleAnd) := by
  cases k <;> first | exact absurd h (by decide) | decide

theorem stops_not_sep {k : TokenKind} (h : stopsExpression k = true) :
    ¬ (k = .Dot ∨ k = .DoubleColon) := by
  cases k <;> first | exact absurd h (by decide) | decide

theorem stops_ne_openBracket {k : TokenKind} (h : stopsExpression k = true) :
    ¬ (k = .OpenBracket) := by
  cases k <;> first | exact absurd h (by decide) | decide

theorem stops_ne_doubleHash {k : TokenKind} (h : stopsExpression k = true) :
    ¬ (k = .DoubleHash) := by
  cases k <;> first | exact absurd h (by decide) | decide

/-- One accepted step of the precedence climb (the while-loop of
`parseBinaryExpression`): the operator token is consumed, the right operand
is parsed at the operator's precedence with the procedural-assignment flag
cleared, and the loop continues on the folded binary node. -/
theorem bin_step_take (left : SyntaxNode) (options : ExpressionOptions)
    (precedence depth fuel : Nat) (s : PState) (opKind : SyntaxKind)
    (hop : opKind =
      (if getBinaryExpression s.peek.kind = .LessThanEqualExpression ∧
          options.proceduralAssignmentContext = true then
        SyntaxKind.NonblockingAssignmentExpression
      else getBinaryExpression s.peek.kind))
    (h1 : getBinaryExpression s.peek.kind ≠ .Unknown)
    (h2 : ¬ (getBinaryExpression s.peek.kind = .LogicalImplicationExpression ∧
        options.constraintContext = true))
    (h3 : precedence < getPrecedence opKind ∨
        (getPrecedence opKind = precedence ∧ isRightAssociative opKind = true)) :
    go (fuel + 1) (.bin left options precedence depth) s =
      (let c := s.consume
       let r := go fuel (.sub { options with proceduralAssignmentContext := false }
           (getPrecedence opKind) depth) c.2
       go fuel (.bin (factory.binaryExpression opKind left c.1 .null r.1)
           { options with proceduralAssignmentContext := false } precedence depth)
         r.2) := by
  subst hop
  simp only [go]
  unfold parseBinaryExpression
  dsimp only [parseAttributes]
  rw [if_neg h1, if_neg h2]
  rw [if_neg (by rcases h3 with h3 | ⟨h3, _⟩ <;> omega)]
  rw [if_neg (by
    rcases h3 with h3 | ⟨he, hr⟩
    · rintro ⟨he, _⟩
      omega
    · rintro ⟨_, hf⟩
      rw [hr] at hf
      cases hf)]

/-- One rejected step of the precedence climb with a recognized,
non-carve-out operator: nothing is consumed and control passes to the
conditional stage, with the procedural-assignment flag cleared. -/
theorem bin_step_pass (left : SyntaxNode) (options : ExpressionOptions)
    (precedence depth fuel : Nat) (s : PState) (opKind : SyntaxKind)
    (hop : opKind =
      (if getBinaryExpression s.peek.kind = .LessThanEqualExpression ∧
          options.proceduralAssignmentContext = true then
        SyntaxKind.NonblockingAssignmentExpression
      else getBinaryExpression s.peek.kind))
    (h1 : getBinaryExpression s.peek.kind ≠ .Unknown)
    (h2 : ¬ (getBinaryExpression s.peek.kind = .LogicalImplicationExpression ∧
        options.constraintContext = true))
    (h3 : ¬ (precedence < getPrecedence opKind ∨
        (getPrecedence opKind = precedence ∧ isRightAssociative opKind = true))) :
    go (fuel + 1) (.bin left options precedence depth) s =
      go fuel (.cstage left { options with proceduralAssignmentContext := false }
        precedence depth) s := by
  subst hop
  simp only [go]
  unfold parseBinaryExpression
  dsimp only [parseAttributes]
  rw [if_neg h1, if_neg h2]
  rcases Nat.lt_trichotomy
      (getPrecedence (if getBinaryExpression s.peek.kind = .LessThanEqualExpression ∧
          options.proceduralAssignmentContext = true then
        SyntaxKind.NonblockingAssignmentExpression
      else getBinaryExpression s.peek.kind)) precedence with hlt | heq | hgt
  · rw [if_pos hlt]
  · rw [if_neg (by omega)]
    have hra : isRightAssociative (if getBinaryExpression s.peek.kind =
        .LessThanEqualExpression ∧ options.proceduralAssignmentContext = true then
      SyntaxKind.NonblockingAssignmentExpression
    else getBinaryExpression s.peek.kind) = false := by
      cases hra : isRightAssociative (if getBinaryExpression s.peek.kind =
          .LessThanEqualExpression ∧ options.proceduralAssignmentContext = true then
        SyntaxKind.NonblockingAssignmentExpression
      else getBinaryExpression s.peek.kind)
      · rfl
      · exact absurd (Or.inr ⟨heq, hra⟩) h3
    rw [if_pos ⟨heq, hra⟩]
  · exact absurd (Or.inl hgt) h3

/-- A break of the precedence climb before any operator handling: the
token is no binary operator at all, or it is the implication operator in
constraint context; control passes to the conditional stage with the
options untouched. -/
theorem bin_step_skip (left : SyntaxNode) (options : ExpressionOptions)
    (precedence depth fuel : Nat) (s : PState)
    (h : getBinaryExpression s.peek.kind = .Unknown ∨
      (getBinaryExpression s.peek.kind = .LogicalImplicationExpression ∧
        options.constraintContext = true)) :
    go (fuel + 1) (.bin left options precedence depth) s =
      go fuel (.cstage left options precedence depth) s := by
  simp only [go]
  unfold parseBinaryExpression
  dsimp only
  rcases h with h | h
  · rw [if_pos h]
  · rw [if_neg (by rw [h.1]; decide), if_pos h]

/-- The conditional stage does nothing in pattern context or at or above
the conditional's precedence level. -/
theorem cstage_blocked (left : SyntaxNode) (options : ExpressionOptions)
    (precedence depth fuel : Nat) (s : PState)
    (h : options.patternContext = true ∨
      getPrecedence .LogicalOrExpression ≤ precedence) :
    go (fuel + 1) (.cstage left options precedence depth) s = (left, s) := by
  simp only [go]
  unfold conditionalStage
  dsimp only
  rw [if_neg (by
    rintro ⟨hpf, hlt⟩
    rcases h with h | h
    · rw [h] at hpf
      cases hpf
    · omega)]

/-- On `matches` or `&&&`, a negative forward scan for `?` makes the
conditional stage decline: nothing is consumed. -/
theorem cstage_scan_no (left : SyntaxNode) (options : ExpressionOptions)
    (precedence depth fuel : Nat) (s : PState)
    (hpat : options.patternContext = false)
    (hprec : precedence < getPrecedence .LogicalOrExpression)
    (hmt : s.peek.kind = .MatchesKeyword ∨ s.peek.kind = .TripleAnd)
    (hscan : (isConditionalExpression s).1 = false) :
    go (fuel + 1) (.cstage left options precedence depth) s = (left, s) := by
  simp only [go]
  unfold conditionalStage
  dsimp only
  rw [if_pos ⟨hpat, hprec⟩, if_pos hmt, hscan,
    if_neg (by intro hh; cases hh)]

/-- The commit path of the conditional stage: on `?`, or on `matches`/`&&&`
with a positive forward scan, the predicate is parsed, then both branches
right-associatively one level below logical-or precedence. -/
theorem cstage_commit (left : SyntaxNode) (options : ExpressionOptions)
    (precedence depth fuel : Nat) (s : PState)
    (hpat : options.patternContext = false)
    (hprec : precedence < getPrecedence .LogicalOrExpression)
    (htake : s.peek.kind = .Question ∨
      ((s.peek.kind = .MatchesKeyword ∨ s.peek.kind = .TripleAnd) ∧
        (isConditionalExpression s).1 = true)) :
    go (fuel + 1) (.cstage left options precedence depth) s =
      (let r1 := go fuel (.cpred left .Question depth) s
       let r2 := go fuel (.sub options (getPrecedence .LogicalOrExpression - 1)
           depth) r1.2
       let e := r2.2.expect .Colon
       let r3 := go fuel (.sub options (getPrecedence .LogicalOrExpression - 1)
           depth) e.2
       (factory.conditionalExpression (r1.1.child 0) (r1.1.tokChild 1) .null
          r2.1 e.1 r3.1, r3.2)) := by
  simp only [go]
  unfold conditionalStage
  dsimp only [parseAttributes]
  rw [if_pos ⟨hpat, hprec⟩]
  rcases htake with hq | ⟨hmt, hscan⟩
  · have hng : ¬ (s.peek.kind = .MatchesKeyword ∨ s.peek.kind = .TripleAnd) := by
      rw [hq]
      decide
    rw [if_neg hng, hq]
    rw [if_pos (show (TokenKind.Question == TokenKind.Question) = true from rfl)]
  · rw [if_pos hmt, hscan, if_pos rfl]

/-- Peek of a state positioned at the head of a known suffix. -/
theorem peek_split (pre : List Token) (t : Token) (rest : List Token)
    (ds : List Diag) (f : Bool) :
    PState.peek
        { toks := pre ++ t :: rest, pos := pre.length, diags := ds,
          fuelLow := f } = t := by
  show (pre ++ t :: rest).getD (pre.length + 0) (eofToken (pre ++ t :: rest)) = t
  rw [getD_append_add]
  rfl

/-- Peek of a state positioned just past the head of a known suffix. -/
theorem peek_split_next (pre : List Token) (t : Token) (rest : List Token)
    (ds : List Diag) (f : Bool) :
    PState.peek
        { toks := pre ++ t :: rest, pos := pre.length + 1, diags := ds,
          fuelLow := f } = rest.headD (eofToken (pre ++ t :: rest)) := by
  show (pre ++ t :: rest).getD (pre.length + 1 + 0) (eofToken (pre ++ t :: rest)) =
    rest.headD (eofToken (pre ++ t :: rest))
  have h : pre.length + 1 + 0 = pre.length + 1 := rfl
  rw [h, getD_append_add]
  cases rest <;> rfl

/-- Advancing a state positioned at the head of a known suffix. -/
theorem advance_split (pre : List Token) (t : Token) (rest : List Token)
    (ds : List Diag) (f : Bool) :
    PState.advance
        { toks := pre ++ t :: rest, pos := pre.length, diags := ds,
          fuelLow := f } =
      { toks := pre ++ t :: rest, pos := pre.length + 1, diags := ds,
        fuelLow := f } := by
  unfold PState.advance
  rw [if_pos (by simp only [List.length_append, List.length_cons]; omega)]

/-- A lone identifier in front of a stopping token parses (at any
precedence, any options, below the depth limit) to an identifier name,
consuming exactly the identifier: the whole
primary/name/postfix/climb/conditional chain of `parseSubExpression`. -/
theorem sub_single_ident (options : ExpressionOptions)
    (precedence depth fuel : Nat) (pre rest : List Token) (t : Token)
    (ds : List Diag) (ht : t.kind = .Identifier)
    (hstop : stopsExpression ((rest.headD (eofToken (pre ++ t :: rest))).kind)
      = true)
    (hdepth : depth < maxRecursionDepth) (hfuel : 4 ≤ fuel) :
    go fuel (.sub options precedence depth)
        { toks := pre ++ t :: rest, pos := pre.length, diags := ds,
          fuelLow := false } =
      (factory.identifierName t,
       { toks := pre ++ t :: rest, pos := pre.length + 1, diags := ds,
         fuelLow := false }) := by
  have hpk := peek_split pre t rest ds false
  have hu := peek_split_next pre t rest ds false
  have hadv := advance_split pre t rest ds false
  have hpkk := congrArg Token.kind hpk
  rw [ht] at hpkk
  have hid : ∀ (nopts : NameOptions),
      parseNamePartIdentifier nopts
        { toks := pre ++ t :: rest, pos := pre.length, diags := ds,
          fuelLow := false } =
      (t, { toks := pre ++ t :: rest, pos := pre.length + 1, diags := ds,
            fuelLow := false }) := by
    intro nopts
    unfold parseNamePartIdentifier
    dsimp only
    rw [if_pos hpkk]
    show (_, PState.advance _) = _
    rw [hpk, hadv]
  have hnpart : ∀ (nopts : NameOptions) (dep k : Nat), 1 ≤ k →
      go k (.npart nopts dep)
        { toks := pre ++ t :: rest, pos := pre.length, diags := ds,
          fuelLow := false } =
      (factory.identifierName t,
       { toks := pre ++ t :: rest, pos := pre.length + 1, diags := ds,
         fuelLow := false }) := by
    intro nopts dep k hk
    obtain ⟨j, rfl⟩ : ∃ j, k = j + 1 := ⟨k - 1, by omega⟩
    simp only [go]
    unfold parseNamePart
    dsimp only
    rw [hid]
    dsimp only
    rw [hu]
    split
    · rename_i heq
      rw [heq] at hstop
      exact absurd hstop (by decide)
    · rfl
  have hloop : ∀ (nm : SyntaxNode) (pk : SyntaxKind) (b1 b2 : Bool)
      (nopts : NameOptions) (dep k : Nat), 1 ≤ k →
      go k (.nameLoop nm pk b1 b2 nopts dep)
        { toks := pre ++ t :: rest, pos := pre.length + 1, diags := ds,
          fuelLow := false } =
      (nm, { toks := pre ++ t :: rest, pos := pre.length + 1, diags := ds,
             fuelLow := false }) := by
    intro nm pk b1 b2 nopts dep k hk
    obtain ⟨j, rfl⟩ : ∃ j, k = j + 1 := ⟨k - 1, by omega⟩
    simp only [go]
    unfold parseNameLoop
    dsimp only
    rw [hu]
    rw [if_neg (stops_not_sep hstop)]
  have hname : ∀ (nopts : NameOptions) (dep k : Nat), 2 ≤ k →
      go k (.name nopts dep)
        { toks := pre ++ t :: rest, pos := pre.length, diags := ds,
          fuelLow := false } =
      (factory.identifierName t,
       { toks := pre ++ t :: rest, pos := pre.length + 1, diags := ds,
         fuelLow := false }) := by
    intro nopts dep k hk
    obtain ⟨j, rfl⟩ : ∃ j, k = j + 1 := ⟨k - 1, by omega⟩
    simp only [go]
    unfold parseName
    dsimp only
    rw [hnpart _ _ j (by omega)]
    dsimp only
    rw [hloop _ _ _ _ _ _ j (by omega)]
  have hprim : ∀ (opts : ExpressionOptions) (dep k : Nat), 3 ≤ k →
      go k (.prim opts dep)
        { toks := pre ++ t :: rest, pos := pre.length, diags := ds,
          fuelLow := false } =
      (factory.identifierName t,
       { toks := pre ++ t :: rest, pos := pre.length + 1, diags := ds,
         fuelLow := false }) := by
    intro opts dep k hk
    obtain ⟨j, rfl⟩ : ∃ j, k = j + 1 := ⟨k - 1, by omega⟩
    simp only [go]
    unfold parsePrimaryExpression
    dsimp only
    rw [hpk, ht]
    exact hname _ _ j (by omega)
  have hpost : ∀ (opts : ExpressionOptions) (lhs : SyntaxNode) (dep k : Nat),
      1 ≤ k →
      go k (.post lhs opts dep)
        { toks := pre ++ t :: rest, pos := pre.length + 1, diags := ds,
          fuelLow := false } =
      (lhs, { toks := pre ++ t :: rest, pos := pre.length + 1, diags := ds,
              fuelLow := false }) := by
    intro opts lhs dep k hk
    obtain ⟨j, rfl⟩ : ∃ j, k = j + 1 := ⟨k - 1, by omega⟩
    simp only [go]
    unfold parsePostfixExpression
    dsimp only
    rw [hu]
    split
    · rename_i heq
      rw [heq] at hstop
      exact absurd hstop (by decide)
    · rename_i heq
      rw [heq] at hstop
      exact absurd hstop (by decide)
    · rename_i heq
      rw [heq] at hstop
      exact absurd hstop (by decide)
    · rename_i heq
      rw [heq] at hstop
      exact absurd hstop (by decide)
    · rename_i heq
      rw [heq] at hstop
      exact absurd hstop (by decide)
    · rename_i heq
      rw [heq] at hstop
      exact absurd hstop (by decide)
    · rfl
  have hcstage : ∀ (opts : ExpressionOptions) (lhs : SyntaxNode)
      (prec dep k : Nat), 1 ≤ k →
      go k (.cstage lhs opts prec dep)
        { toks := pre ++ t :: rest, pos := pre.length + 1, diags := ds,
          fuelLow := false } =
      (lhs, { toks := pre ++ t :: rest, pos := pre.length + 1, diags := ds,
              fuelLow := false }) := by
    intro opts lhs prec dep k hk
    obtain ⟨j, rfl⟩ : ∃ j, k = j + 1 := ⟨k - 1, by omega⟩
    simp only [go]
    unfold conditionalStage
    dsimp only
    split
    · rw [hu]
      rw [if_neg (stops_not_guard hstop), stops_beq_question hstop]
      rw [if_neg Bool.false_ne_true]
    · rfl
  have hbin : ∀ (opts : ExpressionOptions) (lhs : SyntaxNode)
      (prec dep k : Nat), 2 ≤ k →
      go k (.bin lhs opts prec dep)
        { toks := pre ++ t :: rest, pos := pre.length + 1, diags := ds,
          fuelLow := false } =
      (lhs, { toks := pre ++ t :: rest, pos := pre.length + 1, diags := ds,
              fuelLow := false }) := by
    intro opts lhs prec dep k hk
    obtain ⟨j, rfl⟩ : ∃ j, k = j + 1 := ⟨k - 1, by omega⟩
    simp only [go]
    unfold parseBinaryExpression
    dsimp only
    rw [hu, stops_binary hstop]
    rw [if_pos rfl]
    exact hcstage _ _ _ _ j (by omega)
  obtain ⟨n, rfl⟩ : ∃ n, fuel = n + 1 := ⟨fuel - 1, by omega⟩
  simp only [go]
  unfold parseSubExpression
  dsimp only
  rw [if_neg (by omega)]
  rw [hpk, ht]
  rw [if_neg (show ¬ (isPossibleDelayOrEventControl TokenKind.Identifier = true)
    from by decide)]
  rw [if_neg (show ¬ (getUnaryPrefixExpression TokenKind.Identifier ≠
    SyntaxKind.Unknown) from by decide)]
  rw [hprim options (depth + 1) n (by omega)]
  dsimp only
  rw [hpost options (factory.identifierName t) (depth + 1) n (by omega)]
  dsimp only
  rw [hbin { options with allowSuperNewCall := false } (factory.identifierName t)
    precedence (depth + 1) n (by omega)]

/-- `parseExpressionOrDist` on a lone identifier in front of a stop. -/
theorem eod_single_ident (options : ExpressionOptions) (depth fuel : Nat)
    (pre rest : List Token) (t : Token) (ds : List Diag)
    (ht : t.kind = .Identifier)
    (hstop : stopsExpression ((rest.headD (eofToken (pre ++ t :: rest))).kind)
      = true)
    (hdepth : depth < maxRecursionDepth) (hfuel : 5 ≤ fuel) :
    go fuel (.eod options depth)
        { toks := pre ++ t :: rest, pos := pre.length, diags := ds,
          fuelLow := false } =
      (factory.identifierName t,
       { toks := pre ++ t :: rest, pos := pre.length + 1, diags := ds,
         fuelLow := false }) := by
  obtain ⟨n, rfl⟩ : ∃ n, fuel = n + 1 := ⟨fuel - 1, by omega⟩
  simp only [go]
  unfold parseExpressionOrDist
  exact sub_single_ident options 0 depth n pre rest t ds ht hstop hdepth
    (by omega)

/-- `parsePropertyExpr` on a lone identifier in front of a stop: the
property wraps the sequence wraps the expression. -/
theorem prop_single_ident (depth fuel : Nat) (pre rest : List Token)
    (t : Token) (ds : List Diag) (ht : t.kind = .Identifier)
    (hstop : stopsExpression ((rest.headD (eofToken (pre ++ t :: rest))).kind)
      = true)
    (hdepth : depth + 2 < maxRecursionDepth) (hfuel : 9 ≤ fuel) :
    go fuel (.prop 0 depth)
        { toks := pre ++ t :: rest, pos := pre.length, diags := ds,
          fuelLow := false } =
      (factory.simplePropertyExpr (factory.simpleSequenceExpr
        (factory.identifierName t) .null),
       { toks := pre ++ t :: rest, pos := pre.length + 1, diags := ds,
         fuelLow := false }) := by
  have hpk := peek_split pre t rest ds false
  have hu := peek_split_next pre t rest ds false
  have hsrep : ∀ (dep k : Nat), 1 ≤ k →
      go k (.srep dep)
        { toks := pre ++ t :: rest, pos := pre.length + 1, diags := ds,
          fuelLow := false } =
      (.null, { toks := pre ++ t :: rest, pos := pre.length + 1, diags := ds,
                fuelLow := false }) := by
    intro dep k hk
    obtain ⟨j, rfl⟩ : ∃ j, k = j + 1 := ⟨k - 1, by omega⟩
    simp only [go]
    unfold parseSequenceRepetition
    dsimp only
    rw [hu]
    rw [if_neg (stops_ne_openBracket hstop)]
  have hseqp : ∀ (dep k : Nat), dep < maxRecursionDepth → 6 ≤ k →
      go k (.seqp dep)
        { toks := pre ++ t :: rest, pos := pre.length, diags := ds,
          fuelLow := false } =
      (factory.simpleSequenceExpr (factory.identifierName t) .null,
       { toks := pre ++ t :: rest, pos := pre.length + 1, diags := ds,
         fuelLow := false }) := by
    intro dep k hdep hk
    obtain ⟨j, rfl⟩ : ∃ j, k = j + 1 := ⟨k - 1, by omega⟩
    simp only [go]
    unfold parseSequencePrimary
    dsimp only
    rw [hpk, ht]
    rw [eod_single_ident { sequenceExpr := true } dep j pre rest t ds ht hstop
      (by omega) (by omega)]
    dsimp only
    rw [hsrep dep j (by omega)]
  have hseqLoop : ∀ (X : SyntaxNode) (p : Nat) (b : Bool) (dep k : Nat), 1 ≤ k →
      go k (.seqLoop X p b dep)
        { toks := pre ++ t :: rest, pos := pre.length + 1, diags := ds,
          fuelLow := false } =
      (X, { toks := pre ++ t :: rest, pos := pre.length + 1, diags := ds,
            fuelLow := false }) := by
    intro X p b dep k hk
    obtain ⟨j, rfl⟩ : ∃ j, k = j + 1 := ⟨k - 1, by omega⟩
    simp only [go]
    unfold parseSequenceExprLoop
    dsimp only
    rw [hu, stops_binarySeq hstop]
    rw [if_pos rfl]
  have hseq : ∀ (p : Nat) (b : Bool) (dep k : Nat),
      dep + 1 < maxRecursionDepth → 7 ≤ k →
      go k (.seq p b dep)
        { toks := pre ++ t :: rest, pos := pre.length, diags := ds,
          fuelLow := false } =
      (factory.simpleSequenceExpr (factory.identifierName t) .null,
       { toks := pre ++ t :: rest, pos := pre.length + 1, diags := ds,
         fuelLow := false }) := by
    intro p b dep k hdep hk
    obtain ⟨j, rfl⟩ : ∃ j, k = j + 1 := ⟨k - 1, by omega⟩
    simp only [go]
    unfold parseSequenceExpr
    dsimp only
    rw [if_neg (by omega)]
    rw [hseqp (dep + 1) j (by omega) (by omega)]
    dsimp only
    rw [hu]
    rw [if_neg (stops_ne_doubleHash hstop)]
    rw [hseqLoop _ _ _ _ j (by omega)]
  have hpropp : ∀ (dep k : Nat), dep + 1 < maxRecursionDepth → 8 ≤ k →
      go k (.propp dep)
        { toks := pre ++ t :: rest, pos := pre.length, diags := ds,
          fuelLow := false } =
      (factory.simplePropertyExpr (factory.simpleSequenceExpr
        (factory.identifierName t) .null),
       { toks := pre ++ t :: rest, pos := pre.length + 1, diags := ds,
         fuelLow := false }) := by
    intro dep k hdep hk
    obtain ⟨j, rfl⟩ : ∃ j, k = j + 1 := ⟨k - 1, by omega⟩
    simp only [go]
    unfold parsePropertyPrimary
    dsimp only
    rw [hpk, ht]
    rw [hseq 0 true dep j (by omega) (by omega)]
  have hpropLoop : ∀ (X : SyntaxNode) (p dep k : Nat), 1 ≤ k →
      go k (.propLoop X p dep)
        { toks := pre ++ t :: rest, pos := pre.length + 1, diags := ds,
          fuelLow := false } =
      (X, { toks := pre ++ t :: rest, pos := pre.length + 1, diags := ds,
            fuelLow := false }) := by
    intro X p dep k hk
    obtain ⟨j, rfl⟩ : ∃ j, k = j + 1 := ⟨k - 1, by omega⟩
    simp only [go]
    unfold parsePropertyExprLoop
    dsimp only
    rw [hu, stops_binaryProp hstop]
    rw [if_pos rfl]
  obtain ⟨n, rfl⟩ : ∃ n, fuel = n + 1 := ⟨fuel - 1, by omega⟩
  simp only [go]
  unfold parsePropertyExpr
  dsimp only
  rw [if_neg (by omega)]
  rw [hpropp (depth + 1) n (by omega) (by omega)]
  dsimp only
  rw [hpropLoop _ _ _ n (by omega)]

/-- Length of a flat path. -/
theorem flatPath_length (bs : List Bool) : (flatPath bs).length = 2 * bs.length := by
  induction bs with
  | nil => rfl
  | cons b bs ih =>
    show (flatPath bs).length + 1 + 1 = 2 * (bs.length + 1)
    omega

/-- Folding a flat path onto a non-null name stays non-null. -/
theorem flatPathNode_ne_null (bs : List Bool) : ∀ (nm : SyntaxNode),
    nm ≠ .null → flatPathNode nm bs ≠ .null := by
  induction bs with
  | nil => exact fun nm h => h
  | cons b bs ih => exact fun nm h => ih _ node_ne_null

/-- `parseNamePart` on an identifier not followed by `[`: consume it into
an identifier name. -/
theorem npart_ident (nopts : NameOptions) (dep k : Nat) (pre rest : List Token)
    (t : Token) (ds : List Diag) (ht : t.kind = .Identifier)
    (hnb : (rest.headD (eofToken (pre ++ t :: rest))).kind ≠ .OpenBracket)
    (hk : 1 ≤ k) :
    go k (.npart nopts dep)
        { toks := pre ++ t :: rest, pos := pre.length, diags := ds,
          fuelLow := false } =
      (factory.identifierName t,
       { toks := pre ++ t :: rest, pos := pre.length + 1, diags := ds,
         fuelLow := false }) := by
  have hpk := peek_split pre t rest ds false
  have hu := peek_split_next pre t rest ds false
  have hadv := advance_split pre t rest ds false
  have hpkk := congrArg Token.kind hpk
  rw [ht] at hpkk
  have hid : parseNamePartIdentifier nopts
      { toks := pre ++ t :: rest, pos := pre.length, diags := ds,
        fuelLow := false } =
      (t, { toks := pre ++ t :: rest, pos := pre.length + 1, diags := ds,
            fuelLow := false }) := by
    unfold parseNamePartIdentifier
    dsimp only
    rw [if_pos hpkk]
    show (_, PState.advance _) = _
    rw [hpk, hadv]
  obtain ⟨j, rfl⟩ : ∃ j, k = j + 1 := ⟨k - 1, by omega⟩
  simp only [go]
  unfold parseNamePart
  dsimp only
  rw [hid]
  dsimp only
  rw [hu]
  split
  · rename_i heq
    exact absurd heq hnb
  · rfl

/-- Reassociating the consumed token into the prefix of a parser state. -/
theorem state_shift (pre : List Token) (t : Token) (rest : List Token)
    (ds : List Diag) :
    ({ toks := pre ++ t :: rest, pos := pre.length + 1, diags := ds,
       fuelLow := false } : PState) =
      { toks := (pre ++ [t]) ++ rest, pos := (pre ++ [t]).length, diags := ds,
        fuelLow := false } := by
  simp

/-- The separator loop of `parseName` over a flat path: the whole path is
consumed and folded into a scoped name, and `InvalidAccessDotColon` is
reported exactly once as soon as a `::` follows a used `.` (and never
again), never otherwise. -/
theorem nameLoop_flatPath (bs : List Bool) : ∀ (fuel : Nat),
    bs.length + 1 ≤ fuel →
    ∀ (pre : List Token) (nm : SyntaxNode) (pk : SyntaxKind)
      (usedDot reportedError : Bool) (nopts : NameOptions) (dep : Nat)
      (ds : List Diag),
    go fuel (.nameLoop nm pk usedDot reportedError nopts dep)
        { toks := pre ++ flatPath bs, pos := pre.length, diags := ds,
          fuelLow := false } =
      (flatPathNode nm bs,
       { toks := pre ++ flatPath bs, pos := pre.length + 2 * bs.length,
         diags := (if !reportedError && mixesDotColon usedDot bs then
             [{ code := .InvalidAccessDotColon, loc := 0 }] else []) ++ ds,
         fuelLow := false }) := by
  induction bs with
  | nil =>
    intro fuel hfuel pre nm pk usedDot reportedError nopts dep ds
    obtain ⟨n, rfl⟩ : ∃ n, fuel = n + 1 := ⟨fuel - 1, by omega⟩
    have hpe : PState.peek
        { toks := pre ++ flatPath [], pos := pre.length, diags := ds,
          fuelLow := false } = eofToken (pre ++ flatPath []) := by
      show (pre ++ flatPath []).getD (pre.length + 0) (eofToken _) = _
      rw [getD_append_add]
      rfl
    have hng : ¬ ((eofToken (pre ++ flatPath [])).kind = .Dot ∨
        (eofToken (pre ++ flatPath [])).kind = .DoubleColon) := by
      rintro (h | h) <;> simp [eofToken] at h
    simp only [go]
    unfold parseNameLoop
    dsimp only
    rw [hpe, if_neg hng]
    cases reportedError <;> rfl
  | cons b bs ih =>
    intro fuel hfuel pre nm pk usedDot reportedError nopts dep ds
    simp only [List.length_cons] at hfuel
    obtain ⟨n, rfl⟩ : ∃ n, fuel = n + 1 := ⟨fuel - 1, by omega⟩
    cases b with
    | true =>
      rw [show flatPath (true :: bs) =
        ({ kind := TokenKind.Dot } : Token) ::
          ({ kind := TokenKind.Identifier } : Token) :: flatPath bs from rfl]
      have hpk := peek_split pre ({ kind := TokenKind.Dot } : Token)
        (({ kind := TokenKind.Identifier } : Token) :: flatPath bs) ds false
      have hadv := advance_split pre ({ kind := TokenKind.Dot } : Token)
        (({ kind := TokenKind.Identifier } : Token) :: flatPath bs) ds false
      have hnb : ((flatPath bs).headD (eofToken ((pre ++
          [({ kind := TokenKind.Dot } : Token)]) ++
          ({ kind := TokenKind.Identifier } : Token) :: flatPath bs))).kind ≠
          .OpenBracket := by
        intro h
        cases bs with
        | nil => simp [flatPath, eofToken] at h
        | cons b2 bs2 => cases b2 <;> simp [flatPath] at h
      have hrn : ¬ ((!(TokenKind.Dot == TokenKind.Dot) && usedDot &&
          !reportedError) = true) := by
        simp
      simp only [go]
      unfold parseNameLoop
      dsimp only [PState.consume]
      rw [hpk, hadv]
      dsimp only
      rw [if_pos (Or.inl rfl)]
      rw [if_pos (show TokenKind.Dot = TokenKind.Dot from rfl)]
      simp only [if_neg hrn]
      rw [state_shift]
      rw [npart_ident nopts dep n (pre ++ [({ kind := TokenKind.Dot } : Token)])
        (flatPath bs) ({ kind := TokenKind.Identifier } : Token) ds rfl hnb
        (by omega)]
      dsimp only
      rw [state_shift]
      rw [ih n (by omega)]
      simp only [Prod.mk.injEq, PState.mk.injEq]
      repeat' apply And.intro
      all_goals first
      | rfl
      | trivial
      | (simp only [List.length_append, List.length_cons, List.length_nil]; omega)
      | simp
    | false =>
      rw [show flatPath (false :: bs) =
        ({ kind := TokenKind.DoubleColon } : Token) ::
          ({ kind := TokenKind.Identifier } : Token) :: flatPath bs from rfl]
      have hpk := peek_split pre ({ kind := TokenKind.DoubleColon } : Token)
        (({ kind := TokenKind.Identifier } : Token) :: flatPath bs) ds false
      have hadv := advance_split pre ({ kind := TokenKind.DoubleColon } : Token)
        (({ kind := TokenKind.Identifier } : Token) :: flatPath bs) ds false
      have hnb : ((flatPath bs).headD (eofToken ((pre ++
          [({ kind := TokenKind.DoubleColon } : Token)]) ++
          ({ kind := TokenKind.Identifier } : Token) :: flatPath bs))).kind ≠
          .OpenBracket := by
        intro h
        cases bs with
        | nil => simp [flatPath, eofToken] at h
        | cons b2 bs2 => cases b2 <;> simp [flatPath] at h
      simp only [go]
      unfold parseNameLoop
      dsimp only [PState.consume]
      rw [hpk, hadv]
      dsimp only
      rw [if_pos (Or.inr rfl)]
      rw [if_neg (show ¬ (TokenKind.DoubleColon = TokenKind.Dot) from by decide)]
      cases usedDot with
      | false =>
        have hrn : ¬ ((!(TokenKind.DoubleColon == TokenKind.Dot) && false &&
            !reportedError) = true) := by
          simp
        simp only [if_neg hrn]
        rw [state_shift]
        rw [npart_ident nopts dep n
          (pre ++ [({ kind := TokenKind.DoubleColon } : Token)])
          (flatPath bs) ({ kind := TokenKind.Identifier } : Token) ds rfl
          hnb (by omega)]
        dsimp only
        rw [state_shift]
        rw [ih n (by omega)]
        simp only [Prod.mk.injEq, PState.mk.injEq]
        repeat' apply And.intro
        all_goals first
        | rfl
        | trivial
        | (simp only [List.length_append, List.length_cons, List.length_nil]; omega)
        | simp
      | true =>
        cases reportedError with
        | true =>
          have hrn : ¬ ((!(TokenKind.DoubleColon == TokenKind.Dot) && true &&
              !true) = true) := by decide
          simp only [if_neg hrn]
          rw [state_shift]
          rw [npart_ident nopts dep n
            (pre ++ [({ kind := TokenKind.DoubleColon } : Token)])
            (flatPath bs) ({ kind := TokenKind.Identifier } : Token) ds rfl
            hnb (by omega)]
          dsimp only
          rw [state_shift]
          rw [ih n (by omega)]
          simp only [Prod.mk.injEq, PState.mk.injEq]
          repeat' apply And.intro
          all_goals first
          | rfl
          | trivial
          | (simp only [List.length_append, List.length_cons, List.length_nil]; omega)
          | simp
        | false =>
          have hrn : ((!(TokenKind.DoubleColon == TokenKind.Dot) && true &&
              !false) = true) := by decide
          simp only [if_pos hrn]
          dsimp only [addDiag, addDiagN]
          rw [state_shift]
          rw [npart_ident nopts dep n
            (pre ++ [({ kind := TokenKind.DoubleColon } : Token)])
            (flatPath bs) ({ kind := TokenKind.Identifier } : Token)
            (({ code := .InvalidAccessDotColon, loc := 0, notes := [] } : Diag)
              :: ds) rfl hnb (by omega)]
          dsimp only
          rw [state_shift]
          rw [ih n (by omega)]
          simp only [Prod.mk.injEq, PState.mk.injEq]
          repeat' apply And.intro
          all_goals first
          | rfl
          | trivial
          | (simp only [List.length_append, List.length_cons, List.length_nil]; omega)
          | simp

/-- Helper: `caseDupDiags` never fires again once `errored` is set. -/
theorem caseDupDiags_errored (ls : List Nat) : ∀ (lastDefault : Option Nat),
    caseDupDiags lastDefault true ls = [] := by
  induction ls with
  | nil => intro lastDefault; rfl
  | cons l ls ih =>
    intro lastDefault
    simp only [caseDupDiags]
    rw [if_neg (by rintro ⟨_, h⟩; cases h)]
    exact ih (some l)

/-- The case-item loop over a run of `default : <identifier> ;` items in
front of a non-item token: every item is parsed and kept, the cursor ends
at the terminator, and the duplicate-default diagnostics are exactly
`caseDupDiags`. -/
theorem caseItems_defaultBlocks (ls : List Nat) : ∀ (fuel : Nat),
    ls.length + 10 ≤ fuel →
    ∀ (pre : List Token) (u : Token) (rest : List Token)
      (acc : List SyntaxNode) (lastDefault : Option Nat) (errored : Bool)
      (dep : Nat) (ds : List Diag),
    u.kind ≠ .DefaultKeyword → isPossibleExpression u.kind = false →
    dep + 2 < maxRecursionDepth →
    go fuel (.caseItems acc lastDefault errored dep)
        { toks := pre ++ defaultBlocks ls ++ u :: rest, pos := pre.length,
          diags := ds, fuelLow := false } =
      (.node .PairResult [.node .SyntaxList (acc ++ defaultItems ls)],
       { toks := pre ++ defaultBlocks ls ++ u :: rest,
         pos := pre.length + 4 * ls.length,
         diags := caseDupDiags lastDefault errored ls ++ ds,
         fuelLow := false }) := by
  induction ls with
  | nil =>
    intro fuel hfuel pre u rest acc lastDefault errored dep ds hu1 hu2 hdep
    obtain ⟨n, rfl⟩ : ∃ n, fuel = n + 1 := ⟨fuel - 1, by omega⟩
    simp only [show defaultBlocks ([] : List Nat) = [] from rfl,
      List.append_nil]
    have hpk := peek_split pre u rest ds false
    simp only [go]
    unfold parseCaseItems
    dsimp only
    rw [hpk]
    rw [if_neg hu1, hu2]
    rw [if_neg Bool.false_ne_true]
    simp [caseDupDiags, defaultItems]
  | cons l ls ih =>
    intro fuel hfuel pre u rest acc lastDefault errored dep ds hu1 hu2 hdep
    simp only [List.length_cons] at hfuel
    obtain ⟨n, rfl⟩ : ∃ n, fuel = n + 1 := ⟨fuel - 1, by omega⟩
    rw [show defaultBlocks (l :: ls) =
      ({ kind := TokenKind.DefaultKeyword, loc := l } : Token) ::
      ({ kind := TokenKind.Colon, loc := l } : Token) ::
      ({ kind := TokenKind.Identifier, loc := l } : Token) ::
      ({ kind := TokenKind.Semicolon, loc := l } : Token) ::
      defaultBlocks ls from rfl]
    simp only [List.append_assoc, List.cons_append]
    have hpk := peek_split pre
      ({ kind := TokenKind.DefaultKeyword, loc := l } : Token)
      (({ kind := TokenKind.Colon, loc := l } : Token) ::
       ({ kind := TokenKind.Identifier, loc := l } : Token) ::
       ({ kind := TokenKind.Semicolon, loc := l } : Token) ::
       (defaultBlocks ls ++ u :: rest)) ds false
    simp only [go]
    unfold parseCaseItems
    dsimp only [PState.consume, PState.consumeIf, PState.expect]
    rw [hpk]
    dsimp only
    rw [if_pos rfl]
    by_cases hc : lastDefault.isSome ∧ errored = false
    · simp only [if_pos hc]
      dsimp only [addDiagN]
      rw [peek_split pre ({ kind := TokenKind.DefaultKeyword, loc := l } : Token)
        _ ({ code := .MultipleDefaultCases, loc := l,
             notes := [(.NotePreviousDefinition, lastDefault.getD 0)] } :: ds)
        false]
      rw [advance_split pre
        ({ kind := TokenKind.DefaultKeyword, loc := l } : Token) _
        ({ code := .MultipleDefaultCases, loc := l,
           notes := [(.NotePreviousDefinition, lastDefault.getD 0)] } :: ds)
        false]
      try dsimp only
      rw [state_shift pre ({ kind := TokenKind.DefaultKeyword, loc := l } : Token)]
      rw [peek_split (pre ++ [({ kind := TokenKind.DefaultKeyword, loc := l } : Token)])
        ({ kind := TokenKind.Colon, loc := l } : Token) _ _ false]
      rw [if_pos rfl]
      try dsimp only
      rw [advance_split (pre ++ [({ kind := TokenKind.DefaultKeyword, loc := l } : Token)])
        ({ kind := TokenKind.Colon, loc := l } : Token) _ _ false]
      rw [state_shift (pre ++ [({ kind := TokenKind.DefaultKeyword, loc := l } : Token)])
        ({ kind := TokenKind.Colon, loc := l } : Token)]
      rw [prop_single_ident dep n
        ((pre ++ [({ kind := TokenKind.DefaultKeyword, loc := l } : Token)]) ++
          [({ kind := TokenKind.Colon, loc := l } : Token)])
        (({ kind := TokenKind.Semicolon, loc := l } : Token) ::
          (defaultBlocks ls ++ u :: rest))
        ({ kind := TokenKind.Identifier, loc := l } : Token) _ rfl rfl hdep
        (by omega)]
      try dsimp only
      rw [state_shift ((pre ++ [({ kind := TokenKind.DefaultKeyword, loc := l } : Token)]) ++
          [({ kind := TokenKind.Colon, loc := l } : Token)])
        ({ kind := TokenKind.Identifier, loc := l } : Token)]
      rw [peek_split (((pre ++ [({ kind := TokenKind.DefaultKeyword, loc := l } : Token)]) ++
          [({ kind := TokenKind.Colon, loc := l } : Token)]) ++
          [({ kind := TokenKind.Identifier, loc := l } : Token)])
        ({ kind := TokenKind.Semicolon, loc := l } : Token) _ _ false]
      rw [if_pos rfl]
      try dsimp only
      rw [advance_split (((pre ++ [({ kind := TokenKind.DefaultKeyword, loc := l } : Token)]) ++
          [({ kind := TokenKind.Colon, loc := l } : Token)]) ++
          [({ kind := TokenKind.Identifier, loc := l } : Token)])
        ({ kind := TokenKind.Semicolon, loc := l } : Token) _ _ false]
      rw [state_shift (((pre ++ [({ kind := TokenKind.DefaultKeyword, loc := l } : Token)]) ++
          [({ kind := TokenKind.Colon, loc := l } : Token)]) ++
          [({ kind := TokenKind.Identifier, loc := l } : Token)])
        ({ kind := TokenKind.Semicolon, loc := l } : Token)]
      rw [← List.append_assoc ((((pre ++ [({ kind := TokenKind.DefaultKeyword, loc := l } : Token)]) ++
          [({ kind := TokenKind.Colon, loc := l } : Token)]) ++
          [({ kind := TokenKind.Identifier, loc := l } : Token)]) ++
          [({ kind := TokenKind.Semicolon, loc := l } : Token)])
        (defaultBlocks ls) (u :: rest)]
      rw [ih n (by omega) _ u rest _ (some l) true dep _ hu1 hu2 hdep]
      simp only [Prod.mk.injEq, PState.mk.injEq, SyntaxNode.node.injEq]
      repeat' apply And.intro
      all_goals first
      | rfl
      | trivial
      | (simp only [caseDupDiags, if_pos hc, caseDupDiags_errored]
         simp [List.append_assoc])
      | (simp only [List.length_append, List.length_cons, List.length_nil]
         omega)
      | (simp only [defaultItems]
         simp [List.append_assoc])
      | simp
    · simp only [if_neg hc]
      rw [peek_split pre ({ kind := TokenKind.DefaultKeyword, loc := l } : Token)
        _ ds false]
      rw [advance_split pre
        ({ kind := TokenKind.DefaultKeyword, loc := l } : Token) _ ds false]
      try dsimp only
      rw [state_shift pre ({ kind := TokenKind.DefaultKeyword, loc := l } : Token)]
      rw [peek_split (pre ++ [({ kind := TokenKind.DefaultKeyword, loc := l } : Token)])
        ({ kind := TokenKind.Colon, loc := l } : Token) _ _ false]
      rw [if_pos rfl]
      try dsimp only
      rw [advance_split (pre ++ [({ kind := TokenKind.DefaultKeyword, loc := l } : Token)])
        ({ kind := TokenKind.Colon, loc := l } : Token) _ _ false]
      rw [state_shift (pre ++ [({ kind := TokenKind.DefaultKeyword, loc := l } : Token)])
        ({ kind := TokenKind.Colon, loc := l } : Token)]
      rw [prop_single_ident dep n
        ((pre ++ [({ kind := TokenKind.DefaultKeyword, loc := l } : Token)]) ++
          [({ kind := TokenKind.Colon, loc := l } : Token)])
        (({ kind := TokenKind.Semicolon, loc := l } : Token) ::
          (defaultBlocks ls ++ u :: rest))
        ({ kind := TokenKind.Identifier, loc := l } : Token) _ rfl rfl hdep
        (by omega)]
      try dsimp only
      rw [state_shift ((pre ++ [({ kind := TokenKind.DefaultKeyword, loc := l } : Token)]) ++
          [({ kind := TokenKind.Colon, loc := l } : Token)])
        ({ kind := TokenKind.Identifier, loc := l } : Token)]
      rw [peek_split (((pre ++ [({ kind := TokenKind.DefaultKeyword, loc := l } : Token)]) ++
          [({ kind := TokenKind.Colon, loc := l } : Token)]) ++
          [({ kind := TokenKind.Identifier, loc := l } : Token)])
        ({ kind := TokenKind.Semicolon, loc := l } : Token) _ _ false]
      rw [if_pos rfl]
      try dsimp only
      rw [advance_split (((pre ++ [({ kind := TokenKind.DefaultKeyword, loc := l } : Token)]) ++
          [({ kind := TokenKind.Colon, loc := l } : Token)]) ++
          [({ kind := TokenKind.Identifier, loc := l } : Token)])
        ({ kind := TokenKind.Semicolon, loc := l } : Token) _ _ false]
      rw [state_shift (((pre ++ [({ kind := TokenKind.DefaultKeyword, loc := l } : Token)]) ++
          [({ kind := TokenKind.Colon, loc := l } : Token)]) ++
          [({ kind := TokenKind.Identifier, loc := l } : Token)])
        ({ kind := TokenKind.Semicolon, loc := l } : Token)]
      rw [← List.append_assoc ((((pre ++ [({ kind := TokenKind.DefaultKeyword, loc := l } : Token)]) ++
          [({ kind := TokenKind.Colon, loc := l } : Token)]) ++
          [({ kind := TokenKind.Identifier, loc := l } : Token)]) ++
          [({ kind := TokenKind.Semicolon, loc := l } : Token)])
        (defaultBlocks ls) (u :: rest)]
      rw [ih n (by omega) _ u rest _ (some l) errored dep _ hu1 hu2 hdep]
      simp only [Prod.mk.injEq, PState.mk.injEq, SyntaxNode.node.injEq]
      repeat' apply And.intro
      all_goals first
      | rfl
      | trivial
      | (simp only [caseDupDiags, if_neg hc])
      | (simp only [List.length_append, List.length_cons, List.length_nil]
         omega)
      | (simp only [defaultItems]
         simp [List.append_assoc])
      | simp

/-- C1: for every finite token stream the three grammar entry points
(`parseSubExpression` via `parseExpressionTop`, `parseSequenceExpr` via
`parseSequenceExprTop`, `parsePropertyExpr` via `parsePropertyExprTop`)
terminate within the computed step budget (the budget-exhaustion flag
stays clear) and return a non-null syntax node; and the depth guard at
each of the three entry points turns a call at or above the fixed maximum
depth into a local, recoverable abort: the current subtree becomes a
`ParseError` node with one `MaxRecursionDepthExceeded` diagnostic while
the state keeps the same token stream and cursor, so the surrounding
parse continues. -/
theorem C1_termination_and_depth_guard :
    (∀ toks : List Token,
      (parseExpressionTop toks).2.fuelLow = false ∧
      (parseExpressionTop toks).1 ≠ SyntaxNode.null ∧
      (parseSequenceExprTop toks).2.fuelLow = false ∧
      (parseSequenceExprTop toks).1 ≠ SyntaxNode.null ∧
      (parsePropertyExprTop toks).2.fuelLow = false ∧
      (parsePropertyExprTop toks).1 ≠ SyntaxNode.null) ∧
    (∀ (fuel : Nat) (options : ExpressionOptions) (precedence depth : Nat)
       (isInProperty : Bool) (s : PState), maxRecursionDepth ≤ depth →
      go (fuel + 1) (.sub options precedence depth) s =
        (.node .ParseError [],
         addDiag .MaxRecursionDepthExceeded s.peek.loc s) ∧
      go (fuel + 1) (.seq precedence isInProperty depth) s =
        (.node .ParseError [],
         addDiag .MaxRecursionDepthExceeded s.peek.loc s) ∧
      go (fuel + 1) (.prop precedence depth) s =
        (.node .ParseError [],
         addDiag .MaxRecursionDepthExceeded s.peek.loc s)) := by
  constructor
  · intro toks
    have h1 := go_adequate (stdFuel toks) (.sub ExpressionOptions.none 0 0)
      (initState toks) trivial rfl
      (by simp only [initState, stdFuel, Call.rank]; omega)
    have h2 := go_adequate (stdFuel toks) (.seq 0 false 0)
      (initState toks) trivial rfl
      (by simp only [initState, stdFuel, Call.rank]; omega)
    have h3 := go_adequate (stdFuel toks) (.prop 0 0)
      (initState toks) trivial rfl
      (by simp only [initState, stdFuel, Call.rank]; omega)
    exact ⟨h1,
      go_nonNull (stdFuel toks) (.sub ExpressionOptions.none 0 0)
        (initState toks), h2,
      go_nonNull (stdFuel toks) (.seq 0 false 0) (initState toks), h3,
      go_nonNull (stdFuel toks) (.prop 0 0) (initState toks)⟩
  · intro fuel options precedence depth isInProperty s h
    refine ⟨?_, ?_, ?_⟩ <;> simp only [go]
    · unfold parseSubExpression
      rw [if_pos h]
    · unfold parseSequenceExpr
      rw [if_pos h]
    · unfold parsePropertyExpr
      rw [if_pos h]

/-- C1 witness: at depth 16 the depth guard aborts locally on the empty
stream. -/
theorem C1_termination_and_depth_guard_witness :
    go 1 (.sub ExpressionOptions.none 0 maxRecursionDepth) (initState []) =
      (.node .ParseError [],
       addDiag .MaxRecursionDepthExceeded (initState []).peek.loc
         (initState [])) :=
  (C1_termination_and_depth_guard.2 0 ExpressionOptions.none 0
    maxRecursionDepth false (initState []) (Nat.le_refl _)).1

/-- C8: the bounded-scan predicates `isConditionalExpression` and
`isSequenceRepetition` read only via indexed lookahead and return the
parser state unchanged — in particular the cursor position after the call
equals the position before it. -/
theorem C8_scanners_pure :
    ∀ s : PState,
      (isConditionalExpression s).2 = s ∧
      (isSequenceRepetition s).2 = s ∧
      (isConditionalExpression s).2.pos = s.pos ∧
      (isSequenceRepetition s).2.pos = s.pos :=
  fun s => ⟨rfl, rfl, rfl, rfl⟩

/-- C9: parsing is deterministic — parsing the same finite token stream
twice, each time from a fresh parser state, yields structurally identical
trees at each of the three entry points. -/
theorem C9_determinism :
    ∀ (toks : List Token) (s1 s2 : PState),
      s1 = initState toks → s2 = initState toks →
      (go (stdFuel toks) (.sub ExpressionOptions.none 0 0) s1).1 =
        (go (stdFuel toks) (.sub ExpressionOptions.none 0 0) s2).1 ∧
      (go (stdFuel toks) (.seq 0 false 0) s1).1 =
        (go (stdFuel toks) (.seq 0 false 0) s2).1 ∧
      (go (stdFuel toks) (.prop 0 0) s1).1 =
        (go (stdFuel toks) (.prop 0 0) s2).1 := by
  rintro toks s1 s2 rfl rfl
  exact ⟨rfl, rfl, rfl⟩

/-- C9 witness: two fresh runs over a one-token stream agree. -/
theorem C9_determinism_witness :
    (go (stdFuel (mkToks [.Identifier])) (.sub ExpressionOptions.none 0 0)
        (initState (mkToks [.Identifier]))).1 =
      (go (stdFuel (mkToks [.Identifier])) (.sub ExpressionOptions.none 0 0)
        (initState (mkToks [.Identifier]))).1 ∧
    (go (stdFuel (mkToks [.Identifier])) (.seq 0 false 0)
        (initState (mkToks [.Identifier]))).1 =
      (go (stdFuel (mkToks [.Identifier])) (.seq 0 false 0)
        (initState (mkToks [.Identifier]))).1 ∧
    (go (stdFuel (mkToks [.Identifier])) (.prop 0 0)
        (initState (mkToks [.Identifier]))).1 =
      (go (stdFuel (mkToks [.Identifier])) (.prop 0 0)
        (initState (mkToks [.Identifier]))).1 :=
  C9_determinism (mkToks [.Identifier]) (initState (mkToks [.Identifier]))
    (initState (mkToks [.Identifier])) rfl rfl

/-- C10: once `parsePostfixExpression` sees a postfix `++` or `--`, it
consumes exactly that one token and returns the postfix-unary node
immediately, attaching no further suffix — even when the next token (here
a `.`) could start one; concretely `a ++ . b` stops right after the `++`
with the member access left unconsumed. -/
theorem C10_postfix_incdec_stops :
    (∀ (lhs : SyntaxNode) (options : ExpressionOptions) (depth fuel : Nat)
       (s : PState),
      s.peek.kind = .DoublePlus ∨ s.peek.kind = .DoubleMinus →
      go (fuel + 1) (.post lhs options depth) s =
        (factory.postfixUnaryExpression (getUnaryPostfixExpression s.peek.kind)
          lhs .null s.peek, s.advance)) ∧
    (parseExpressionTop (mkToks [.Identifier, .DoublePlus, .Dot, .Identifier])).1 =
      factory.postfixUnaryExpression .PostincrementExpression
        (factory.identifierName { kind := .Identifier, val := 0, loc := 0 })
        .null { kind := .DoublePlus, val := 1, loc := 1 } ∧
    (parseExpressionTop
      (mkToks [.Identifier, .DoublePlus, .Dot, .Identifier])).2.pos = 2 := by
  refine ⟨?_, by rfl, by rfl⟩
  intro lhs options depth fuel s h
  simp only [go]
  unfold parsePostfixExpression
  dsimp only [PState.consume]
  rcases h with h | h <;> rw [h]

/-- C10 witness: a postfix `++` on a one-token stream. -/
theorem C10_postfix_incdec_stops_witness :
    go 3 (.post (factory.identifierName { kind := .Identifier })
        ExpressionOptions.none 0) (initState (mkToks [.DoublePlus])) =
      (factory.postfixUnaryExpression
        (getUnaryPostfixExpression
          (initState (mkToks [.DoublePlus])).peek.kind)
        (factory.identifierName { kind := .Identifier }) .null
        (initState (mkToks [.DoublePlus])).peek,
       (initState (mkToks [.DoublePlus])).advance) :=
  C10_postfix_incdec_stops.1 (factory.identifierName { kind := .Identifier })
    ExpressionOptions.none 0 2 (initState (mkToks [.DoublePlus])) (Or.inl rfl)

/-- C2 counterexample: in constraint context, the implication operator is
a recognized binary operator whose precedence is strictly greater than the
caller's minimum, yet the climb consumes nothing and folds nothing — the
left operand and the whole state come back unchanged, refuting the
claimed "if and only if". -/
theorem C2_binary_climb_counterexample :
    ∃ (left : SyntaxNode) (options : ExpressionOptions)
      (precedence depth fuel : Nat) (s : PState),
      getBinaryExpression s.peek.kind ≠ .Unknown ∧
      precedence < getPrecedence (getBinaryExpression s.peek.kind) ∧
      (go (fuel + 1) (.bin left options precedence depth) s).1 = left ∧
      (go (fuel + 1) (.bin left options precedence depth) s).2 = s := by
  refine ⟨factory.identifierName { kind := .Identifier },
    { constraintContext := true }, 0, 1, 6,
    initState (mkToks [.MinusArrow, .Identifier]), ?_, ?_, ?_, ?_⟩
  · decide
  · decide
  · rfl
  · rfl

/-- C2 (corrected): one step of the precedence climb consumes and folds
the operator exactly when the token is a recognized binary operator, it
is not the implication operator in constraint context, and its precedence
is strictly greater than the caller's minimum or equal with a
right-associative operator; the right operand is then parsed at the
operator's precedence.  Consequently `a + b * c` binds `b * c` under the
`+`, and right-associative `a -> b -> c` groups as `a -> (b -> c)`. -/
theorem C2_binary_climb_corrected :
    (∀ (left : SyntaxNode) (options : ExpressionOptions)
       (precedence depth fuel : Nat) (s : PState) (opKind : SyntaxKind),
      opKind = (if getBinaryExpression s.peek.kind = .LessThanEqualExpression ∧
          options.proceduralAssignmentContext = true then
        SyntaxKind.NonblockingAssignmentExpression
      else getBinaryExpression s.peek.kind) →
      getBinaryExpression s.peek.kind ≠ .Unknown →
      ¬ (getBinaryExpression s.peek.kind = .LogicalImplicationExpression ∧
          options.constraintContext = true) →
      (precedence < getPrecedence opKind ∨
        (getPrecedence opKind = precedence ∧
          isRightAssociative opKind = true)) →
      go (fuel + 1) (.bin left options precedence depth) s =
        (let c := s.consume
         let r := go fuel (.sub
             { options with proceduralAssignmentContext := false }
             (getPrecedence opKind) depth) c.2
         go fuel (.bin (factory.binaryExpression opKind left c.1 .null r.1)
             { options with proceduralAssignmentContext := false } precedence
             depth) r.2)) ∧
    (∀ (left : SyntaxNode) (options : ExpressionOptions)
       (precedence depth fuel : Nat) (s : PState) (opKind : SyntaxKind),
      opKind = (if getBinaryExpression s.peek.kind = .LessThanEqualExpression ∧
          options.proceduralAssignmentContext = true then
        SyntaxKind.NonblockingAssignmentExpression
      else getBinaryExpression s.peek.kind) →
      getBinaryExpression s.peek.kind ≠ .Unknown →
      ¬ (getBinaryExpression s.peek.kind = .LogicalImplicationExpression ∧
          options.constraintContext = true) →
      ¬ (precedence < getPrecedence opKind ∨
        (getPrecedence opKind = precedence ∧
          isRightAssociative opKind = true)) →
      go (fuel + 1) (.bin left options precedence depth) s =
        go fuel (.cstage left
          { options with proceduralAssignmentContext := false } precedence
          depth) s) ∧
    (∀ (left : SyntaxNode) (options : ExpressionOptions)
       (precedence depth fuel : Nat) (s : PState),
      getBinaryExpression s.peek.kind = .Unknown ∨
        (getBinaryExpression s.peek.kind = .LogicalImplicationExpression ∧
          options.constraintContext = true) →
      go (fuel + 1) (.bin left options precedence depth) s =
        go fuel (.cstage left options precedence depth) s) ∧
    (parseExpressionTop (mkToks [.Identifier, .Plus, .Identifier, .Star,
        .Identifier])).1 =
      factory.binaryExpression .AddExpression
        (factory.identifierName { kind := .Identifier, val := 0, loc := 0 })
        { kind := .Plus, val := 1, loc := 1 } .null
        (factory.binaryExpression .MultiplyExpression
          (factory.identifierName { kind := .Identifier, val := 2, loc := 2 })
          { kind := .Star, val := 3, loc := 3 } .null
          (factory.identifierName
            { kind := .Identifier, val := 4, loc := 4 })) ∧
    (parseExpressionTop (mkToks [.Identifier, .MinusArrow, .Identifier,
        .MinusArrow, .Identifier])).1 =
      factory.binaryExpression .LogicalImplicationExpression
        (factory.identifierName { kind := .Identifier, val := 0, loc := 0 })
        { kind := .MinusArrow, val := 1, loc := 1 } .null
        (factory.binaryExpression .LogicalImplicationExpression
          (factory.identifierName { kind := .Identifier, val := 2, loc := 2 })
          { kind := .MinusArrow, val := 3, loc := 3 } .null
          (factory.identifierName
            { kind := .Identifier, val := 4, loc := 4 })) :=
  ⟨bin_step_take, bin_step_pass, bin_step_skip, rfl, rfl⟩

/-- C2 witness: one accepted climb step on `+ <literal>` at minimum
precedence zero. -/
theorem C2_binary_climb_corrected_witness :
    go 6 (.bin (factory.identifierName { kind := .Identifier })
        ExpressionOptions.none 0 1)
        (initState (mkToks [.Plus, .IntegerLiteral])) =
      (let c := (initState (mkToks [.Plus, .IntegerLiteral])).consume
       let r := go 5 (.sub
           { ExpressionOptions.none with proceduralAssignmentContext := false }
           (getPrecedence .AddExpression) 1) c.2
       go 5 (.bin (factory.binaryExpression .AddExpression
           (factory.identifierName { kind := .Identifier }) c.1 .null r.1)
           { ExpressionOptions.none with proceduralAssignmentContext := false }
           0 1) r.2) :=
  C2_binary_climb_corrected.1 (factory.identifierName { kind := .Identifier })
    ExpressionOptions.none 0 1 5 (initState (mkToks [.Plus, .IntegerLiteral]))
    .AddExpression (by decide) (by decide) (by decide) (by decide)

/-- C3: a `<=` parsed with the procedural-assignment flag folds as a
nonblocking assignment and the recursive calls carry the flag cleared
(`ExpressionOptions.none`), while without the flag it folds as a
less-than-or-equal comparison; so in `a <= b <= c` with the flag set only
the first `<=` becomes a nonblocking assignment, the second parses as a
comparison. -/
theorem C3_nonblocking_assignment_flag :
    (∀ (left : SyntaxNode) (depth fuel : Nat) (s : PState),
      s.peek.kind = .LessThanEquals →
      go (fuel + 1)
          (.bin left { proceduralAssignmentContext := true } 0 depth) s =
        (let c := s.consume
         let r := go fuel (.sub ExpressionOptions.none 1 depth) c.2
         go fuel (.bin (factory.binaryExpression
             .NonblockingAssignmentExpression left c.1 .null r.1)
             ExpressionOptions.none 0 depth) r.2)) ∧
    (∀ (left : SyntaxNode) (depth fuel : Nat) (s : PState),
      s.peek.kind = .LessThanEquals →
      go (fuel + 1) (.bin left ExpressionOptions.none 0 depth) s =
        (let c := s.consume
         let r := go fuel (.sub ExpressionOptions.none 9 depth) c.2
         go fuel (.bin (factory.binaryExpression .LessThanEqualExpression
             left c.1 .null r.1) ExpressionOptions.none 0 depth) r.2)) ∧
    (parseExpressionWith { proceduralAssignmentContext := true }
        (mkToks [.Identifier, .LessThanEquals, .Identifier, .LessThanEquals,
          .Identifier])).1 =
      factory.binaryExpression .NonblockingAssignmentExpression
        (factory.identifierName { kind := .Identifier, val := 0, loc := 0 })
        { kind := .LessThanEquals, val := 1, loc := 1 } .null
        (factory.binaryExpression .LessThanEqualExpression
          (factory.identifierName { kind := .Identifier, val := 2, loc := 2 })
          { kind := .LessThanEquals, val := 3, loc := 3 } .null
          (factory.identifierName
            { kind := .Identifier, val := 4, loc := 4 })) ∧
    (parseExpressionWith ExpressionOptions.none
        (mkToks [.Identifier, .LessThanEquals, .Identifier])).1 =
      factory.binaryExpression .LessThanEqualExpression
        (factory.identifierName { kind := .Identifier, val := 0, loc := 0 })
        { kind := .LessThanEquals, val := 1, loc := 1 } .null
        (factory.identifierName { kind := .Identifier, val := 2, loc := 2 }) := by
  refine ⟨?_, ?_, by rfl, by rfl⟩
  · intro left depth fuel s h
    exact bin_step_take left { proceduralAssignmentContext := true } 0 depth
      fuel s .NonblockingAssignmentExpression (by rw [h]; decide)
      (by rw [h]; decide)
      (by rw [h]; decide) (by decide)
  · intro left depth fuel s h
    exact bin_step_take left ExpressionOptions.none 0 depth fuel s
      .LessThanEqualExpression (by rw [h]; decide) (by rw [h]; decide)
      (by rw [h]; decide) (by decide)

/-- C3 witness: one `<= <literal>` step with the flag set. -/
theorem C3_nonblocking_assignment_flag_witness :
    go 4 (.bin (factory.identifierName { kind := .Identifier })
        { proceduralAssignmentContext := true } 0 1)
        (initState (mkToks [.LessThanEquals, .IntegerLiteral])) =
      (let c := (initState (mkToks [.LessThanEquals, .IntegerLiteral])).consume
       let r := go 3 (.sub ExpressionOptions.none 1 1) c.2
       go 3 (.bin (factory.binaryExpression .NonblockingAssignmentExpression
           (factory.identifierName { kind := .Identifier }) c.1 .null r.1)
           ExpressionOptions.none 0 1) r.2) :=
  C3_nonblocking_assignment_flag.1
    (factory.identifierName { kind := .Identifier }) 1 3
    (initState (mkToks [.LessThanEquals, .IntegerLiteral])) rfl

/-- C5: the conditional stage after the climb is taken only outside
pattern context and below the conditional's precedence level (one below
logical-or); on `matches` or `&&&` a forward scan for `?` decides whether
to commit; when it commits, both branches are parsed at one level below
logical-or precedence, which makes the conditional right-associative:
`a ? b : c ? d : e` groups as `a ? b : (c ? d : e)`. -/
theorem C5_conditional_stage :
    (∀ (left : SyntaxNode) (options : ExpressionOptions)
       (precedence depth fuel : Nat) (s : PState),
      options.patternContext = true ∨
        getPrecedence .LogicalOrExpression ≤ precedence →
      go (fuel + 1) (.cstage left options precedence depth) s = (left, s)) ∧
    (∀ (left : SyntaxNode) (options : ExpressionOptions)
       (precedence depth fuel : Nat) (s : PState),
      options.patternContext = false →
      precedence < getPrecedence .LogicalOrExpression →
      (s.peek.kind = .MatchesKeyword ∨ s.peek.kind = .TripleAnd) →
      (isConditionalExpression s).1 = false →
      go (fuel + 1) (.cstage left options precedence depth) s = (left, s)) ∧
    (∀ (left : SyntaxNode) (options : ExpressionOptions)
       (precedence depth fuel : Nat) (s : PState),
      options.patternContext = false →
      precedence < getPrecedence .LogicalOrExpression →
      (s.peek.kind = .Question ∨
        ((s.peek.kind = .MatchesKeyword ∨ s.peek.kind = .TripleAnd) ∧
          (isConditionalExpression s).1 = true)) →
      go (fuel + 1) (.cstage left options precedence depth) s =
        (let r1 := go fuel (.cpred left .Question depth) s
         let r2 := go fuel (.sub options
             (getPrecedence .LogicalOrExpression - 1) depth) r1.2
         let e := r2.2.expect .Colon
         let r3 := go fuel (.sub options
             (getPrecedence .LogicalOrExpression - 1) depth) e.2
         (factory.conditionalExpression (r1.1.child 0) (r1.1.tokChild 1)
            .null r2.1 e.1 r3.1, r3.2))) ∧
    (parseExpressionTop (mkToks [.Identifier, .Question, .Identifier, .Colon,
        .Identifier, .Question, .Identifier, .Colon, .Identifier])).1 =
      factory.conditionalExpression
        (factory.conditionalPredicate [factory.conditionalPattern
          (factory.identifierName { kind := .Identifier, val := 0, loc := 0 })
          .null])
        { kind := .Question, val := 1, loc := 1 } .null
        (factory.identifierName { kind := .Identifier, val := 2, loc := 2 })
        { kind := .Colon, val := 3, loc := 3 }
        (factory.conditionalExpression
          (factory.conditionalPredicate [factory.conditionalPattern
            (factory.identifierName
              { kind := .Identifier, val := 4, loc := 4 }) .null])
          { kind := .Question, val := 5, loc := 5 } .null
          (factory.identifierName { kind := .Identifier, val := 6, loc := 6 })
          { kind := .Colon, val := 7, loc := 7 }
          (factory.identifierName
            { kind := .Identifier, val := 8, loc := 8 })) :=
  ⟨cstage_blocked, cstage_scan_no, cstage_commit, rfl⟩

/-- C5 witness: a `?` at minimum precedence zero commits to the
conditional path. -/
theorem C5_conditional_stage_witness :
    go 4 (.cstage (factory.identifierName { kind := .Identifier })
        ExpressionOptions.none 0 1)
        (initState (mkToks [.Question, .Identifier, .Colon, .Identifier])) =
      (let r1 := go 3 (.cpred (factory.identifierName { kind := .Identifier })
           .Question 1)
           (initState (mkToks [.Question, .Identifier, .Colon, .Identifier]))
       let r2 := go 3 (.sub ExpressionOptions.none
           (getPrecedence .LogicalOrExpression - 1) 1) r1.2
       let e := r2.2.expect .Colon
       let r3 := go 3 (.sub ExpressionOptions.none
           (getPrecedence .LogicalOrExpression - 1) 1) e.2
       (factory.conditionalExpression (r1.1.child 0) (r1.1.tokChild 1) .null
          r2.1 e.1 r3.1, r3.2)) :=
  C5_conditional_stage.2.2.1 (factory.identifierName { kind := .Identifier })
    ExpressionOptions.none 0 1 3
    (initState (mkToks [.Question, .Identifier, .Colon, .Identifier]))
    rfl (by decide) (Or.inl rfl)

/-- C4: a parenthesized group in a sequence context is reinterpreted as a
plain parenthesized expression — with postfix/binary parsing resumed on
it — exactly when the inner result is a simple (non-temporal) sequence,
the next token is the closing parenthesis, and the token after it can
continue a binary/postfix expression; otherwise it stays a parenthesized
sequence node with optional match list and repetition.  Concretely
`(a) + b` in a sequence parse yields a plain binary addition, while
`(a ##1 b)` yields a parenthesized sequence node. -/
theorem C4_parenthesized_sequence_reinterpretation :
    (∀ (inner : SyntaxNode) (openParen : Token) (depth fuel : Nat)
       (s : PState),
      go (fuel + 1) (.fixp inner openParen depth) s =
        (let e := s.expect .CloseParenthesis
         let result := factory.parenthesizedExpression openParen
             (inner.child 0) e.1
         let r1 := go fuel (.post result { sequenceExpr := true } depth) e.2
         go fuel (.bin r1.1 { sequenceExpr := true } 0 depth) r1.2)) ∧
    (∀ (depth fuel : Nat) (s : PState),
      s.peek.kind = .OpenParenthesis →
      (let c := s.consume
       let r := go fuel (.seq 0 false depth) c.2
       ((r.1.kindOf = .SimpleSequenceExpr ∧
          r.2.peek.kind = .CloseParenthesis ∧
          isBinaryOrPostfixExpression (r.2.peekAt 1).kind = true) →
         go (fuel + 1) (.seqp depth) s =
           (let rf := go fuel (.fixp r.1 c.1 depth) r.2
            let rr := go fuel (.srep depth) rf.2
            (factory.simpleSequenceExpr rf.1 rr.1, rr.2))) ∧
       (¬ (r.1.kindOf = .SimpleSequenceExpr ∧
            r.2.peek.kind = .CloseParenthesis ∧
            isBinaryOrPostfixExpression (r.2.peekAt 1).kind = true) →
         go (fuel + 1) (.seqp depth) s =
           (let rm := go fuel (.sml depth) r.2
            let rr := go fuel (.srep depth) rm.2
            (factory.parenthesizedSequenceExpr c.1 r.1 (rm.1.child 0)
              (rm.1.tokChild 1) rr.1, rr.2))))) ∧
    (parseSequenceExprTop (mkToks [.OpenParenthesis, .Identifier,
        .CloseParenthesis, .Plus, .Identifier])).1 =
      factory.simpleSequenceExpr
        (factory.binaryExpression .AddExpression
          (factory.parenthesizedExpression
            { kind := .OpenParenthesis, val := 0, loc := 0 }
            (factory.identifierName { kind := .Identifier, val := 1, loc := 1 })
            { kind := .CloseParenthesis, val := 2, loc := 2 })
          { kind := .Plus, val := 3, loc := 3 } .null
          (factory.identifierName { kind := .Identifier, val := 4, loc := 4 }))
        .null ∧
    (parseSequenceExprTop (mkToks [.OpenParenthesis, .Identifier, .DoubleHash,
        .IntegerLiteral, .Identifier, .CloseParenthesis])).1 =
      factory.parenthesizedSequenceExpr
        { kind := .OpenParenthesis, val := 0, loc := 0 }
        (factory.delayedSequenceExpr
          (factory.simpleSequenceExpr
            (factory.identifierName { kind := .Identifier, val := 1, loc := 1 })
            .null)
          [factory.delayedSequenceElement
            { kind := .DoubleHash, val := 2, loc := 2 }
            (factory.literalExpression .IntegerLiteralExpression
              { kind := .IntegerLiteral, val := 3, loc := 3 })
            Option.none Option.none .null Option.none
            (factory.simpleSequenceExpr
              (factory.identifierName { kind := .Identifier, val := 4, loc := 4 })
              .null)])
        .null { kind := .CloseParenthesis, val := 5, loc := 5 } .null := by
  refine ⟨?_, ?_, by rfl, by rfl⟩
  · intro inner openParen depth fuel s
    rfl
  · intro depth fuel s h
    dsimp only
    constructor
    · intro hcond
      simp only [go]
      unfold parseSequencePrimary
      dsimp only
      rw [h]
      rw [if_pos hcond]
    · intro hcond
      simp only [go]
      unfold parseSequencePrimary
      dsimp only
      rw [h]
      rw [if_neg hcond]

/-- C4 witness: `( a ) + b` takes the reinterpretation path. -/
theorem C4_parenthesized_sequence_reinterpretation_witness :
    go 91 (.seqp 1)
        (initState (mkToks [.OpenParenthesis, .Identifier, .CloseParenthesis,
          .Plus, .Identifier])) =
      (let c := (initState (mkToks [.OpenParenthesis, .Identifier,
          .CloseParenthesis, .Plus, .Identifier])).consume
       let r := go 90 (.seq 0 false 1) c.2
       let rf := go 90 (.fixp r.1 c.1 1) r.2
       let rr := go 90 (.srep 1) rf.2
       (factory.simpleSequenceExpr rf.1 rr.1, rr.2)) :=
  (C4_parenthesized_sequence_reinterpretation.2.1 1 90
    (initState (mkToks [.OpenParenthesis, .Identifier, .CloseParenthesis,
      .Plus, .Identifier])) rfl).1 ⟨rfl, rfl, rfl⟩

/-- C6 counterexample: the path `a :: b . c` mixes both separators after
its first separator, yet the whole name parses to completion with zero
`InvalidAccessDotColon` diagnostics — only a `::` after a used `.` is
flagged, so "mixing produces exactly one diagnostic" fails as stated. -/
theorem C6_mixed_separator_counterexample :
    (go 8 (.name NameOptions.none 0) (initState (mkToks
      [.Identifier, .DoubleColon, .Identifier, .Dot, .Identifier]))).1.kindOf
      = .ScopedName ∧
    (go 8 (.name NameOptions.none 0) (initState (mkToks
      [.Identifier, .DoubleColon, .Identifier, .Dot, .Identifier]))).2.pos
      = 5 ∧
    countDiag .InvalidAccessDotColon
      (go 8 (.name NameOptions.none 0) (initState (mkToks
        [.Identifier, .DoubleColon, .Identifier, .Dot,
         .Identifier]))).2.diags = 0 :=
  ⟨rfl, rfl, rfl⟩

/-- C6 (corrected): over any flat scoped-name path, `parseName` reports
`InvalidAccessDotColon` exactly once when some `::` separator follows a
used `.` separator — no matter how many such mixed occurrences the path
contains — and zero times otherwise (in particular a `.` after `::` is
not flagged); parsing always continues to the end of the path and
returns a non-null name node. -/
theorem C6_mixed_separator_once (bs : List Bool) (fuel : Nat)
    (hfuel : bs.length + 3 ≤ fuel) :
    countDiag .InvalidAccessDotColon
      (go fuel (.name NameOptions.none 0)
        (initState (({ kind := TokenKind.Identifier } : Token) ::
          flatPath bs))).2.diags =
      (if mixesDotColon false bs then 1 else 0) ∧
    (go fuel (.name NameOptions.none 0)
      (initState (({ kind := TokenKind.Identifier } : Token) ::
        flatPath bs))).2.pos =
      (({ kind := TokenKind.Identifier } : Token) :: flatPath bs).length ∧
    (go fuel (.name NameOptions.none 0)
      (initState (({ kind := TokenKind.Identifier } : Token) ::
        flatPath bs))).1 ≠ SyntaxNode.null ∧
    (go fuel (.name NameOptions.none 0)
      (initState (({ kind := TokenKind.Identifier } : Token) ::
        flatPath bs))).2.toks =
      (({ kind := TokenKind.Identifier } : Token) :: flatPath bs) ∧
    (go fuel (.name NameOptions.none 0)
      (initState (({ kind := TokenKind.Identifier } : Token) ::
        flatPath bs))).2.fuelLow = false := by
  obtain ⟨n, rfl⟩ : ∃ n, fuel = n + 1 := ⟨fuel - 1, by omega⟩
  have hnb : ((flatPath bs).headD (eofToken (([] : List Token) ++
      ({ kind := TokenKind.Identifier } : Token) :: flatPath bs))).kind ≠
      .OpenBracket := by
    intro h
    cases bs with
    | nil => simp [flatPath, eofToken] at h
    | cons b2 bs2 => cases b2 <;> simp [flatPath] at h
  simp only [go]
  unfold parseName
  dsimp only
  rw [show (initState (({ kind := TokenKind.Identifier } : Token) ::
      flatPath bs)) =
    { toks := ([] : List Token) ++
        ({ kind := TokenKind.Identifier } : Token) :: flatPath bs,
      pos := ([] : List Token).length, diags := [], fuelLow := false }
    from by simp [initState]]
  rw [npart_ident { NameOptions.none with isFirst := true } 0 n
    ([] : List Token) (flatPath bs)
    ({ kind := TokenKind.Identifier } : Token) [] rfl hnb (by omega)]
  dsimp only
  rw [state_shift ([] : List Token)
    ({ kind := TokenKind.Identifier } : Token) (flatPath bs) []]
  rw [nameLoop_flatPath bs n (by omega)]
  refine ⟨?_, ?_, ?_, by simp, rfl⟩
  · cases hm : mixesDotColon false bs <;>
      simp [countDiag, hm]
  · simp only [List.length_append, List.length_cons, List.length_nil,
      flatPath_length]
    omega
  · exact flatPathNode_ne_null bs _ node_ne_null

/-- C6 witness: the path `a . b :: c` is flagged exactly once and still
parses to completion. -/
theorem C6_mixed_separator_once_witness :
    (let toks := ({ kind := TokenKind.Identifier } : Token) ::
       flatPath [true, false]
     let r := go 20 (.name NameOptions.none 0) (initState toks)
     countDiag .InvalidAccessDotColon r.2.diags =
       (if mixesDotColon false [true, false] then 1 else 0) ∧
     r.2.pos = toks.length ∧
     r.1 ≠ SyntaxNode.null ∧
     r.2.toks = toks ∧
     r.2.fuelLow = false) :=
  C6_mixed_separator_once [true, false] 20 (by decide)

/-- Length of the default-item blocks. -/
theorem defaultBlocks_length (ls : List Nat) :
    (defaultBlocks ls).length = 4 * ls.length := by
  induction ls with
  | nil => rfl
  | cons l ls ih =>
    show (defaultBlocks ls).length + 1 + 1 + 1 + 1 = 4 * (ls.length + 1)
    omega

/-- Length of a whole case stream. -/
theorem caseStream_length (ls : List Nat) :
    (caseStream ls).length = 4 * ls.length + 5 := by
  show (defaultBlocks ls ++
    [({ kind := TokenKind.EndCaseKeyword } : Token)]).length + 1 + 1 + 1 + 1 =
    4 * ls.length + 5
  simp only [List.length_append, List.length_cons, List.length_nil,
    defaultBlocks_length]

/-- One case item per default block. -/
theorem defaultItems_length (ls : List Nat) :
    (defaultItems ls).length = ls.length := by
  induction ls with
  | nil => rfl
  | cons l ls ih =>
    show (defaultItems ls).length + 1 = ls.length + 1
    omega

/-- The item list produced by a non-empty run of default blocks is
non-empty. -/
theorem pairResult_items_ne_empty (l0 : Nat) (ls2 : List Nat) :
    ((SyntaxNode.node SyntaxKind.PairResult
      [SyntaxNode.node SyntaxKind.SyntaxList
        (([] : List SyntaxNode) ++ defaultItems (l0 :: ls2))]).child
      0).childrenOf.isEmpty = false := rfl

/-- A whole-stream case property parse over default blocks: the case
header is consumed, every default item is parsed and kept, `endcase` is
consumed, and the diagnostics are exactly `caseDupDiags`. -/
theorem casep_run (l0 : Nat) (ls2 : List Nat) :
    parsePropertyExprTop (caseStream (l0 :: ls2)) =
      (factory.casePropertyExpr { kind := .CaseKeyword }
        { kind := .OpenParenthesis }
        (factory.identifierName { kind := .Identifier })
        { kind := .CloseParenthesis } (defaultItems (l0 :: ls2))
        { kind := .EndCaseKeyword },
       { toks := caseStream (l0 :: ls2), pos := (caseStream (l0 :: ls2)).length,
         diags := caseDupDiags Option.none false (l0 :: ls2),
         fuelLow := false }) := by
  have hlen : (caseStream (l0 :: ls2)).length = 4 * (ls2.length + 1) + 5 := by
    rw [caseStream_length]
    simp only [List.length_cons]
  obtain ⟨M, hM, hMb⟩ : ∃ M, stdFuel (caseStream (l0 :: ls2)) = M + 1 ∧
      ls2.length + 14 ≤ M :=
    ⟨stdFuel (caseStream (l0 :: ls2)) - 1, by simp only [stdFuel]; omega,
     by simp only [stdFuel]; omega⟩
  have hcasep : ∀ k, ls2.length + 12 ≤ k →
      go k (.casep 1)
        { toks := caseStream (l0 :: ls2), pos := 0, diags := [],
          fuelLow := false } =
      (factory.casePropertyExpr { kind := .CaseKeyword }
        { kind := .OpenParenthesis }
        (factory.identifierName { kind := .Identifier })
        { kind := .CloseParenthesis } (defaultItems (l0 :: ls2))
        { kind := .EndCaseKeyword },
       { toks := caseStream (l0 :: ls2),
         pos := (caseStream (l0 :: ls2)).length,
         diags := caseDupDiags Option.none false (l0 :: ls2),
         fuelLow := false }) := by
    intro k hk
    obtain ⟨j, rfl⟩ : ∃ j, k = j + 1 := ⟨k - 1, by omega⟩
    simp only [go]
    unfold parseCasePropertyExpr
    dsimp only [PState.consume, PState.expect]
    rw [show ({ toks := caseStream (l0 :: ls2), pos := 0, diags := [],
                fuelLow := false } : PState) =
      { toks := ([] : List Token) ++
          ({ kind := TokenKind.CaseKeyword } : Token) ::
          (({ kind := TokenKind.OpenParenthesis } : Token) ::
           ({ kind := TokenKind.Identifier } : Token) ::
           ({ kind := TokenKind.CloseParenthesis } : Token) ::
           (defaultBlocks (l0 :: ls2) ++
            [({ kind := TokenKind.EndCaseKeyword } : Token)])),
        pos := ([] : List Token).length, diags := [], fuelLow := false }
      from by simp [caseStream]]
    rw [peek_split ([] : List Token)
      ({ kind := TokenKind.CaseKeyword } : Token) _ [] false]
    rw [advance_split ([] : List Token)
      ({ kind := TokenKind.CaseKeyword } : Token) _ [] false]
    dsimp only
    rw [state_shift ([] : List Token)
      ({ kind := TokenKind.CaseKeyword } : Token)]
    rw [peek_split ([] ++ [({ kind := TokenKind.CaseKeyword } : Token)])
      ({ kind := TokenKind.OpenParenthesis } : Token) _ [] false]
    rw [if_pos rfl]
    dsimp only
    rw [advance_split ([] ++ [({ kind := TokenKind.CaseKeyword } : Token)])
      ({ kind := TokenKind.OpenParenthesis } : Token) _ [] false]
    rw [state_shift ([] ++ [({ kind := TokenKind.CaseKeyword } : Token)])
      ({ kind := TokenKind.OpenParenthesis } : Token)]
    rw [eod_single_ident ExpressionOptions.none 1 j
      (([] ++ [({ kind := TokenKind.CaseKeyword } : Token)]) ++
        [({ kind := TokenKind.OpenParenthesis } : Token)])
      (({ kind := TokenKind.CloseParenthesis } : Token) ::
        (defaultBlocks (l0 :: ls2) ++
         [({ kind := TokenKind.EndCaseKeyword } : Token)]))
      ({ kind := TokenKind.Identifier } : Token) [] rfl rfl (by decide)
      (by omega)]
    dsimp only
    rw [state_shift (([] ++ [({ kind := TokenKind.CaseKeyword } : Token)]) ++
        [({ kind := TokenKind.OpenParenthesis } : Token)])
      ({ kind := TokenKind.Identifier } : Token)]
    rw [peek_split ((([] ++ [({ kind := TokenKind.CaseKeyword } : Token)]) ++
        [({ kind := TokenKind.OpenParenthesis } : Token)]) ++
        [({ kind := TokenKind.Identifier } : Token)])
      ({ kind := TokenKind.CloseParenthesis } : Token) _ [] false]
    rw [if_pos rfl]
    dsimp only
    rw [advance_split ((([] ++ [({ kind := TokenKind.CaseKeyword } : Token)]) ++
        [({ kind := TokenKind.OpenParenthesis } : Token)]) ++
        [({ kind := TokenKind.Identifier } : Token)])
      ({ kind := TokenKind.CloseParenthesis } : Token) _ [] false]
    rw [state_shift ((([] ++ [({ kind := TokenKind.CaseKeyword } : Token)]) ++
        [({ kind := TokenKind.OpenParenthesis } : Token)]) ++
        [({ kind := TokenKind.Identifier } : Token)])
      ({ kind := TokenKind.CloseParenthesis } : Token)]
    rw [← List.append_assoc (((([] : List Token) ++
        [({ kind := TokenKind.CaseKeyword } : Token)]) ++
        [({ kind := TokenKind.OpenParenthesis } : Token)]) ++
        [({ kind := TokenKind.Identifier } : Token)] ++
        [({ kind := TokenKind.CloseParenthesis } : Token)])
      (defaultBlocks (l0 :: ls2))
      [({ kind := TokenKind.EndCaseKeyword } : Token)]]
    rw [caseItems_defaultBlocks (l0 :: ls2) j
      (by simp only [List.length_cons]; omega)
      (((([] : List Token) ++ [({ kind := TokenKind.CaseKeyword } : Token)]) ++
        [({ kind := TokenKind.OpenParenthesis } : Token)]) ++
        [({ kind := TokenKind.Identifier } : Token)] ++
        [({ kind := TokenKind.CloseParenthesis } : Token)])
      ({ kind := TokenKind.EndCaseKeyword } : Token) [] [] Option.none false 1
      [] (by decide) (by decide) (by decide)]
    dsimp only
    rw [pairResult_items_ne_empty]
    rw [if_neg (show ¬(false = true) from by decide)]
    rw [show ((((([] : List Token) ++
        [({ kind := TokenKind.CaseKeyword } : Token)]) ++
        [({ kind := TokenKind.OpenParenthesis } : Token)]) ++
        [({ kind := TokenKind.Identifier } : Token)] ++
        [({ kind := TokenKind.CloseParenthesis } : Token)]).length +
        4 * (l0 :: ls2).length : Nat) =
      ((((([] : List Token) ++ [({ kind := TokenKind.CaseKeyword } : Token)]) ++
        [({ kind := TokenKind.OpenParenthesis } : Token)]) ++
        [({ kind := TokenKind.Identifier } : Token)] ++
        [({ kind := TokenKind.CloseParenthesis } : Token)]) ++
        defaultBlocks (l0 :: ls2)).length from by
      simp only [List.length_append, List.length_cons, List.length_nil,
        defaultBlocks_length]]
    rw [peek_split ((((([] : List Token) ++
        [({ kind := TokenKind.CaseKeyword } : Token)]) ++
        [({ kind := TokenKind.OpenParenthesis } : Token)]) ++
        [({ kind := TokenKind.Identifier } : Token)] ++
        [({ kind := TokenKind.CloseParenthesis } : Token)]) ++
        defaultBlocks (l0 :: ls2))
      ({ kind := TokenKind.EndCaseKeyword } : Token) []
      (caseDupDiags Option.none false (l0 :: ls2) ++ []) false]
    rw [if_pos rfl]
    dsimp only
    rw [advance_split ((((([] : List Token) ++
        [({ kind := TokenKind.CaseKeyword } : Token)]) ++
        [({ kind := TokenKind.OpenParenthesis } : Token)]) ++
        [({ kind := TokenKind.Identifier } : Token)] ++
        [({ kind := TokenKind.CloseParenthesis } : Token)]) ++
        defaultBlocks (l0 :: ls2))
      ({ kind := TokenKind.EndCaseKeyword } : Token) []
      (caseDupDiags Option.none false (l0 :: ls2) ++ []) false]
    simp only [Prod.mk.injEq, PState.mk.injEq]
    repeat' apply And.intro
    all_goals first
    | rfl
    | trivial
    | (simp only [List.length_append, List.length_cons, List.length_nil,
        defaultBlocks_length, caseStream_length]
       omega)
    | (simp [caseStream, List.append_assoc])
  have hproppRun : ∀ k, ls2.length + 13 ≤ k →
      go k (.propp 1)
        { toks := caseStream (l0 :: ls2), pos := 0, diags := [],
          fuelLow := false } =
      (factory.casePropertyExpr { kind := .CaseKeyword }
        { kind := .OpenParenthesis }
        (factory.identifierName { kind := .Identifier })
        { kind := .CloseParenthesis } (defaultItems (l0 :: ls2))
        { kind := .EndCaseKeyword },
       { toks := caseStream (l0 :: ls2),
         pos := (caseStream (l0 :: ls2)).length,
         diags := caseDupDiags Option.none false (l0 :: ls2),
         fuelLow := false }) := by
    intro k hk
    obtain ⟨j, rfl⟩ : ∃ j, k = j + 1 := ⟨k - 1, by omega⟩
    simp only [go]
    unfold parsePropertyPrimary
    dsimp only
    rw [show PState.peek { toks := caseStream (l0 :: ls2), pos := 0,
                           diags := [], fuelLow := false } =
      ({ kind := TokenKind.CaseKeyword } : Token) from rfl]
    exact hcasep j (by omega)
  have hloopFin : ∀ (k : Nat) (X : SyntaxNode), 1 ≤ k →
      go k (.propLoop X 0 1)
        { toks := caseStream (l0 :: ls2),
          pos := (caseStream (l0 :: ls2)).length,
          diags := caseDupDiags Option.none false (l0 :: ls2),
          fuelLow := false } =
      (X, { toks := caseStream (l0 :: ls2),
            pos := (caseStream (l0 :: ls2)).length,
            diags := caseDupDiags Option.none false (l0 :: ls2),
            fuelLow := false }) := by
    intro k X hk
    obtain ⟨j, rfl⟩ : ∃ j, k = j + 1 := ⟨k - 1, by omega⟩
    simp only [go]
    unfold parsePropertyExprLoop
    dsimp only
    have hpe : PState.peek { toks := caseStream (l0 :: ls2),
                             pos := (caseStream (l0 :: ls2)).length,
                             diags := caseDupDiags Option.none false (l0 :: ls2),
                             fuelLow := false } =
        eofToken (caseStream (l0 :: ls2)) := by
      show (caseStream (l0 :: ls2)).getD ((caseStream (l0 :: ls2)).length + 0)
        (eofToken (caseStream (l0 :: ls2))) = _
      rw [List.getD_eq_default]
      omega
    rw [hpe]
    rw [show getBinaryPropertyExpr
      (eofToken (caseStream (l0 :: ls2))).kind = SyntaxKind.Unknown from rfl]
    rw [if_pos rfl]
  unfold parsePropertyExprTop
  rw [show initState (caseStream (l0 :: ls2)) =
    { toks := caseStream (l0 :: ls2), pos := 0, diags := [],
      fuelLow := false } from rfl]
  rw [hM]
  simp only [go]
  unfold parsePropertyExpr
  dsimp only
  rw [if_neg (by decide)]
  rw [hproppRun M (by omega)]
  dsimp only
  rw [hloopFin M _ (by omega)]

/-- C7: a case property expression with two or more `default` items parses
without interruption to the very end (the `endcase` is consumed), every
item — including every duplicate default — is kept in the resulting node,
and the diagnostics are exactly one `MultipleDefaultCases`, fired at the
second default's location and carrying a linked `NotePreviousDefinition`
note at the first default's location. -/
theorem C7_duplicate_default (l0 l1 : Nat) (rest : List Nat) :
    (parsePropertyExprTop (caseStream (l0 :: l1 :: rest))).1 =
      factory.casePropertyExpr { kind := .CaseKeyword }
        { kind := .OpenParenthesis }
        (factory.identifierName { kind := .Identifier })
        { kind := .CloseParenthesis } (defaultItems (l0 :: l1 :: rest))
        { kind := .EndCaseKeyword } ∧
    (parsePropertyExprTop (caseStream (l0 :: l1 :: rest))).2.diags =
      [{ code := .MultipleDefaultCases, loc := l1,
         notes := [(.NotePreviousDefinition, l0)] }] ∧
    (parsePropertyExprTop (caseStream (l0 :: l1 :: rest))).2.pos =
      (caseStream (l0 :: l1 :: rest)).length ∧
    (parsePropertyExprTop (caseStream (l0 :: l1 :: rest))).2.fuelLow
      = false ∧
    (defaultItems (l0 :: l1 :: rest)).length = (l0 :: l1 :: rest).length := by
  have hd : caseDupDiags Option.none false (l0 :: l1 :: rest) =
      [{ code := .MultipleDefaultCases, loc := l1,
         notes := [(.NotePreviousDefinition, l0)] }] := by
    show (if Option.isSome (Option.none : Option Nat) = true ∧ false = false
      then _ else caseDupDiags (some l0) false (l1 :: rest)) = _
    rw [if_neg (by rintro ⟨h, _⟩; exact absurd h (by decide))]
    show (if Option.isSome (some l0) = true ∧ false = false
      then caseDupDiags (some l1) true rest ++ _ else _) = _
    rw [if_pos ⟨rfl, rfl⟩]
    rw [caseDupDiags_errored rest (some l1)]
    rfl
  rw [casep_run l0 (l1 :: rest)]
  dsimp only
  rw [hd]
  exact ⟨rfl, rfl, rfl, rfl, defaultItems_length _⟩
